import Mathlib

/-!
# Model predictive control: the optimisation problem of `MPC.cpp`

A shallow embedding of `src/MPC.cpp` and `src/MPC.h`.

Modelling conventions.

* `double` and `AD<double>` values are elements of a linearly ordered field `K`
  (exact arithmetic, no rounding, no NaN).  `CppAD::cos`, `CppAD::sin` and
  `CppAD::atan` are the three fields of a `Trig K`, about which nothing is
  assumed.  `CppAD::pow(e, 2)` is `e ^ 2`.
* `size_t` and `int` indices are natural numbers.  The horizon `N` (a global of
  the source, set to 10) is a parameter.  Sums and products of indices are
  exact; a `size_t` subtraction that would go below zero wraps around as in
  the source (`szSub`).
* A vector is a `Vec`: its contents together with the log of the indices
  assigned and the log of the indices read.  An access outside the vector is
  undefined behaviour in the source; here it makes the computation return
  `none`.
* The nonlinear solver (`CppAD::ipopt::solve`) is outside the repository: it is
  a parameter of `Solve`, a function from the problem handed to it to a
  `solve_result`.  Writes to `std::cout` are not modelled.
-/

namespace MPC

/-! ## Vectors with an access log -/

/-- A vector: contents, indices assigned so far and indices read so far (both
logs most recent first). -/
structure Vec (K : Type) where
  data : List K
  writes : List Nat
  reads : List Nat

/-- A vector that has not been accessed yet. -/
def Vec.fresh {K : Type} (l : List K) : Vec K := ⟨l, [], []⟩

/-- The element access `v[i]` used as a value. -/
def Vec.get {K : Type} (v : Vec K) (i : Nat) : Option (K × Vec K) :=
  match v.data[i]? with
  | some x => some (x, ⟨v.data, v.writes, i :: v.reads⟩)
  | none => none

/-- The assignment `v[i] = x`. -/
def Vec.set {K : Type} (v : Vec K) (i : Nat) (x : K) : Option (Vec K) :=
  if i < v.data.length then some ⟨v.data.set i x, i :: v.writes, v.reads⟩ else none

/-- `Dvector v(n)`: a vector of `n` elements whose initial contents `junk` are
not fixed by the source. -/
def newDvector {K : Type} (junk : Nat → K) (n : Nat) : Vec K :=
  Vec.fresh ((List.range n).map junk)

/-! ## Programs over a state -/

/-- A computation over a state `σ` that may hit an out-of-range access. -/
def Prog (σ α : Type) : Type := σ → Option (α × σ)

/-- Sequencing of computations. -/
def Prog.bind {σ α β : Type} (m : Prog σ α) (f : α → Prog σ β) : Prog σ β :=
  fun s => match m s with
    | some (a, s1) => f a s1
    | none => none

/-- The computation that returns `a` and leaves the state alone. -/
def Prog.pure {σ α : Type} (a : α) : Prog σ α := fun s => some (a, s)

instance {σ : Type} : Monad (Prog σ) where
  pure := Prog.pure
  bind := Prog.bind

/-- A value that may be undefined, used inside a program. -/
def Prog.ofOption {σ α : Type} (o : Option α) : Prog σ α :=
  fun s => match o with
    | some a => some (a, s)
    | none => none

/-- The iterations `i = lo, lo + 1, ..., lo + n - 1` of a `for` loop, in that
order. -/
def loopFrom {σ : Type} (body : Nat → Prog σ Unit) : Nat → Nat → Prog σ Unit
  | _, 0 => Prog.pure ()
  | lo, n + 1 => Prog.bind (body lo) (fun _ => loopFrom body (lo + 1) n)

/-- The loop `for (int i = lo; i < hi; i++) body(i)`. -/
def forLoop {σ : Type} (lo hi : Nat) (body : Nat → Prog σ Unit) : Prog σ Unit :=
  loopFrom body lo (hi - lo)

/-! ## Globals of `MPC.cpp` -/

/-- Subtraction of `size_t` values: it wraps around modulo `2 ^ 64` when the
result would be negative. -/
def szSub (a b : Nat) : Nat := if b ≤ a then a - b else a + 2 ^ 64 - b

section Globals

variable (K : Type) [LinearOrderedField K]

/-- The time step: `double dt = 0.1`. -/
def dt : K := 1 / 10

/-- The distance from the front axle to the centre of gravity:
`const double Lf = 2.67`. -/
def Lf : K := 267 / 100

/-- The reference cross-track error: `double ref_cte = 0`. -/
def ref_cte : K := 0

/-- The reference heading error: `double ref_epsi = 0`. -/
def ref_epsi : K := 0

/-- The reference speed: `double ref_v = 110`. -/
def ref_v : K := 110

/-- The weight `const int w_cte = 2500`. -/
def w_cte : K := 2500

/-- The weight `const int w_epsi = 2500`. -/
def w_epsi : K := 2500

/-- The weight `const int w_delta = 1`. -/
def w_delta : K := 1

/-- The weight `const int w_a = 1`. -/
def w_a : K := 1

/-- The weight `const int w_delta_diff = 200`. -/
def w_delta_diff : K := 200

/-- The weight `const int w_a_diff = 10`. -/
def w_a_diff : K := 10

end Globals

/-- The offset `size_t x_idx = 0`. -/
def x_idx (_N : Nat) : Nat := 0

/-- The offset `size_t y_idx = x_idx + N`. -/
def y_idx (N : Nat) : Nat := x_idx N + N

/-- The offset `size_t psi_idx = y_idx + N`. -/
def psi_idx (N : Nat) : Nat := y_idx N + N

/-- The offset `size_t v_idx = psi_idx + N`. -/
def v_idx (N : Nat) : Nat := psi_idx N + N

/-- The offset `size_t cte_idx = v_idx + N`. -/
def cte_idx (N : Nat) : Nat := v_idx N + N

/-- The offset `size_t epsi_idx = cte_idx + N`. -/
def epsi_idx (N : Nat) : Nat := cte_idx N + N

/-- The offset `size_t delta_idx = epsi_idx + N`. -/
def delta_idx (N : Nat) : Nat := epsi_idx N + N

/-- The offset `size_t a_idx = delta_idx + N - 1`. -/
def a_idx (N : Nat) : Nat := szSub (delta_idx N + N) 1

/-- The local `size_t n_vars = N * 6 + (N - 1) * 2` of `MPC::Solve`. -/
def n_vars (N : Nat) : Nat := N * 6 + szSub N 1 * 2

/-- The local `size_t n_constraints = N * 6` of `MPC::Solve`. -/
def n_constraints (N : Nat) : Nat := N * 6

/-! ## `FG_eval` -/

/-- The functions `CppAD::cos`, `CppAD::sin` and `CppAD::atan`. -/
structure Trig (K : Type) where
  cos : K → K
  sin : K → K
  atan : K → K

/-- The two arguments of `FG_eval::operator()`: the output vector `fg` and the
decision vector `vars`. -/
structure FGState (K : Type) where
  fg : Vec K
  vars : Vec K

section FGEval

variable {K : Type} [LinearOrderedField K]

/-- The value of `vars[i]`. -/
def rdVars (i : Nat) : Prog (FGState K) K :=
  fun s => match s.vars.get i with
    | some (x, v) => some (x, ⟨s.fg, v⟩)
    | none => none

/-- The value of `fg[k]`. -/
def rdFg (k : Nat) : Prog (FGState K) K :=
  fun s => match s.fg.get k with
    | some (x, f) => some (x, ⟨f, s.vars⟩)
    | none => none

/-- The assignment `fg[k] = x`. -/
def wrFg (k : Nat) (x : K) : Prog (FGState K) Unit :=
  fun s => match s.fg.set k x with
    | some f => some ((), ⟨f, s.vars⟩)
    | none => none

/-- The compound assignment `fg[k] += x`. -/
def addFg (k : Nat) (x : K) : Prog (FGState K) Unit := do
  let old ← rdFg k
  wrFg k (old + x)

/-- The value of `coeffs[j]`. -/
def rdCoeffs (coeffs : List K) (j : Nat) : Prog (FGState K) K :=
  Prog.ofOption coeffs[j]?

/-- Body of the loop "Cost based on the reference state". -/
def costRefBody (N : Nat) (i : Nat) : Prog (FGState K) Unit := do
  let cte ← rdVars (cte_idx N + i)
  addFg 0 (w_cte K * (cte - ref_cte K) ^ 2)
  let epsi ← rdVars (epsi_idx N + i)
  addFg 0 (w_epsi K * (epsi - ref_epsi K) ^ 2)
  let v ← rdVars (v_idx N + i)
  addFg 0 ((v - ref_v K) ^ 2)

/-- Body of the loop "Minimize the use of actuators". -/
def costActBody (N : Nat) (i : Nat) : Prog (FGState K) Unit := do
  let delta ← rdVars (delta_idx N + i)
  addFg 0 (w_delta K * delta ^ 2)
  let a ← rdVars (a_idx N + i)
  addFg 0 (w_a K * a ^ 2)

/-- Body of the loop "Minimize the value gap between sequential actuations". -/
def costGapBody (N : Nat) (i : Nat) : Prog (FGState K) Unit := do
  let d1 ← rdVars (delta_idx N + i + 1)
  let d0 ← rdVars (delta_idx N + i)
  addFg 0 (w_delta_diff K * (d1 - d0) ^ 2)
  let a1 ← rdVars (a_idx N + i + 1)
  let a0 ← rdVars (a_idx N + i)
  addFg 0 (w_a_diff K * (a1 - a0) ^ 2)

/-- The part of `FG_eval::operator()` under the comment "Cost": `fg[0] = 0`
and the three cost loops. -/
def costPart (N : Nat) : Prog (FGState K) Unit := do
  wrFg 0 0
  forLoop 0 N (costRefBody N)
  forLoop 0 (szSub N 1) (costActBody N)
  forLoop 0 (szSub N 2) (costGapBody N)

/-- The part of `FG_eval::operator()` under the comment "Initial
constraints". -/
def initialConstraints (N : Nat) : Prog (FGState K) Unit := do
  let x ← rdVars (x_idx N)
  wrFg (1 + x_idx N) x
  let y ← rdVars (y_idx N)
  wrFg (1 + y_idx N) y
  let psi ← rdVars (psi_idx N)
  wrFg (1 + psi_idx N) psi
  let v ← rdVars (v_idx N)
  wrFg (1 + v_idx N) v
  let cte ← rdVars (cte_idx N)
  wrFg (1 + cte_idx N) cte
  let epsi ← rdVars (epsi_idx N)
  wrFg (1 + epsi_idx N) epsi

/-- Body of the loop "The rest of the constraints". -/
def dynamicsBody (N : Nat) (T : Trig K) (coeffs : List K) (i : Nat) :
    Prog (FGState K) Unit := do
  let x1 ← rdVars (x_idx N + i + 1)
  let y1 ← rdVars (y_idx N + i + 1)
  let psi1 ← rdVars (psi_idx N + i + 1)
  let v1 ← rdVars (v_idx N + i + 1)
  let cte1 ← rdVars (cte_idx N + i + 1)
  let epsi1 ← rdVars (epsi_idx N + i + 1)
  let x0 ← rdVars (x_idx N + i)
  let y0 ← rdVars (y_idx N + i)
  let psi0 ← rdVars (psi_idx N + i)
  let v0 ← rdVars (v_idx N + i)
  let _cte0 ← rdVars (cte_idx N + i)
  let epsi0 ← rdVars (epsi_idx N + i)
  let delta0 ← rdVars (delta_idx N + i)
  let a0 ← rdVars (a_idx N + i)
  let c0 ← rdCoeffs coeffs 0
  let c1 ← rdCoeffs coeffs 1
  let c2 ← rdCoeffs coeffs 2
  let c3 ← rdCoeffs coeffs 3
  let f0 := c0 + c1 * x0 + c2 * x0 * x0 + c3 * x0 * x0 * x0
  let psides0 := T.atan (c1 + 2 * c2 * x0 + 3 * c3 * x0 * x0)
  wrFg (2 + x_idx N + i) (x1 - (x0 + v0 * T.cos psi0 * dt K))
  wrFg (2 + y_idx N + i) (y1 - (y0 + v0 * T.sin psi0 * dt K))
  wrFg (2 + psi_idx N + i) (psi1 - (psi0 + v0 * delta0 / Lf K * dt K))
  wrFg (2 + v_idx N + i) (v1 - (v0 + a0 * dt K))
  wrFg (2 + cte_idx N + i) (cte1 - ((f0 - y0) + (v0 * T.sin epsi0 * dt K)))
  wrFg (2 + epsi_idx N + i) (epsi1 - ((psi0 - psides0) + v0 * delta0 / Lf K * dt K))

/-- The part of `FG_eval::operator()` under the comment "The rest of the
constraints". -/
def dynamicsConstraints (N : Nat) (T : Trig K) (coeffs : List K) :
    Prog (FGState K) Unit :=
  forLoop 0 (szSub N 1) (dynamicsBody N T coeffs)

/-- The call `FG_eval(coeffs)(fg, vars)`. -/
def FG_eval (N : Nat) (T : Trig K) (coeffs : List K) : Prog (FGState K) Unit := do
  costPart N
  initialConstraints N
  dynamicsConstraints N T coeffs

/-! ### What `FG_eval` computes, in closed form

The expressions below are the right-hand sides of the assignments of
`FG_eval::operator()`, with `vars[i]` read off the contents `vd` of the
decision vector. -/

/-- What one iteration of the first cost loop adds to `fg[0]`. -/
def costRefTerm (N : Nat) (vd : List K) (i : Nat) : K :=
  w_cte K * (vd.getD (cte_idx N + i) 0 - ref_cte K) ^ 2 +
    w_epsi K * (vd.getD (epsi_idx N + i) 0 - ref_epsi K) ^ 2 +
    (vd.getD (v_idx N + i) 0 - ref_v K) ^ 2

/-- What one iteration of the second cost loop adds to `fg[0]`. -/
def costActTerm (N : Nat) (vd : List K) (i : Nat) : K :=
  w_delta K * vd.getD (delta_idx N + i) 0 ^ 2 + w_a K * vd.getD (a_idx N + i) 0 ^ 2

/-- What one iteration of the third cost loop adds to `fg[0]`. -/
def costGapTerm (N : Nat) (vd : List K) (i : Nat) : K :=
  w_delta_diff K * (vd.getD (delta_idx N + i + 1) 0 - vd.getD (delta_idx N + i) 0) ^ 2 +
    w_a_diff K * (vd.getD (a_idx N + i + 1) 0 - vd.getD (a_idx N + i) 0) ^ 2

/-- The value `fg[0]` holds after the three cost loops. -/
def objective (N : Nat) (vd : List K) : K :=
  0 + (∑ i ∈ Finset.range N, costRefTerm N vd i) +
    (∑ i ∈ Finset.range (szSub N 1), costActTerm N vd i) +
    (∑ i ∈ Finset.range (szSub N 2), costGapTerm N vd i)

/-- The value assigned to `fg[2 + x_idx + i]`. -/
def resX (N : Nat) (T : Trig K) (vd : List K) (i : Nat) : K :=
  vd.getD (x_idx N + i + 1) 0 -
    (vd.getD (x_idx N + i) 0 +
      vd.getD (v_idx N + i) 0 * T.cos (vd.getD (psi_idx N + i) 0) * dt K)

/-- The value assigned to `fg[2 + y_idx + i]`. -/
def resY (N : Nat) (T : Trig K) (vd : List K) (i : Nat) : K :=
  vd.getD (y_idx N + i + 1) 0 -
    (vd.getD (y_idx N + i) 0 +
      vd.getD (v_idx N + i) 0 * T.sin (vd.getD (psi_idx N + i) 0) * dt K)

/-- The value assigned to `fg[2 + psi_idx + i]`. -/
def resPsi (N : Nat) (vd : List K) (i : Nat) : K :=
  vd.getD (psi_idx N + i + 1) 0 -
    (vd.getD (psi_idx N + i) 0 +
      vd.getD (v_idx N + i) 0 * vd.getD (delta_idx N + i) 0 / Lf K * dt K)

/-- The value assigned to `fg[2 + v_idx + i]`. -/
def resV (N : Nat) (vd : List K) (i : Nat) : K :=
  vd.getD (v_idx N + i + 1) 0 -
    (vd.getD (v_idx N + i) 0 + vd.getD (a_idx N + i) 0 * dt K)

/-- The value assigned to `fg[2 + cte_idx + i]`. -/
def resCte (N : Nat) (T : Trig K) (coeffs vd : List K) (i : Nat) : K :=
  vd.getD (cte_idx N + i + 1) 0 -
    ((coeffs.getD 0 0 + coeffs.getD 1 0 * vd.getD (x_idx N + i) 0 +
          coeffs.getD 2 0 * vd.getD (x_idx N + i) 0 * vd.getD (x_idx N + i) 0 +
          coeffs.getD 3 0 * vd.getD (x_idx N + i) 0 * vd.getD (x_idx N + i) 0 *
            vd.getD (x_idx N + i) 0 -
        vd.getD (y_idx N + i) 0) +
      vd.getD (v_idx N + i) 0 * T.sin (vd.getD (epsi_idx N + i) 0) * dt K)

/-- The value assigned to `fg[2 + epsi_idx + i]`. -/
def resEpsi (N : Nat) (T : Trig K) (coeffs vd : List K) (i : Nat) : K :=
  vd.getD (epsi_idx N + i + 1) 0 -
    ((vd.getD (psi_idx N + i) 0 -
        T.atan (coeffs.getD 1 0 + 2 * coeffs.getD 2 0 * vd.getD (x_idx N + i) 0 +
          3 * coeffs.getD 3 0 * vd.getD (x_idx N + i) 0 * vd.getD (x_idx N + i) 0)) +
      vd.getD (v_idx N + i) 0 * vd.getD (delta_idx N + i) 0 / Lf K * dt K)

/-- The slots of `fg` that the first `j` iterations of the loop "The rest of
the constraints" assign: `fg[2 + b + i]` for each of the six offsets `b` and
each `i < j`. -/
def dynWritten (N j k : Nat) : Prop :=
  (2 + x_idx N ≤ k ∧ k < 2 + x_idx N + j) ∨ (2 + y_idx N ≤ k ∧ k < 2 + y_idx N + j) ∨
  (2 + psi_idx N ≤ k ∧ k < 2 + psi_idx N + j) ∨ (2 + v_idx N ≤ k ∧ k < 2 + v_idx N + j) ∨
  (2 + cte_idx N ≤ k ∧ k < 2 + cte_idx N + j) ∨ (2 + epsi_idx N ≤ k ∧ k < 2 + epsi_idx N + j)

/-- The slots of `fg` assigned under "Initial constraints", most recent
first. -/
def initWrites (N : Nat) : List Nat :=
  [1 + epsi_idx N, 1 + cte_idx N, 1 + v_idx N, 1 + psi_idx N, 1 + y_idx N, 1 + x_idx N]

/-- How a part of `FG_eval` that only touches `fg[0]` relates the state before
to the state after: `fg[0]` has grown by `inc`, nothing else in `fg` has
changed, every new write is a write of `fg[0]`, and every new read of `vars`
is inside the decision vector. -/
def CostStep (N : Nat) (inc : K) (s s1 : FGState K) : Prop :=
  ∃ fd1 W FR R,
    s1 = ⟨⟨fd1, W ++ s.fg.writes, FR ++ s.fg.reads⟩,
          ⟨s.vars.data, s.vars.writes, R ++ s.vars.reads⟩⟩ ∧
    fd1.length = s.fg.data.length ∧
    fd1[0]? = some (s.fg.data.getD 0 0 + inc) ∧
    (∀ k, k ≠ 0 → fd1[k]? = s.fg.data[k]?) ∧
    (∀ k ∈ W, k = 0) ∧ (∀ r ∈ R, r < n_vars N)

/-- What the first `j` iterations of the loop "The rest of the constraints"
have done to the state `s0` they started from. -/
def DynInv (N : Nat) (T : Trig K) (coeffs : List K) (s0 : FGState K) (j : Nat)
    (s : FGState K) : Prop :=
  ∃ fd1 W R,
    s = ⟨⟨fd1, W ++ s0.fg.writes, s0.fg.reads⟩,
         ⟨s0.vars.data, s0.vars.writes, R ++ s0.vars.reads⟩⟩ ∧
    fd1.length = s0.fg.data.length ∧
    (∀ i, i < j →
      fd1[2 + x_idx N + i]? = some (resX N T s0.vars.data i) ∧
      fd1[2 + y_idx N + i]? = some (resY N T s0.vars.data i) ∧
      fd1[2 + psi_idx N + i]? = some (resPsi N s0.vars.data i) ∧
      fd1[2 + v_idx N + i]? = some (resV N s0.vars.data i) ∧
      fd1[2 + cte_idx N + i]? = some (resCte N T coeffs s0.vars.data i) ∧
      fd1[2 + epsi_idx N + i]? = some (resEpsi N T coeffs s0.vars.data i)) ∧
    (∀ k, ¬ dynWritten N j k → fd1[k]? = s0.fg.data[k]?) ∧
    (∀ k, dynWritten N j k → W.count k = 1) ∧
    (∀ k, ¬ dynWritten N j k → W.count k = 0) ∧
    W.length = 6 * j ∧
    (∀ r ∈ R, r < n_vars N)

/-- The indices of `vars` read by iteration `i` of the loop "The rest of the
constraints", most recent first. -/
def dynReads (N i : Nat) : List Nat :=
  [a_idx N + i, delta_idx N + i, epsi_idx N + i, cte_idx N + i, v_idx N + i, psi_idx N + i,
   y_idx N + i, x_idx N + i, epsi_idx N + i + 1, cte_idx N + i + 1, v_idx N + i + 1,
   psi_idx N + i + 1, y_idx N + i + 1, x_idx N + i + 1]

/-- The slots of `fg` assigned by iteration `i` of the loop "The rest of the
constraints", most recent first. -/
def dynWrites (N i : Nat) : List Nat :=
  [2 + epsi_idx N + i, 2 + cte_idx N + i, 2 + v_idx N + i, 2 + psi_idx N + i,
   2 + y_idx N + i, 2 + x_idx N + i]

/-- The contents of `fg` after iteration `i` of the loop "The rest of the
constraints", given the contents `fd` before it. -/
def dynSet (N : Nat) (T : Trig K) (coeffs vd : List K) (i : Nat) (fd : List K) : List K :=
  (((((fd.set (2 + x_idx N + i) (resX N T vd i)).set
    (2 + y_idx N + i) (resY N T vd i)).set
    (2 + psi_idx N + i) (resPsi N vd i)).set
    (2 + v_idx N + i) (resV N vd i)).set
    (2 + cte_idx N + i) (resCte N T coeffs vd i)).set
    (2 + epsi_idx N + i) (resEpsi N T coeffs vd i)

end FGEval

/-! ## `MPC::Solve` -/

/-- The enumeration `CppAD::ipopt::solve_result<Dvector>::status_type` of the
solver library. -/
inductive status_type where
  | not_defined
  | success
  | maxiter_exceeded
  | stop_at_tiny_step
  | stop_at_acceptable_point
  | local_infeasibility
  | user_requested_stop
  | feasible_point_found
  | diverging_iterates
  | restoration_failure
  | error_in_step_computation
  | invalid_number_detected
  | too_few_degrees_of_freedom
  | internal_error
  | unknown
  deriving DecidableEq, Repr

/-- The fields of `CppAD::ipopt::solve_result<Dvector>` that `MPC::Solve`
uses. -/
structure solve_result (K : Type) where
  status : status_type
  x : List K
  obj_value : K

/-- The arguments of one call of `CppAD::ipopt::solve`. -/
structure Problem (K : Type) where
  options : String
  xi : List K
  xl : List K
  xu : List K
  gl : List K
  gu : List K
  fg_eval : Prog (FGState K) Unit

/-- The struct `Point` of `MPC.h`. -/
structure Point (K : Type) where
  x : K
  y : K

/-- The data members of the class `MPC`. -/
structure MPCObj (K : Type) where
  first_delta : K
  first_a : K
  predicted_points : List (Point K)

/-- The five vectors `MPC::Solve` builds before it calls the solver. -/
structure Locals (K : Type) where
  vars : Vec K
  vars_lowerbound : Vec K
  vars_upperbound : Vec K
  constraints_lowerbound : Vec K
  constraints_upperbound : Vec K

/-- The solver result being read and the object being written by the last
part of `MPC::Solve`. -/
structure ExtractState (K : Type) where
  sol : Vec K
  self : MPCObj K

/-- What one call of `MPC::Solve` does: the value returned, the object
afterwards, the five vectors as they are when the solver is called, the calls
of the solver in order, and the solver's vector with the log of the reads. -/
structure SolveRun (K : Type) where
  ret : Bool
  self : MPCObj K
  locals : Locals K
  calls : List (Problem K)
  sol : Vec K

section SolveInv

variable {K : Type}

/-- What `j` consecutive assignments `v[lo] = c`, ..., `v[lo + j - 1] = c` have
done to the vector `v0`. -/
def Filled (lo j : Nat) (c : K) (v0 v : Vec K) : Prop :=
  ∃ d W,
    v = ⟨d, W ++ v0.writes, v0.reads⟩ ∧ d.length = v0.data.length ∧
    (∀ k, lo ≤ k → k < lo + j → d[k]? = some c) ∧
    (∀ k, ¬ (lo ≤ k ∧ k < lo + j) → d[k]? = v0.data[k]?) ∧
    (∀ k, lo ≤ k → k < lo + j → W.count k = 1) ∧
    (∀ k, ¬ (lo ≤ k ∧ k < lo + j) → W.count k = 0)

/-- What the three loops that set the limits of the variables have done to one
of the two vectors of limits: the state blocks hold `cs`, the block of `delta`
holds `cd`, the block of `a` holds `ca`, and every entry has been assigned
once. -/
def VarBoundsPost (N : Nat) (cs cd ca : K) (v0 v : Vec K) : Prop :=
  ∃ d W,
    v = ⟨d, W ++ v0.writes, v0.reads⟩ ∧ d.length = n_vars N ∧
    (∀ k, k < delta_idx N → d[k]? = some cs) ∧
    (∀ k, delta_idx N ≤ k → k < a_idx N → d[k]? = some cd) ∧
    (∀ k, a_idx N ≤ k → k < n_vars N → d[k]? = some ca) ∧
    (∀ k, k < n_vars N → W.count k = 1) ∧
    (∀ k, n_vars N ≤ k → W.count k = 0)

end SolveInv

section Solve

variable {K : Type} [LinearOrderedField K]

/-- The assignment `vars[i] = c`. -/
def setVars (i : Nat) (c : K) : Prog (Locals K) Unit :=
  fun s => match s.vars.set i c with
    | some v => some ((), ⟨v, s.vars_lowerbound, s.vars_upperbound,
        s.constraints_lowerbound, s.constraints_upperbound⟩)
    | none => none

/-- The assignment `vars_lowerbound[i] = c`. -/
def setVarsLower (i : Nat) (c : K) : Prog (Locals K) Unit :=
  fun s => match s.vars_lowerbound.set i c with
    | some v => some ((), ⟨s.vars, v, s.vars_upperbound,
        s.constraints_lowerbound, s.constraints_upperbound⟩)
    | none => none

/-- The assignment `vars_upperbound[i] = c`. -/
def setVarsUpper (i : Nat) (c : K) : Prog (Locals K) Unit :=
  fun s => match s.vars_upperbound.set i c with
    | some v => some ((), ⟨s.vars, s.vars_lowerbound, v,
        s.constraints_lowerbound, s.constraints_upperbound⟩)
    | none => none

/-- The assignment `constraints_lowerbound[i] = c`. -/
def setConsLower (i : Nat) (c : K) : Prog (Locals K) Unit :=
  fun s => match s.constraints_lowerbound.set i c with
    | some v => some ((), ⟨s.vars, s.vars_lowerbound, s.vars_upperbound,
        v, s.constraints_upperbound⟩)
    | none => none

/-- The assignment `constraints_upperbound[i] = c`. -/
def setConsUpper (i : Nat) (c : K) : Prog (Locals K) Unit :=
  fun s => match s.constraints_upperbound.set i c with
    | some v => some ((), ⟨s.vars, s.vars_lowerbound, s.vars_upperbound,
        s.constraints_lowerbound, v⟩)
    | none => none

/-- The five declarations `Dvector vars(n_vars)`, ...,
`Dvector constraints_upperbound(n_constraints)`; `junk j` is what the `j`-th
vector holds before anything is assigned. -/
def allocLocals (N : Nat) (junk : Nat → Nat → K) : Locals K :=
  ⟨newDvector (junk 0) (n_vars N), newDvector (junk 1) (n_vars N),
   newDvector (junk 2) (n_vars N), newDvector (junk 3) (n_constraints N),
   newDvector (junk 4) (n_constraints N)⟩

/-- The part of `MPC::Solve` under "Initial value of the independent
variables". -/
def initialGuess (N : Nat) : Prog (Locals K) Unit :=
  forLoop 0 (n_vars N) (fun i => setVars i 0)

/-- The part of `MPC::Solve` that sets the lower and upper limits of the
variables (three loops). -/
def variableBounds (N : Nat) : Prog (Locals K) Unit := do
  forLoop 0 (delta_idx N) (fun i => do
    setVarsLower i (-(10 ^ 19))
    setVarsUpper i (10 ^ 19))
  forLoop (delta_idx N) (a_idx N) (fun i => do
    setVarsLower i (-(436332 / 1000000) * Lf K)
    setVarsUpper i (436332 / 1000000 * Lf K))
  forLoop (a_idx N) (n_vars N) (fun i => do
    setVarsLower i (-(7 / 10))
    setVarsUpper i (7 / 10))

/-- The part of `MPC::Solve` under "Lower and upper limits for the
constraints". -/
def constraintBounds (N : Nat) (x y psi v cte epsi : K) : Prog (Locals K) Unit := do
  forLoop 0 (n_constraints N) (fun i => do
    setConsLower i 0
    setConsUpper i 0)
  setConsLower (x_idx N) x
  setConsLower (y_idx N) y
  setConsLower (psi_idx N) psi
  setConsLower (v_idx N) v
  setConsLower (cte_idx N) cte
  setConsLower (epsi_idx N) epsi
  setConsUpper (x_idx N) x
  setConsUpper (y_idx N) y
  setConsUpper (psi_idx N) psi
  setConsUpper (v_idx N) v
  setConsUpper (cte_idx N) cte
  setConsUpper (epsi_idx N) epsi

/-- Everything `MPC::Solve` does to its five vectors before it calls the
solver. -/
def buildVectors (N : Nat) (x y psi v cte epsi : K) : Prog (Locals K) Unit := do
  initialGuess N
  variableBounds N
  constraintBounds N x y psi v cte epsi

/-- The string `options` of `MPC::Solve`. -/
def solverOptions : String :=
  "Integer print_level  0\n" ++ "Sparse  true        forward\n" ++
  "Sparse  true        reverse\n" ++ "Numeric max_cpu_time          0.5\n"

/-- The problem `MPC::Solve` hands to the solver, given the five vectors it
has built. -/
def problemOf (N : Nat) (T : Trig K) (coeffs : List K) (L : Locals K) : Problem K :=
  ⟨solverOptions, L.vars.data, L.vars_lowerbound.data, L.vars_upperbound.data,
    L.constraints_lowerbound.data, L.constraints_upperbound.data, FG_eval N T coeffs⟩

/-- The value of `solution.x[i]`. -/
def rdSol (i : Nat) : Prog (ExtractState K) K :=
  fun s => match s.sol.get i with
    | some (x, v) => some (x, ⟨v, s.self⟩)
    | none => none

/-- The assignment `this->first_delta = d`. -/
def setFirstDelta (d : K) : Prog (ExtractState K) Unit :=
  fun s => some ((), ⟨s.sol, ⟨d, s.self.first_a, s.self.predicted_points⟩⟩)

/-- The assignment `this->first_a = a`. -/
def setFirstA (a : K) : Prog (ExtractState K) Unit :=
  fun s => some ((), ⟨s.sol, ⟨s.self.first_delta, a, s.self.predicted_points⟩⟩)

/-- The call `this->predicted_points.resize(n)`: the first `n` points are kept
and value-initialised points are appended up to length `n`. -/
def resizePoints (n : Nat) : Prog (ExtractState K) Unit :=
  fun s => some ((), ⟨s.sol, ⟨s.self.first_delta, s.self.first_a,
    s.self.predicted_points.take n ++
      List.replicate (n - s.self.predicted_points.length) ⟨0, 0⟩⟩⟩)

/-- The assignment `this->predicted_points[i] = p`. -/
def setPoint (i : Nat) (p : Point K) : Prog (ExtractState K) Unit :=
  fun s => if i < s.self.predicted_points.length then
    some ((), ⟨s.sol, ⟨s.self.first_delta, s.self.first_a,
      s.self.predicted_points.set i p⟩⟩)
  else none

/-- The last part of `MPC::Solve`: the first actuations and the predicted
points are read off the solver's vector. -/
def extract (N : Nat) : Prog (ExtractState K) Unit := do
  let d ← rdSol (delta_idx N)
  setFirstDelta d
  let a ← rdSol (a_idx N)
  setFirstA a
  resizePoints N
  forLoop 0 N (fun i => do
    let px ← rdSol (x_idx N + i)
    let py ← rdSol (y_idx N + i)
    setPoint i ⟨px, py⟩)

/-- The method `bool MPC::Solve(Eigen::VectorXd state, Eigen::VectorXd coeffs)`
called on the object `self`. -/
def Solve (N : Nat) (T : Trig K) (solver : Problem K → solve_result K)
    (junk : Nat → Nat → K) (self : MPCObj K) (state coeffs : List K) :
    Option (SolveRun K) := do
  let ok := true
  let x ← state[0]?
  let y ← state[1]?
  let psi ← state[2]?
  let v ← state[3]?
  let cte ← state[4]?
  let epsi ← state[5]?
  let (_, L) ← buildVectors N x y psi v cte epsi (allocLocals N junk)
  let problem : Problem K := problemOf N T coeffs L
  let solution := solver problem
  let ok := ok && decide (solution.status = status_type.success)
  let (_, E) ← extract N ⟨Vec.fresh solution.x, self⟩
  pure ⟨ok, E.self, L, [problem], E.sol⟩

/-- The contents of a vector of constraint limits after the six assignments
that pin the initial state. -/
def pinSet (N : Nat) (x y psi v cte epsi : K) (d : List K) : List K :=
  (((((d.set (x_idx N) x).set (y_idx N) y).set (psi_idx N) psi).set (v_idx N) v).set
    (cte_idx N) cte).set (epsi_idx N) epsi

/-- The indices assigned by the six assignments that pin the initial state,
most recent first. -/
def pinWrites (N : Nat) : List Nat :=
  [epsi_idx N, cte_idx N, v_idx N, psi_idx N, y_idx N, x_idx N]

/-- What the part "Lower and upper limits for the constraints" leaves in each
of its two vectors: the six components of the state at the six offsets, 0
everywhere else. -/
def ConsPost (N : Nat) (x y psi v cte epsi : K) (d : List K) : Prop :=
  d.length = n_constraints N ∧
  (d[x_idx N]? = some x ∧ d[y_idx N]? = some y ∧ d[psi_idx N]? = some psi ∧
   d[v_idx N]? = some v ∧ d[cte_idx N]? = some cte ∧ d[epsi_idx N]? = some epsi) ∧
  (∀ k, k < n_constraints N → k ≠ x_idx N → k ≠ y_idx N → k ≠ psi_idx N → k ≠ v_idx N →
    k ≠ cte_idx N → k ≠ epsi_idx N → d[k]? = some 0)

/-- What the first `j` iterations of the loop over the predicted points have
done. -/
def ExtractInv (N : Nat) (sd : List K) (E0 : ExtractState K) (j : Nat)
    (E : ExtractState K) : Prop :=
  ∃ pp R,
    E = ⟨⟨sd, E0.sol.writes, R ++ E0.sol.reads⟩,
         ⟨E0.self.first_delta, E0.self.first_a, pp⟩⟩ ∧
    pp.length = N ∧
    (∀ i, i < j → pp[i]? = some ⟨sd.getD (x_idx N + i) 0, sd.getD (y_idx N + i) 0⟩) ∧
    (∀ r ∈ R, r < n_vars N)

end Solve

/-! ## The specification's side

The definitions of this part follow the words of the specification; the
theorems compare them with what the code computes. -/

/-- The state of the vehicle: position, heading, speed, cross-track error and
heading error. -/
structure State (K : Type) where
  x : K
  y : K
  psi : K
  v : K
  cte : K
  epsi : K

section Specification

variable {K : Type} [LinearOrderedField K]

/-- The reference curve `f`: the cubic with the coefficients `coeffs`. -/
def refCurve (coeffs : List K) (x : K) : K :=
  coeffs.getD 0 0 + coeffs.getD 1 0 * x + coeffs.getD 2 0 * x ^ 2 + coeffs.getD 3 0 * x ^ 3

/-- The slope `f'` of the reference curve. -/
def refSlope (coeffs : List K) (x : K) : K :=
  coeffs.getD 1 0 + 2 * coeffs.getD 2 0 * x + 3 * coeffs.getD 3 0 * x ^ 2

/-- The kinematic model: the state one time step after `s` under the steering
`delta` and the acceleration `a`. -/
def DynamicsModel (T : Trig K) (coeffs : List K) (s : State K) (delta a : K) : State K where
  x := s.x + s.v * T.cos s.psi * dt K
  y := s.y + s.v * T.sin s.psi * dt K
  psi := s.psi + s.v / Lf K * delta * dt K
  v := s.v + a * dt K
  cte := (refCurve coeffs s.x - s.y) + s.v * T.sin s.epsi * dt K
  epsi := (s.psi - T.atan (refSlope coeffs s.x)) + s.v * delta / Lf K * dt K

/-- The states obtained by iterating the kinematic model from `s0` under the
control sequences `delta` and `a`. -/
def trajectory (T : Trig K) (coeffs : List K) (s0 : State K) (delta a : Nat → K) :
    Nat → State K
  | 0 => s0
  | t + 1 => DynamicsModel T coeffs (trajectory T coeffs s0 delta a t) (delta t) (a t)

/-- The state at time step `t` held by a decision vector with contents `vd`:
the entries at offset `t` of the six state blocks. -/
def stateAt (N : Nat) (vd : List K) (t : Nat) : State K where
  x := vd.getD (x_idx N + t) 0
  y := vd.getD (y_idx N + t) 0
  psi := vd.getD (psi_idx N + t) 0
  v := vd.getD (v_idx N + t) 0
  cte := vd.getD (cte_idx N + t) 0
  epsi := vd.getD (epsi_idx N + t) 0

/-- The steering at time step `t` held by a decision vector. -/
def deltaAt (N : Nat) (vd : List K) (t : Nat) : K := vd.getD (delta_idx N + t) 0

/-- The acceleration at time step `t` held by a decision vector. -/
def aAt (N : Nat) (vd : List K) (t : Nat) : K := vd.getD (a_idx N + t) 0

/-- The difference, component by component, between the state at step `i + 1`
of a decision vector and what the kinematic model makes of its state and
controls at step `i`. -/
def modelGap (N : Nat) (T : Trig K) (coeffs vd : List K) (i : Nat) : State K where
  x := (stateAt N vd (i + 1)).x -
    (DynamicsModel T coeffs (stateAt N vd i) (deltaAt N vd i) (aAt N vd i)).x
  y := (stateAt N vd (i + 1)).y -
    (DynamicsModel T coeffs (stateAt N vd i) (deltaAt N vd i) (aAt N vd i)).y
  psi := (stateAt N vd (i + 1)).psi -
    (DynamicsModel T coeffs (stateAt N vd i) (deltaAt N vd i) (aAt N vd i)).psi
  v := (stateAt N vd (i + 1)).v -
    (DynamicsModel T coeffs (stateAt N vd i) (deltaAt N vd i) (aAt N vd i)).v
  cte := (stateAt N vd (i + 1)).cte -
    (DynamicsModel T coeffs (stateAt N vd i) (deltaAt N vd i) (aAt N vd i)).cte
  epsi := (stateAt N vd (i + 1)).epsi -
    (DynamicsModel T coeffs (stateAt N vd i) (deltaAt N vd i) (aAt N vd i)).epsi

/-- The objective `J` as the specification writes it, for the sequences
`cte`, `epsi`, `v`, `delta` and `a` of a decision vector. -/
def specJ (N : Nat) (cte epsi v delta a : Nat → K) : K :=
  (∑ t ∈ Finset.range N,
      (2500 * (cte t - 0) ^ 2 + 2500 * (epsi t - 0) ^ 2 + (v t - 110) ^ 2)) +
    (∑ t ∈ Finset.range (N - 1), (1 * delta t ^ 2 + 1 * a t ^ 2)) +
    (∑ t ∈ Finset.range (N - 2),
      (200 * (delta (t + 1) - delta t) ^ 2 + 10 * (a (t + 1) - a t) ^ 2))

/-- The eight blocks of the decision vector as the specification lists them,
each with its start and its length. -/
def blocks (N : Nat) : List (Nat × Nat) :=
  [(x_idx N, N), (y_idx N, N), (psi_idx N, N), (v_idx N, N), (cte_idx N, N),
   (epsi_idx N, N), (delta_idx N, N - 1), (a_idx N, N - 1)]

/-- The constraint vector: `fg` without its slot 0. -/
def constraintVector (fg : List K) : List K := fg.drop 1

/-- The vector `g` lies between the vectors `lo` and `hi`, entry by entry. -/
def withinBounds (lo hi g : List K) : Prop :=
  ∀ k, k < g.length → ∃ l h c, lo[k]? = some l ∧ hi[k]? = some h ∧ g[k]? = some c ∧
    l ≤ c ∧ c ≤ h

/-- The layout of the constraint vector `g` as the specification describes it:
entries 0 to 5 are the state at step 0, and entries `6 + 6 i` to `6 + 6 i + 5`
are the six components of the gap between step `i + 1` and the model applied
to step `i`. -/
def interleavedLayout (N : Nat) (T : Trig K) (coeffs vd g : List K) : Prop :=
  (g[0]? = some (stateAt N vd 0).x ∧ g[1]? = some (stateAt N vd 0).y ∧
   g[2]? = some (stateAt N vd 0).psi ∧ g[3]? = some (stateAt N vd 0).v ∧
   g[4]? = some (stateAt N vd 0).cte ∧ g[5]? = some (stateAt N vd 0).epsi) ∧
  ∀ i, i < N - 1 →
    g[6 + 6 * i]? = some (modelGap N T coeffs vd i).x ∧
    g[6 + 6 * i + 1]? = some (modelGap N T coeffs vd i).y ∧
    g[6 + 6 * i + 2]? = some (modelGap N T coeffs vd i).psi ∧
    g[6 + 6 * i + 3]? = some (modelGap N T coeffs vd i).v ∧
    g[6 + 6 * i + 4]? = some (modelGap N T coeffs vd i).cte ∧
    g[6 + 6 * i + 5]? = some (modelGap N T coeffs vd i).epsi

/-- The layout of the constraint vector `g` that the code produces: six blocks
of length `N` at the offsets of the six state blocks, each holding the entry
of step 0 followed by the gaps of steps `0` to `N - 2` for its component. -/
def blockLayout (N : Nat) (T : Trig K) (coeffs vd g : List K) : Prop :=
  (g[x_idx N]? = some (stateAt N vd 0).x ∧ g[y_idx N]? = some (stateAt N vd 0).y ∧
   g[psi_idx N]? = some (stateAt N vd 0).psi ∧ g[v_idx N]? = some (stateAt N vd 0).v ∧
   g[cte_idx N]? = some (stateAt N vd 0).cte ∧
   g[epsi_idx N]? = some (stateAt N vd 0).epsi) ∧
  ∀ i, i < N - 1 →
    g[x_idx N + 1 + i]? = some (modelGap N T coeffs vd i).x ∧
    g[y_idx N + 1 + i]? = some (modelGap N T coeffs vd i).y ∧
    g[psi_idx N + 1 + i]? = some (modelGap N T coeffs vd i).psi ∧
    g[v_idx N + 1 + i]? = some (modelGap N T coeffs vd i).v ∧
    g[cte_idx N + 1 + i]? = some (modelGap N T coeffs vd i).cte ∧
    g[epsi_idx N + 1 + i]? = some (modelGap N T coeffs vd i).epsi

end Specification

/-! ## The optimisation problem

Predicates over the embedding of `FG_eval` and of the vectors of limits that
`MPC::Solve` builds, for the statements about what a solution of the problem
looks like. -/

section Optimisation

variable {K : Type} [LinearOrderedField K]

/-- All the residuals of the dynamics loop are 0 in the output vector `fd`. -/
def dynResidualsZero (N : Nat) (fd : List K) : Prop :=
  ∀ i, i < N - 1 →
    fd[2 + x_idx N + i]? = some 0 ∧ fd[2 + y_idx N + i]? = some 0 ∧
    fd[2 + psi_idx N + i]? = some 0 ∧ fd[2 + v_idx N + i]? = some 0 ∧
    fd[2 + cte_idx N + i]? = some 0 ∧ fd[2 + epsi_idx N + i]? = some 0

/-- The right-hand side of `AD<double> f0 = ...` in `FG_eval::operator()`. -/
def f0 (coeffs : List K) (x0 : K) : K :=
  coeffs.getD 0 0 + coeffs.getD 1 0 * x0 + coeffs.getD 2 0 * x0 * x0 +
    coeffs.getD 3 0 * x0 * x0 * x0

/-- The argument of `CppAD::atan` in `AD<double> psides0 = ...` in
`FG_eval::operator()`. -/
def psides0Arg (coeffs : List K) (x0 : K) : K :=
  coeffs.getD 1 0 + 2 * coeffs.getD 2 0 * x0 + 3 * coeffs.getD 3 0 * x0 * x0

/-- The decision vector `z` is admissible for the problem that `MPC::Solve`
hands to the solver: it has `n_vars` entries within the limits of the
variables, and the constraint vector that `FG_eval` computes for it lies
within the limits of the constraints. -/
def Feasible (N : Nat) (T : Trig K) (coeffs : List K) (L : Locals K) (z : List K) : Prop :=
  z.length = n_vars N ∧
  withinBounds L.vars_lowerbound.data L.vars_upperbound.data z ∧
  ∃ out, FG_eval N T coeffs
      ⟨Vec.fresh (List.replicate (1 + n_constraints N) 0), Vec.fresh z⟩ = some ((), out) ∧
    withinBounds L.constraints_lowerbound.data L.constraints_upperbound.data
      (constraintVector out.fg.data)

/-- The decision vector `z` solves the problem: it is admissible and no
admissible vector has a smaller objective (the value `FG_eval` leaves in
`fg[0]`). -/
def IsSolution (N : Nat) (T : Trig K) (coeffs : List K) (L : Locals K) (z : List K) : Prop :=
  Feasible N T coeffs L z ∧ ∀ z2, Feasible N T coeffs L z2 → objective N z ≤ objective N z2

end Optimisation

/-! ## Concrete data for the examples -/

/-- Rational stand-ins for cosine, sine and arctangent that agree with them
at 0. -/
def ratTrig : Trig ℚ := ⟨fun x => 1 - x ^ 2 / 2, fun x => x, fun x => x⟩

/-- A decision vector for `N = 2`: the vehicle starts at the origin with speed
10 and drives one step straight ahead. -/
def straightVars : List ℚ := [0, 1, 0, 0, 0, 0, 10, 10, 0, 0, 0, 0, 0, 0]

/-- A decision vector for `N = 2` whose `y` at step 0 is 1. -/
def offsetVars : List ℚ := [0, 0, 1, 0, 0, 0, 0, 0, 0, 0, 0, 0, 0, 0]

/-- An output vector of 13 entries for `N = 2`. -/
def fgZero : List ℚ := List.replicate 13 0

/-- A solver that reports `st` and returns a fixed vector of 14 entries. -/
def fixedSolver (st : status_type) : Problem ℚ → solve_result ℚ :=
  fun _ => ⟨st, straightVars, 0⟩

/-- The decision vector for `N = 10` of a vehicle that starts at the origin
with speed 10, steers straight and accelerates by 0.7 at every step: the
blocks `x`, `y`, `psi`, `v`, `cte`, `epsi`, `delta`, `a`. -/
def fullThrottle (K : Type) [LinearOrderedField K] : List K :=
  [0, 1, 2007 / 1000, 3021 / 1000, 4042 / 1000, 507 / 100, 6105 / 1000, 7147 / 1000,
    8196 / 1000, 9252 / 1000,
   0, 0, 0, 0, 0, 0, 0, 0, 0, 0,
   0, 0, 0, 0, 0, 0, 0, 0, 0, 0,
   10, 1007 / 100, 1014 / 100, 1021 / 100, 1028 / 100, 1035 / 100, 1042 / 100, 1049 / 100,
    1056 / 100, 1063 / 100,
   0, 0, 0, 0, 0, 0, 0, 0, 0, 0,
   0, 0, 0, 0, 0, 0, 0, 0, 0, 0,
   0, 0, 0, 0, 0, 0, 0, 0, 0,
   7 / 10, 7 / 10, 7 / 10, 7 / 10, 7 / 10, 7 / 10, 7 / 10, 7 / 10, 7 / 10]

/-- The state after `t` steps straight ahead at full throttle from the origin
with speed 10. -/
def throttleState (K : Type) [LinearOrderedField K] (t : Nat) : State K :=
  ⟨t + 7 * t * (t - 1) / 2000, 0, 0, 10 + 7 * t / 100, 0, 0⟩

/-- The decision vector `straightVars` with the cross-track error of step 0
set to 1. -/
def cteVars : List ℚ := [0, 1, 0, 0, 0, 0, 10, 10, 1, 0, 0, 0, 0, 0]

/-! ## Lemmas: running the programs -/

section ProgLemmas
variable {σ α β : Type}

theorem Prog.run_bind (m : Prog σ α) (f : α → Prog σ β) (s : σ) :
    (m >>= f) s = match m s with
      | some (a, s1) => f a s1
      | none => none := rfl

theorem Prog.run_pure (a : α) (s : σ) : (Pure.pure a : Prog σ α) s = some (a, s) := rfl

theorem Prog.run_seq {m : Prog σ α} {f : α → Prog σ β} {s s1 : σ} {a : α}
    (h : m s = some (a, s1)) : (m >>= f) s = f a s1 := by
  rw [Prog.run_bind, h]

/-- Loop rule: an invariant that holds before the loop and is carried from
each iteration to the next holds after the loop, and the loop does not fail. -/
theorem loopFrom_inv (body : Nat → Prog σ Unit) (n : Nat) :
    ∀ (Inv : Nat → σ → Prop) (lo : Nat) (s0 : σ), Inv 0 s0 →
      (∀ j s, j < n → Inv j s → ∃ s1, body (lo + j) s = some ((), s1) ∧ Inv (j + 1) s1) →
      ∃ s1, loopFrom body lo n s0 = some ((), s1) ∧ Inv n s1 := by
  induction n with
  | zero =>
    intro Inv lo s0 h0 _
    exact ⟨s0, rfl, h0⟩
  | succ n ih =>
    intro Inv lo s0 h0 hstep
    obtain ⟨s1, hb, h1⟩ := hstep 0 s0 (Nat.succ_pos n) h0
    obtain ⟨s2, hl, h2⟩ := ih (fun j s => Inv (j + 1) s) (lo + 1) s1 h1 (by
      intro j s hj hinv
      have := hstep (j + 1) s (Nat.succ_lt_succ hj) hinv
      rwa [Nat.add_assoc, Nat.add_comm 1 j])
    refine ⟨s2, ?_, h2⟩
    show Prog.bind (body lo) (fun _ => loopFrom body (lo + 1) n) s0 = _
    simp only [Prog.bind]
    rw [Nat.add_zero] at hb
    rw [hb]
    exact hl

end ProgLemmas

section VecLemmas
variable {K : Type}

theorem getElem?_getD (l : List K) (i : Nat) (d : K) (h : i < l.length) :
    l[i]? = some (l.getD i d) := by
  rw [List.getD_eq_getElem?_getD, List.getElem?_eq_getElem h]
  rfl

theorem getD_of_getElem? {l : List K} {i : Nat} {d x : K} (h : l[i]? = some x) :
    l.getD i d = x := by
  rw [List.getD_eq_getElem?_getD, h]
  rfl

theorem getElem?_set_of_lt (l : List K) (i j : Nat) (a : K) (h : i < l.length) :
    (l.set i a)[j]? = if i = j then some a else l[j]? := by
  rw [List.getElem?_set, if_pos h]

theorem rdVars_run (i : Nat) (f : Vec K) (vd : List K) (vw vr : List Nat) (d : K)
    (h : i < vd.length) :
    rdVars i ⟨f, ⟨vd, vw, vr⟩⟩ = some (vd.getD i d, ⟨f, ⟨vd, vw, i :: vr⟩⟩) := by
  simp only [rdVars, Vec.get, getElem?_getD _ _ d h]

theorem wrFg_run (k : Nat) (x : K) (fd : List K) (fw fr : List Nat) (v : Vec K)
    (h : k < fd.length) :
    wrFg k x ⟨⟨fd, fw, fr⟩, v⟩ = some ((), ⟨⟨fd.set k x, k :: fw, fr⟩, v⟩) := by
  simp only [wrFg, Vec.set, h, if_true]

theorem rdCoeffs_run (coeffs : List K) (j : Nat) (s : FGState K) (d : K)
    (h : j < coeffs.length) :
    rdCoeffs coeffs j s = some (coeffs.getD j d, s) := by
  simp only [rdCoeffs, Prog.ofOption, getElem?_getD _ _ d h]

end VecLemmas

theorem szSub_of_le {a b : Nat} (h : b ≤ a) : szSub a b = a - b := by
  simp [szSub, h]

/-- The offsets as multiples of the horizon. -/
theorem idx_eq (N : Nat) (h : 1 ≤ N) :
    x_idx N = 0 ∧ y_idx N = N ∧ psi_idx N = 2 * N ∧ v_idx N = 3 * N ∧
    cte_idx N = 4 * N ∧ epsi_idx N = 5 * N ∧ delta_idx N = 6 * N ∧
    a_idx N = 7 * N - 1 ∧ n_vars N = 8 * N - 2 ∧ n_constraints N = 6 * N ∧
    szSub N 1 = N - 1 := by
  have h1 : szSub N 1 = N - 1 := szSub_of_le h
  have h2 : szSub (0 + N + N + N + N + N + N + N) 1 = 0 + N + N + N + N + N + N + N - 1 :=
    szSub_of_le (by omega)
  simp only [x_idx, y_idx, psi_idx, v_idx, cte_idx, epsi_idx, delta_idx, a_idx, n_vars,
    n_constraints, h1, h2]
  refine ⟨trivial, ?_, ?_, ?_, ?_, ?_, ?_, ?_, ?_, ?_, trivial⟩ <;> omega

section FGLemmas
variable {K : Type} [LinearOrderedField K]

theorem addFg_run (k : Nat) (x : K) (fd : List K) (fw fr : List Nat) (v : Vec K)
    (h : k < fd.length) :
    addFg k x ⟨⟨fd, fw, fr⟩, v⟩ =
      some ((), ⟨⟨fd.set k (fd.getD k 0 + x), k :: fw, k :: fr⟩, v⟩) := by
  simp only [addFg, Prog.run_bind, rdFg, Vec.get, getElem?_getD _ _ (0:K) h, wrFg, Vec.set,
    List.length_set, h, if_true]


theorem costStep_refl (N : Nat) (s : FGState K) (h : 0 < s.fg.data.length) :
    CostStep N 0 s s := by
  obtain ⟨⟨fd, fw, fr⟩, ⟨vd, vw, vr⟩⟩ := s
  refine ⟨fd, [], [], [], rfl, rfl, ?_, fun _ _ => rfl, ?_, ?_⟩
  · simp only [add_zero]
    exact getElem?_getD _ _ _ h
  · intro k hk; cases hk
  · intro k hk; cases hk

theorem costRefBody_step (N : Nat) (hN : 2 ≤ N) (i : Nat) (hi : i < N) (inc : K)
    (s0 s : FGState K) (hv : s0.vars.data.length = n_vars N) (hf : 0 < s0.fg.data.length)
    (h : CostStep N inc s0 s) :
    ∃ s1, costRefBody N i s = some ((), s1) ∧ CostStep N (inc + costRefTerm N s0.vars.data i) s0 s1 := by
  obtain ⟨hx, hy, hpsi, hvi, hcte, hepsi, hdelta, ha, hnv, hnc, hsz⟩ := idx_eq N (by omega)
  obtain ⟨⟨fd, fw, fr⟩, ⟨vd, vw, vr⟩⟩ := s0
  obtain ⟨fd1, W, FR, R, rfl, hlen, h0, hne, hW, hR⟩ := h
  simp only at hv hf hlen h0 hne
  rw [hnv] at hv
  have hf1 : 0 < fd1.length := by omega
  simp only [costRefBody, costRefTerm, hx, hy, hpsi, hvi, hcte, hepsi, hdelta, ha]
  simp (disch := first | omega | (simp only [List.length_set]; omega)) only [Prog.run_bind,
    rdVars_run _ _ _ _ _ (0:K), addFg_run]
  refine ⟨_, rfl, _, 0 :: 0 :: 0 :: W, 0 :: 0 :: 0 :: FR, _ :: _ :: _ :: R, rfl, ?_, ?_, ?_, ?_, ?_⟩
  · simp only [List.length_set, hlen]
  · simp (disch := first | omega | (simp only [List.length_set]; omega)) only
      [getElem?_set_of_lt, if_true, List.getD_eq_getElem?_getD, Option.getD_some, h0]
    congr 1
    ring
  · intro k hk
    simp (disch := first | omega | (simp only [List.length_set]; omega)) only
      [getElem?_set_of_lt, if_neg (Ne.symm hk)]
    exact hne k hk
  · intro k hk
    simp only [List.mem_cons] at hk
    rcases hk with rfl | rfl | rfl | hk
    · rfl
    · rfl
    · rfl
    · exact hW k hk
  · intro r hr
    simp only [List.mem_cons] at hr
    rw [hnv]
    rcases hr with rfl | rfl | rfl | hr
    · omega
    · omega
    · omega
    · have := hR r hr
      omega

theorem costActBody_step (N : Nat) (hN : 2 ≤ N) (i : Nat) (hi : i < N - 1) (inc : K)
    (s0 s : FGState K) (hv : s0.vars.data.length = n_vars N) (hf : 0 < s0.fg.data.length)
    (h : CostStep N inc s0 s) :
    ∃ s1, costActBody N i s = some ((), s1) ∧ CostStep N (inc + costActTerm N s0.vars.data i) s0 s1 := by
  obtain ⟨hx, hy, hpsi, hvi, hcte, hepsi, hdelta, ha, hnv, hnc, hsz⟩ := idx_eq N (by omega)
  obtain ⟨⟨fd, fw, fr⟩, ⟨vd, vw, vr⟩⟩ := s0
  obtain ⟨fd1, W, FR, R, rfl, hlen, h0, hne, hW, hR⟩ := h
  simp only at hv hf hlen h0 hne
  rw [hnv] at hv
  have hf1 : 0 < fd1.length := by omega
  simp only [costActBody, costActTerm, hx, hy, hpsi, hvi, hcte, hepsi, hdelta, ha]
  simp (disch := first | omega | (simp only [List.length_set]; omega)) only [Prog.run_bind,
    rdVars_run _ _ _ _ _ (0:K), addFg_run]
  refine ⟨_, rfl, _, 0 :: 0 :: W, 0 :: 0 :: FR, _ :: _ :: R, rfl, ?_, ?_, ?_, ?_, ?_⟩
  · simp only [List.length_set, hlen]
  · simp (disch := first | omega | (simp only [List.length_set]; omega)) only
      [getElem?_set_of_lt, if_true, List.getD_eq_getElem?_getD, Option.getD_some, h0]
    congr 1
    ring
  · intro k hk
    simp (disch := first | omega | (simp only [List.length_set]; omega)) only
      [getElem?_set_of_lt, if_neg (Ne.symm hk)]
    exact hne k hk
  · intro k hk
    simp only [List.mem_cons] at hk
    rcases hk with rfl | rfl | hk
    · rfl
    · rfl
    · exact hW k hk
  · intro r hr
    simp only [List.mem_cons] at hr
    rw [hnv]
    rcases hr with rfl | rfl | hr
    · omega
    · omega
    · have := hR r hr
      omega

theorem costGapBody_step (N : Nat) (hN : 2 ≤ N) (i : Nat) (hi : i < N - 2) (inc : K)
    (s0 s : FGState K) (hv : s0.vars.data.length = n_vars N) (hf : 0 < s0.fg.data.length)
    (h : CostStep N inc s0 s) :
    ∃ s1, costGapBody N i s = some ((), s1) ∧ CostStep N (inc + costGapTerm N s0.vars.data i) s0 s1 := by
  obtain ⟨hx, hy, hpsi, hvi, hcte, hepsi, hdelta, ha, hnv, hnc, hsz⟩ := idx_eq N (by omega)
  obtain ⟨⟨fd, fw, fr⟩, ⟨vd, vw, vr⟩⟩ := s0
  obtain ⟨fd1, W, FR, R, rfl, hlen, h0, hne, hW, hR⟩ := h
  simp only at hv hf hlen h0 hne
  rw [hnv] at hv
  have hf1 : 0 < fd1.length := by omega
  simp only [costGapBody, costGapTerm, hx, hy, hpsi, hvi, hcte, hepsi, hdelta, ha]
  simp (disch := first | omega | (simp only [List.length_set]; omega)) only [Prog.run_bind,
    rdVars_run _ _ _ _ _ (0:K), addFg_run]
  refine ⟨_, rfl, _, 0 :: 0 :: W, 0 :: 0 :: FR, _ :: _ :: _ :: _ :: R, rfl, ?_, ?_, ?_, ?_, ?_⟩
  · simp only [List.length_set, hlen]
  · simp (disch := first | omega | (simp only [List.length_set]; omega)) only
      [getElem?_set_of_lt, if_true, List.getD_eq_getElem?_getD, Option.getD_some, h0]
    congr 1
    ring
  · intro k hk
    simp (disch := first | omega | (simp only [List.length_set]; omega)) only
      [getElem?_set_of_lt, if_neg (Ne.symm hk)]
    exact hne k hk
  · intro k hk
    simp only [List.mem_cons] at hk
    rcases hk with rfl | rfl | hk
    · rfl
    · rfl
    · exact hW k hk
  · intro r hr
    simp only [List.mem_cons] at hr
    rw [hnv]
    rcases hr with rfl | rfl | rfl | rfl | hr
    · omega
    · omega
    · omega
    · omega
    · have := hR r hr
      omega

/-- A loop whose iterations each add a term to `fg[0]` adds the sum of the
terms. -/
theorem cost_loop (N : Nat) (body : Nat → Prog (FGState K) Unit) (term : Nat → K) (n : Nat)
    (s0 : FGState K) (hf : 0 < s0.fg.data.length)
    (hstep : ∀ i, i < n → ∀ inc s, CostStep N inc s0 s →
      ∃ s1, body i s = some ((), s1) ∧ CostStep N (inc + term i) s0 s1) :
    ∃ s1, forLoop 0 n body s0 = some ((), s1) ∧
      CostStep N (∑ i ∈ Finset.range n, term i) s0 s1 := by
  have := loopFrom_inv body n (fun j s => CostStep N (∑ i ∈ Finset.range j, term i) s0 s) 0 s0
    (by simpa using costStep_refl N s0 hf)
    (by
      intro j s hj hinv
      obtain ⟨s1, h1, h2⟩ := hstep j hj _ s hinv
      refine ⟨s1, by simpa using h1, ?_⟩
      show CostStep N (∑ i ∈ Finset.range (j + 1), term i) s0 s1
      rw [Finset.sum_range_succ]
      exact h2)
  simpa [forLoop] using this

theorem costStep_trans (N : Nat) (a b : K) (s0 s1 s2 : FGState K)
    (h1 : CostStep N a s0 s1) (h2 : CostStep N b s1 s2) : CostStep N (a + b) s0 s2 := by
  obtain ⟨fd1, W1, FR1, R1, rfl, hlen1, h01, hne1, hW1, hR1⟩ := h1
  obtain ⟨fd2, W2, FR2, R2, rfl, hlen2, h02, hne2, hW2, hR2⟩ := h2
  simp only at hlen2 h02 hne2 
  refine ⟨fd2, W2 ++ W1, FR2 ++ FR1, R2 ++ R1, ?_, ?_, ?_, ?_, ?_, ?_⟩
  · simp only [List.append_assoc]
  · rw [hlen2, hlen1]
  · rw [h02, getD_of_getElem? h01, add_assoc]
  · intro k hk
    rw [hne2 k hk, hne1 k hk]
  · intro k hk
    rcases List.mem_append.1 hk with h | h
    · exact hW2 k h
    · exact hW1 k h
  · intro k hk
    rcases List.mem_append.1 hk with h | h
    · exact hR2 k h
    · exact hR1 k h

/-- The cost part of `FG_eval` leaves the objective in `fg[0]` and touches
nothing else in `fg`. -/
theorem costPart_spec (N : Nat) (hN : 2 ≤ N) (fd : List K) (fw fr : List Nat)
    (vd : List K) (vw vr : List Nat) (hv : vd.length = n_vars N) (hf : 0 < fd.length) :
    ∃ fd1 W FR R,
      costPart N ⟨⟨fd, fw, fr⟩, ⟨vd, vw, vr⟩⟩ =
        some ((), ⟨⟨fd1, W ++ fw, FR ++ fr⟩, ⟨vd, vw, R ++ vr⟩⟩) ∧
      fd1.length = fd.length ∧ fd1[0]? = some (objective N vd) ∧
      (∀ k, k ≠ 0 → fd1[k]? = fd[k]?) ∧
      (∀ k ∈ W, k = 0) ∧ 0 ∈ W ∧ (∀ r ∈ R, r < n_vars N) := by
  have hsz1 : szSub N 1 = N - 1 := szSub_of_le (by omega)
  have hsz2 : szSub N 2 = N - 2 := szSub_of_le hN
  let sa : FGState K := ⟨⟨fd.set 0 0, 0 :: fw, fr⟩, ⟨vd, vw, vr⟩⟩
  have hfa : 0 < sa.fg.data.length := by simpa [sa] using hf
  obtain ⟨s1, hr1, hc1⟩ := cost_loop N (costRefBody N) (costRefTerm N vd) N sa hfa
    (fun i hi inc s h => costRefBody_step N hN i hi inc sa s hv hfa h)
  have hf1 : 0 < s1.fg.data.length := by
    obtain ⟨fd1, W, FR, R, rfl, hlen, -⟩ := hc1
    simpa [hlen] using hfa
  have hv1 : s1.vars.data = vd := by
    obtain ⟨fd1, W, FR, R, rfl, -⟩ := hc1
    rfl
  obtain ⟨s2, hr2, hc2⟩ := cost_loop N (costActBody N) (costActTerm N vd) (N - 1) s1 hf1
    (fun i hi inc s h => by
      have := costActBody_step N hN i hi inc s1 s (by rw [hv1]; exact hv) hf1 h
      rwa [hv1] at this)
  have hf2 : 0 < s2.fg.data.length := by
    obtain ⟨fd1, W, FR, R, rfl, hlen, -⟩ := hc2
    simpa [hlen] using hf1
  have hv2 : s2.vars.data = vd := by
    obtain ⟨fd1, W, FR, R, rfl, -⟩ := hc2
    exact hv1
  obtain ⟨s3, hr3, hc3⟩ := cost_loop N (costGapBody N) (costGapTerm N vd) (N - 2) s2 hf2
    (fun i hi inc s h => by
      have := costGapBody_step N hN i hi inc s2 s (by rw [hv2]; exact hv) hf2 h
      rwa [hv2] at this)
  obtain ⟨fd3, W, FR, R, rfl, hlen, h0, hne, hW, hR⟩ :=
    costStep_trans N _ _ sa s2 s3 (costStep_trans N _ _ sa s1 s2 hc1 hc2) hc3
  refine ⟨fd3, W ++ [0], FR, R, ?_, ?_, ?_, ?_, ?_, ?_, hR⟩
  · have hw : wrFg 0 (0 : K) ⟨⟨fd, fw, fr⟩, ⟨vd, vw, vr⟩⟩ = some ((), sa) := wrFg_run 0 0 fd fw fr _ hf
    simp only [costPart, hsz1, hsz2]
    rw [Prog.run_seq hw, Prog.run_seq hr1, Prog.run_seq hr2, hr3]
    simp [sa]
  · simpa [sa] using hlen
  · rw [h0]
    simp only [sa, objective, hsz1, hsz2]
    rw [getD_of_getElem? (x := (0 : K)) (by rw [getElem?_set_of_lt _ _ _ _ hf, if_pos rfl])]
    congr 1
    ring
  · intro k hk
    rw [hne k hk]
    simp only [sa]
    rw [getElem?_set_of_lt _ _ _ _ hf, if_neg (Ne.symm hk)]
  · intro k hk
    rcases List.mem_append.1 hk with h | h
    · exact hW k h
    · simpa using h
  · simp


/-- The part "Initial constraints" copies the six `t = 0` entries of the
decision vector into six slots of `fg` and touches nothing else. -/
theorem initialConstraints_spec (N : Nat) (hN : 2 ≤ N) (fd : List K) (fw fr : List Nat)
    (vd : List K) (vw vr : List Nat) (hv : vd.length = n_vars N)
    (hf : fd.length = 1 + n_constraints N) :
    ∃ fd1 R,
      initialConstraints N ⟨⟨fd, fw, fr⟩, ⟨vd, vw, vr⟩⟩ =
        some ((), ⟨⟨fd1, initWrites N ++ fw, fr⟩, ⟨vd, vw, R ++ vr⟩⟩) ∧
      fd1.length = fd.length ∧
      (fd1[1 + x_idx N]? = some (vd.getD (x_idx N) 0) ∧
       fd1[1 + y_idx N]? = some (vd.getD (y_idx N) 0) ∧
       fd1[1 + psi_idx N]? = some (vd.getD (psi_idx N) 0) ∧
       fd1[1 + v_idx N]? = some (vd.getD (v_idx N) 0) ∧
       fd1[1 + cte_idx N]? = some (vd.getD (cte_idx N) 0) ∧
       fd1[1 + epsi_idx N]? = some (vd.getD (epsi_idx N) 0)) ∧
      (∀ k, k ∉ initWrites N → fd1[k]? = fd[k]?) ∧
      (∀ r ∈ R, r < n_vars N) := by
  obtain ⟨hx, hy, hpsi, hvi, hcte, hepsi, hdelta, ha, hnv, hnc, hsz⟩ := idx_eq N (by omega)
  rw [hnv] at hv
  rw [hnc] at hf
  simp only [initialConstraints, initWrites, hx, hy, hpsi, hvi, hcte, hepsi, hnv]
  simp (disch := first | omega | (simp only [List.length_set]; omega)) only [Prog.run_bind,
    rdVars_run _ _ _ _ _ (0:K), wrFg_run]
  refine ⟨_, [_, _, _, _, _, _], rfl, ?_, ?_, ?_, ?_⟩
  · simp only [List.length_set]
  · simp (disch := first | omega | (simp only [List.length_set]; omega)) only
      [getElem?_set_of_lt]
    refine ⟨?_, ?_, ?_, ?_, ?_, ?_⟩ <;> split_ifs <;> first | rfl | omega
  · intro k hk
    simp only [List.mem_cons, List.mem_singleton, List.not_mem_nil, or_false, not_or] at hk
    simp (disch := first | omega | (simp only [List.length_set]; omega)) only
      [getElem?_set_of_lt]
    split_ifs <;> first | rfl | omega
  · intro r hr
    simp only [List.mem_cons, List.mem_singleton, List.not_mem_nil, or_false] at hr
    omega

/-- One iteration of the loop "The rest of the constraints", run on a state
whose vectors are long enough. -/
theorem dynamicsBody_run (N : Nat) (hN : 2 ≤ N) (T : Trig K) (coeffs : List K)
    (hc : 4 ≤ coeffs.length) (j : Nat) (hj : j < N - 1) (fd : List K) (fw fr : List Nat)
    (vd : List K) (vw vr : List Nat) (hv : vd.length = n_vars N)
    (hf : fd.length = 1 + n_constraints N) :
    dynamicsBody N T coeffs j ⟨⟨fd, fw, fr⟩, ⟨vd, vw, vr⟩⟩ =
      some ((), ⟨⟨dynSet N T coeffs vd j fd, dynWrites N j ++ fw, fr⟩,
        ⟨vd, vw, dynReads N j ++ vr⟩⟩) := by
  obtain ⟨hx, hy, hpsi, hvi, hcte, hepsi, hdelta, ha, hnv, hnc, hsz⟩ := idx_eq N (by omega)
  rw [hnv] at hv
  rw [hnc] at hf
  simp only [dynamicsBody, dynSet, resX, resY, resPsi, resV, resCte, resEpsi, dynWrites,
    dynReads, hx,
    hy, hpsi, hvi, hcte, hepsi, hdelta, ha]
  simp (disch := first | omega | (simp only [List.length_set]; omega)) only [Prog.run_bind,
    rdVars_run _ _ _ _ _ (0:K), wrFg_run, rdCoeffs_run _ _ _ (0:K)]
  rfl

theorem length_dynSet (N : Nat) (T : Trig K) (coeffs vd : List K) (i : Nat) (fd : List K) :
    (dynSet N T coeffs vd i fd).length = fd.length := by
  simp only [dynSet, List.length_set]

/-- Iteration `i` leaves the slots it does not assign alone. -/
theorem dynSet_getElem?_of_ne (N : Nat) (T : Trig K) (coeffs vd : List K) (i : Nat)
    (fd : List K) (k : Nat) (h1 : 2 + x_idx N + i ≠ k) (h2 : 2 + y_idx N + i ≠ k)
    (h3 : 2 + psi_idx N + i ≠ k) (h4 : 2 + v_idx N + i ≠ k) (h5 : 2 + cte_idx N + i ≠ k)
    (h6 : 2 + epsi_idx N + i ≠ k) :
    (dynSet N T coeffs vd i fd)[k]? = fd[k]? := by
  simp only [dynSet]
  rw [List.getElem?_set_ne h6, List.getElem?_set_ne h5, List.getElem?_set_ne h4,
    List.getElem?_set_ne h3, List.getElem?_set_ne h2, List.getElem?_set_ne h1]

/-- Iteration `i` puts the six residuals of step `i` into its six slots. -/
theorem dynSet_getElem?_self (N : Nat) (hN : 1 ≤ N) (T : Trig K) (coeffs vd : List K)
    (i : Nat) (hi : i < N - 1) (fd : List K) (hf : fd.length = 1 + n_constraints N) :
    (dynSet N T coeffs vd i fd)[2 + x_idx N + i]? = some (resX N T vd i) ∧
    (dynSet N T coeffs vd i fd)[2 + y_idx N + i]? = some (resY N T vd i) ∧
    (dynSet N T coeffs vd i fd)[2 + psi_idx N + i]? = some (resPsi N vd i) ∧
    (dynSet N T coeffs vd i fd)[2 + v_idx N + i]? = some (resV N vd i) ∧
    (dynSet N T coeffs vd i fd)[2 + cte_idx N + i]? = some (resCte N T coeffs vd i) ∧
    (dynSet N T coeffs vd i fd)[2 + epsi_idx N + i]? = some (resEpsi N T coeffs vd i) := by
  obtain ⟨hx, hy, hpsi, hvi, hcte, hepsi, hdelta, ha, hnv, hnc, hsz⟩ := idx_eq N hN
  rw [hnc] at hf
  simp only [dynSet]
  refine ⟨?_, ?_, ?_, ?_, ?_, ?_⟩
  · rw [List.getElem?_set_ne (by omega), List.getElem?_set_ne (by omega),
      List.getElem?_set_ne (by omega), List.getElem?_set_ne (by omega),
      List.getElem?_set_ne (by omega), getElem?_set_of_lt _ _ _ _ (by omega), if_pos rfl]
  · rw [List.getElem?_set_ne (by omega), List.getElem?_set_ne (by omega),
      List.getElem?_set_ne (by omega), List.getElem?_set_ne (by omega),
      getElem?_set_of_lt _ _ _ _ (by simp only [List.length_set]; omega), if_pos rfl]
  · rw [List.getElem?_set_ne (by omega), List.getElem?_set_ne (by omega),
      List.getElem?_set_ne (by omega),
      getElem?_set_of_lt _ _ _ _ (by simp only [List.length_set]; omega), if_pos rfl]
  · rw [List.getElem?_set_ne (by omega), List.getElem?_set_ne (by omega),
      getElem?_set_of_lt _ _ _ _ (by simp only [List.length_set]; omega), if_pos rfl]
  · rw [List.getElem?_set_ne (by omega),
      getElem?_set_of_lt _ _ _ _ (by simp only [List.length_set]; omega), if_pos rfl]
  · rw [getElem?_set_of_lt _ _ _ _ (by simp only [List.length_set]; omega), if_pos rfl]

/-- How often iteration `i` assigns the slot `k`. -/
theorem count_dynWrites (N : Nat) (hN : 1 ≤ N) (i k : Nat) :
    (dynWrites N i).count k =
      if k = 2 + x_idx N + i ∨ k = 2 + y_idx N + i ∨ k = 2 + psi_idx N + i ∨
        k = 2 + v_idx N + i ∨ k = 2 + cte_idx N + i ∨ k = 2 + epsi_idx N + i then 1 else 0 := by
  obtain ⟨hx, hy, hpsi, hvi, hcte, hepsi, hdelta, ha, hnv, hnc, hsz⟩ := idx_eq N hN
  simp only [dynWrites, List.count_cons, List.count_nil, beq_iff_eq]
  split_ifs <;> omega

theorem dynamicsBody_step (N : Nat) (hN : 2 ≤ N) (T : Trig K) (coeffs : List K)
    (hc : 4 ≤ coeffs.length) (j : Nat) (hj : j < N - 1) (s0 s : FGState K)
    (hv : s0.vars.data.length = n_vars N) (hf : s0.fg.data.length = 1 + n_constraints N)
    (h : DynInv N T coeffs s0 j s) :
    ∃ s1, dynamicsBody N T coeffs j s = some ((), s1) ∧ DynInv N T coeffs s0 (j + 1) s1 := by
  obtain ⟨hx, hy, hpsi, hvi, hcte, hepsi, hdelta, ha, hnv, hnc, hsz⟩ := idx_eq N (by omega)
  obtain ⟨⟨fd, fw, fr⟩, ⟨vd, vw, vr⟩⟩ := s0
  obtain ⟨fd1, W, R, rfl, hlen, hval, hne, hc1, hc0, hWl, hR⟩ := h
  simp only at hv hf hlen hval hne
  have hf1 : fd1.length = 1 + n_constraints N := by omega
  rw [dynamicsBody_run N hN T coeffs hc j hj fd1 _ _ vd _ _ hv hf1]
  refine ⟨_, rfl, dynSet N T coeffs vd j fd1, dynWrites N j ++ W, dynReads N j ++ R,
    ?_, ?_, ?_, ?_, ?_, ?_, ?_, ?_⟩
  · simp only [List.append_assoc]
  · rw [length_dynSet, hlen]
  · intro i hi
    by_cases hij : i = j
    · subst hij
      exact dynSet_getElem?_self N (by omega) T coeffs vd i hj fd1 hf1
    · obtain ⟨h1, h2, h3, h4, h5, h6⟩ := hval i (by omega)
      refine ⟨?_, ?_, ?_, ?_, ?_, ?_⟩
      · rw [dynSet_getElem?_of_ne] <;> first | exact h1 | omega
      · rw [dynSet_getElem?_of_ne] <;> first | exact h2 | omega
      · rw [dynSet_getElem?_of_ne] <;> first | exact h3 | omega
      · rw [dynSet_getElem?_of_ne] <;> first | exact h4 | omega
      · rw [dynSet_getElem?_of_ne] <;> first | exact h5 | omega
      · rw [dynSet_getElem?_of_ne] <;> first | exact h6 | omega
  · intro k hk
    simp only [dynWritten] at hk hne
    rw [dynSet_getElem?_of_ne] <;> first | exact hne k (by omega) | omega
  · intro k hk
    simp only [dynWritten] at hk hc1 hc0
    rw [List.count_append, count_dynWrites N (by omega)]
    by_cases hkj : (2 + x_idx N ≤ k ∧ k < 2 + x_idx N + j) ∨
        (2 + y_idx N ≤ k ∧ k < 2 + y_idx N + j) ∨
        (2 + psi_idx N ≤ k ∧ k < 2 + psi_idx N + j) ∨
        (2 + v_idx N ≤ k ∧ k < 2 + v_idx N + j) ∨
        (2 + cte_idx N ≤ k ∧ k < 2 + cte_idx N + j) ∨
        (2 + epsi_idx N ≤ k ∧ k < 2 + epsi_idx N + j)
    · have := hc1 k hkj
      split_ifs <;> omega
    · have := hc0 k hkj
      split_ifs <;> omega
  · intro k hk
    simp only [dynWritten] at hk hc1 hc0
    rw [List.count_append, count_dynWrites N (by omega)]
    have := hc0 k (by omega)
    split_ifs <;> omega
  · simp only [dynWrites, List.length_append, List.length_cons, List.length_nil, hWl]
    omega
  · intro r hr
    rcases List.mem_append.1 hr with h | h
    · simp only [dynReads, List.mem_cons, List.mem_singleton, List.not_mem_nil, or_false] at h
      omega
    · exact hR r h

/-- The loop "The rest of the constraints" puts the residuals of steps
`0, ..., N - 2` into their slots, assigns each of these slots once and touches
nothing else. -/
theorem dynamicsConstraints_spec (N : Nat) (hN : 2 ≤ N) (T : Trig K) (coeffs : List K)
    (hc : 4 ≤ coeffs.length) (fd : List K) (fw fr : List Nat) (vd : List K)
    (vw vr : List Nat) (hv : vd.length = n_vars N) (hf : fd.length = 1 + n_constraints N) :
    ∃ s1, dynamicsConstraints N T coeffs ⟨⟨fd, fw, fr⟩, ⟨vd, vw, vr⟩⟩ = some ((), s1) ∧
      DynInv N T coeffs ⟨⟨fd, fw, fr⟩, ⟨vd, vw, vr⟩⟩ (N - 1) s1 := by
  have hsz1 : szSub N 1 = N - 1 := szSub_of_le (by omega)
  have := loopFrom_inv (dynamicsBody N T coeffs) (N - 1)
    (DynInv N T coeffs ⟨⟨fd, fw, fr⟩, ⟨vd, vw, vr⟩⟩) 0 ⟨⟨fd, fw, fr⟩, ⟨vd, vw, vr⟩⟩
    (by
      refine ⟨fd, [], [], rfl, rfl, ?_, fun _ _ => rfl, ?_, fun _ _ => rfl, rfl, ?_⟩
      · intro i hi
        omega
      · intro k hk
        simp only [dynWritten] at hk
        omega
      · intro r hr
        cases hr)
    (by
      intro j s hj hinv
      rw [Nat.zero_add]
      exact dynamicsBody_step N hN T coeffs hc j hj _ s hv hf hinv)
  simpa [dynamicsConstraints, forLoop, hsz1] using this

/-- What a call of `FG_eval` does to `fg` and `vars`: it does not fail, it
leaves the objective in `fg[0]`, the six `t = 0` entries in the slots
`1 + x_idx`, ..., `1 + epsi_idx` and the residuals of step `i` in the slots
`2 + x_idx + i`, ..., `2 + epsi_idx + i`; the cost part only assigns `fg[0]`,
the dynamics loop assigns each of its slots once; every read of `vars` is
inside the vector. -/
theorem FG_eval_spec (N : Nat) (hN : 2 ≤ N) (T : Trig K) (coeffs : List K)
    (hc : 4 ≤ coeffs.length) (fd : List K) (fw fr : List Nat) (vd : List K)
    (vw vr : List Nat) (hv : vd.length = n_vars N) (hf : fd.length = 1 + n_constraints N) :
    ∃ fd1 Wc Wd FR R,
      FG_eval N T coeffs ⟨⟨fd, fw, fr⟩, ⟨vd, vw, vr⟩⟩ =
        some ((), ⟨⟨fd1, Wd ++ (initWrites N ++ (Wc ++ fw)), FR ++ fr⟩, ⟨vd, vw, R ++ vr⟩⟩) ∧
      fd1.length = fd.length ∧
      fd1[0]? = some (objective N vd) ∧
      (fd1[1 + x_idx N]? = some (vd.getD (x_idx N) 0) ∧
       fd1[1 + y_idx N]? = some (vd.getD (y_idx N) 0) ∧
       fd1[1 + psi_idx N]? = some (vd.getD (psi_idx N) 0) ∧
       fd1[1 + v_idx N]? = some (vd.getD (v_idx N) 0) ∧
       fd1[1 + cte_idx N]? = some (vd.getD (cte_idx N) 0) ∧
       fd1[1 + epsi_idx N]? = some (vd.getD (epsi_idx N) 0)) ∧
      (∀ i, i < N - 1 →
        fd1[2 + x_idx N + i]? = some (resX N T vd i) ∧
        fd1[2 + y_idx N + i]? = some (resY N T vd i) ∧
        fd1[2 + psi_idx N + i]? = some (resPsi N vd i) ∧
        fd1[2 + v_idx N + i]? = some (resV N vd i) ∧
        fd1[2 + cte_idx N + i]? = some (resCte N T coeffs vd i) ∧
        fd1[2 + epsi_idx N + i]? = some (resEpsi N T coeffs vd i)) ∧
      ((∀ k ∈ Wc, k = 0) ∧ 0 ∈ Wc) ∧
      ((∀ k, dynWritten N (N - 1) k → Wd.count k = 1) ∧
       (∀ k, ¬ dynWritten N (N - 1) k → Wd.count k = 0) ∧ Wd.length = 6 * (N - 1)) ∧
      (∀ r ∈ R, r < n_vars N) := by
  obtain ⟨hx, hy, hpsi, hvi, hcte, hepsi, hdelta, ha, hnv, hnc, hsz⟩ := idx_eq N (by omega)
  obtain ⟨fd1, Wc, FR, R1, hrun1, hlen1, hobj, hne1, hWc, hWc0, hR1⟩ :=
    costPart_spec N hN fd fw fr vd vw vr hv (by omega)
  obtain ⟨fd2, R2, hrun2, hlen2, hinit, hne2, hR2⟩ :=
    initialConstraints_spec N hN fd1 (Wc ++ fw) (FR ++ fr) vd vw (R1 ++ vr) hv (by omega)
  obtain ⟨s3, hrun3, fd3, Wd, R3, rfl, hlen3, hval, hne3, hc1, hc0, hWl, hR3⟩ :=
    dynamicsConstraints_spec N hN T coeffs hc fd2 (initWrites N ++ (Wc ++ fw)) (FR ++ fr) vd vw
      (R2 ++ (R1 ++ vr)) hv (by omega)
  simp only at hlen3 hval hne3
  have hnd : ∀ k, k = 0 ∨ k ∈ initWrites N → ¬ dynWritten N (N - 1) k := by
    intro k hk
    simp only [initWrites, dynWritten, List.mem_cons, List.mem_singleton, List.not_mem_nil,
      or_false] at hk ⊢
    omega
  have hni : (0 : Nat) ∉ initWrites N := by
    simp only [initWrites, List.mem_cons, List.mem_singleton, List.not_mem_nil, or_false]
    omega
  refine ⟨fd3, Wc, Wd, FR, R3 ++ (R2 ++ R1), ?_, ?_, ?_, ?_, hval, ⟨hWc, hWc0⟩,
    ⟨hc1, hc0, hWl⟩, ?_⟩
  · simp only [FG_eval]
    rw [Prog.run_seq hrun1, Prog.run_seq hrun2, hrun3]
    simp only [List.append_assoc]
  · omega
  · rw [hne3 0 (hnd 0 (Or.inl rfl)), hne2 0 hni, hobj]
  · obtain ⟨h1, h2, h3, h4, h5, h6⟩ := hinit
    refine ⟨?_, ?_, ?_, ?_, ?_, ?_⟩
    · rw [hne3 _ (hnd _ (Or.inr (by simp [initWrites]))), h1]
    · rw [hne3 _ (hnd _ (Or.inr (by simp [initWrites]))), h2]
    · rw [hne3 _ (hnd _ (Or.inr (by simp [initWrites]))), h3]
    · rw [hne3 _ (hnd _ (Or.inr (by simp [initWrites]))), h4]
    · rw [hne3 _ (hnd _ (Or.inr (by simp [initWrites]))), h5]
    · rw [hne3 _ (hnd _ (Or.inr (by simp [initWrites]))), h6]
  · intro r hr
    rcases List.mem_append.1 hr with h | h
    · exact hR3 r h
    · rcases List.mem_append.1 h with h | h
      · exact hR2 r h
      · exact hR1 r h

end FGLemmas

section SolveLemmas
variable {K : Type}

theorem Filled.refl (lo : Nat) (c : K) (v0 : Vec K) : Filled lo 0 c v0 v0 := by
  obtain ⟨d, w, r⟩ := v0
  refine ⟨d, [], rfl, rfl, ?_, fun _ _ => rfl, ?_, fun _ _ => rfl⟩
  · intro k h1 h2
    omega
  · intro k h1 h2
    omega

theorem Filled.step {lo j : Nat} {c : K} {v0 v : Vec K} (h : Filled lo j c v0 v)
    (hlt : lo + j < v0.data.length) :
    ∃ v1, v.set (lo + j) c = some v1 ∧ Filled lo (j + 1) c v0 v1 := by
  obtain ⟨d, W, rfl, hlen, hin, hout, hc1, hc0⟩ := h
  have hd : lo + j < d.length := by omega
  refine ⟨⟨d.set (lo + j) c, (lo + j) :: (W ++ v0.writes), v0.reads⟩, ?_,
    d.set (lo + j) c, (lo + j) :: W, rfl, ?_, ?_, ?_, ?_, ?_⟩
  · simp only [Vec.set, hd, if_true]
  · rw [List.length_set, hlen]
  · intro k h1 h2
    rw [getElem?_set_of_lt _ _ _ _ hd]
    split_ifs with hk
    · rfl
    · exact hin k h1 (by omega)
  · intro k hk
    rw [List.getElem?_set_ne (by omega)]
    exact hout k (by omega)
  · intro k h1 h2
    rw [List.count_cons]
    by_cases hk : lo + j = k
    · have := hc0 k (by omega)
      simp [hk, this]
    · have := hc1 k h1 (by omega)
      simp [hk, this]
  · intro k hk
    rw [List.count_cons]
    have := hc0 k (by omega)
    have hne : lo + j ≠ k := by omega
    simp [hne, this]

theorem setVars_run (i : Nat) (c : K) (L : Locals K) (v1 : Vec K)
    (h : L.vars.set i c = some v1) :
    setVars i c L = some ((), ⟨v1, L.vars_lowerbound, L.vars_upperbound,
      L.constraints_lowerbound, L.constraints_upperbound⟩) := by
  simp only [setVars, h]

theorem setVarsLower_run (i : Nat) (c : K) (L : Locals K) (v1 : Vec K)
    (h : L.vars_lowerbound.set i c = some v1) :
    setVarsLower i c L = some ((), ⟨L.vars, v1, L.vars_upperbound,
      L.constraints_lowerbound, L.constraints_upperbound⟩) := by
  simp only [setVarsLower, h]

theorem setVarsUpper_run (i : Nat) (c : K) (L : Locals K) (v1 : Vec K)
    (h : L.vars_upperbound.set i c = some v1) :
    setVarsUpper i c L = some ((), ⟨L.vars, L.vars_lowerbound, v1,
      L.constraints_lowerbound, L.constraints_upperbound⟩) := by
  simp only [setVarsUpper, h]

theorem setConsLower_run (i : Nat) (c : K) (L : Locals K) (v1 : Vec K)
    (h : L.constraints_lowerbound.set i c = some v1) :
    setConsLower i c L = some ((), ⟨L.vars, L.vars_lowerbound, L.vars_upperbound,
      v1, L.constraints_upperbound⟩) := by
  simp only [setConsLower, h]

theorem setConsUpper_run (i : Nat) (c : K) (L : Locals K) (v1 : Vec K)
    (h : L.constraints_upperbound.set i c = some v1) :
    setConsUpper i c L = some ((), ⟨L.vars, L.vars_lowerbound, L.vars_upperbound,
      L.constraints_lowerbound, v1⟩) := by
  simp only [setConsUpper, h]

/-- The loop `for (i = lo; i < lo + n; i++) vars[i] = c`. -/
theorem fillVars_loop (lo n : Nat) (c : K) (L0 : Locals K)
    (h : lo + n ≤ L0.vars.data.length) :
    ∃ v, loopFrom (fun i => setVars i c) lo n L0 =
        some ((), ⟨v, L0.vars_lowerbound, L0.vars_upperbound, L0.constraints_lowerbound,
          L0.constraints_upperbound⟩) ∧
      Filled lo n c L0.vars v := by
  obtain ⟨L1, hrun, v, rfl, hfill⟩ := loopFrom_inv (fun i => setVars i c) n
    (fun j L => ∃ v, L = ⟨v, L0.vars_lowerbound, L0.vars_upperbound,
      L0.constraints_lowerbound, L0.constraints_upperbound⟩ ∧ Filled lo j c L0.vars v) lo L0
    ⟨L0.vars, rfl, Filled.refl lo c L0.vars⟩
    (by
      rintro j L hj ⟨v, rfl, hv⟩
      obtain ⟨v1, hset, hv1⟩ := hv.step (by omega)
      exact ⟨_, setVars_run _ _ _ v1 hset, v1, rfl, hv1⟩)
  exact ⟨v, hrun, hfill⟩

/-- The loop `for (i = lo; i < lo + n; i++)` that assigns `c1` to
`vars_lowerbound[i]` and `c2` to `vars_upperbound[i]`. -/
theorem fillVarBounds_loop (lo n : Nat) (c1 c2 : K) (L0 : Locals K)
    (h1 : lo + n ≤ L0.vars_lowerbound.data.length)
    (h2 : lo + n ≤ L0.vars_upperbound.data.length) :
    ∃ lb ub, loopFrom (fun i => (do setVarsLower i c1; setVarsUpper i c2 : Prog (Locals K) Unit))
          lo n L0 =
        some ((), ⟨L0.vars, lb, ub, L0.constraints_lowerbound, L0.constraints_upperbound⟩) ∧
      Filled lo n c1 L0.vars_lowerbound lb ∧ Filled lo n c2 L0.vars_upperbound ub := by
  obtain ⟨L1, hrun, lb, ub, rfl, hlb, hub⟩ := loopFrom_inv
    (fun i => (do setVarsLower i c1; setVarsUpper i c2 : Prog (Locals K) Unit)) n
    (fun j L => ∃ lb ub, L = ⟨L0.vars, lb, ub, L0.constraints_lowerbound,
      L0.constraints_upperbound⟩ ∧ Filled lo j c1 L0.vars_lowerbound lb ∧
      Filled lo j c2 L0.vars_upperbound ub) lo L0
    ⟨_, _, rfl, Filled.refl lo c1 _, Filled.refl lo c2 _⟩
    (by
      rintro j L hj ⟨lb, ub, rfl, hlb, hub⟩
      obtain ⟨lb1, hset1, hlb1⟩ := hlb.step (by omega)
      obtain ⟨ub1, hset2, hub1⟩ := hub.step (by omega)
      refine ⟨_, ?_, lb1, ub1, rfl, hlb1, hub1⟩
      beta_reduce
      rw [Prog.run_seq (setVarsLower_run _ _ _ lb1 hset1)]
      exact setVarsUpper_run _ _ _ ub1 hset2)
  exact ⟨lb, ub, hrun, hlb, hub⟩

/-- The loop `for (i = lo; i < lo + n; i++)` that assigns `c1` to
`constraints_lowerbound[i]` and `c2` to `constraints_upperbound[i]`. -/
theorem fillConsBounds_loop (lo n : Nat) (c1 c2 : K) (L0 : Locals K)
    (h1 : lo + n ≤ L0.constraints_lowerbound.data.length)
    (h2 : lo + n ≤ L0.constraints_upperbound.data.length) :
    ∃ lb ub, loopFrom (fun i => (do setConsLower i c1; setConsUpper i c2 : Prog (Locals K) Unit))
          lo n L0 =
        some ((), ⟨L0.vars, L0.vars_lowerbound, L0.vars_upperbound, lb, ub⟩) ∧
      Filled lo n c1 L0.constraints_lowerbound lb ∧
      Filled lo n c2 L0.constraints_upperbound ub := by
  obtain ⟨L1, hrun, lb, ub, rfl, hlb, hub⟩ := loopFrom_inv
    (fun i => (do setConsLower i c1; setConsUpper i c2 : Prog (Locals K) Unit)) n
    (fun j L => ∃ lb ub, L = ⟨L0.vars, L0.vars_lowerbound, L0.vars_upperbound, lb, ub⟩ ∧
      Filled lo j c1 L0.constraints_lowerbound lb ∧
      Filled lo j c2 L0.constraints_upperbound ub) lo L0
    ⟨_, _, rfl, Filled.refl lo c1 _, Filled.refl lo c2 _⟩
    (by
      rintro j L hj ⟨lb, ub, rfl, hlb, hub⟩
      obtain ⟨lb1, hset1, hlb1⟩ := hlb.step (by omega)
      obtain ⟨ub1, hset2, hub1⟩ := hub.step (by omega)
      refine ⟨_, ?_, lb1, ub1, rfl, hlb1, hub1⟩
      beta_reduce
      rw [Prog.run_seq (setConsLower_run _ _ _ lb1 hset1)]
      exact setConsUpper_run _ _ _ ub1 hset2)
  exact ⟨lb, ub, hrun, hlb, hub⟩

end SolveLemmas

section SolveLemmas2

variable {K : Type} [LinearOrderedField K]

/-- The part "Initial value of the independent variables" sets every entry of
`vars` to 0, once. -/
theorem initialGuess_spec (N : Nat) (L0 : Locals K)
    (h : L0.vars.data.length = n_vars N) :
    ∃ v, initialGuess N L0 =
        some ((), ⟨v, L0.vars_lowerbound, L0.vars_upperbound, L0.constraints_lowerbound,
          L0.constraints_upperbound⟩) ∧
      Filled 0 (n_vars N) 0 L0.vars v := by
  have := fillVars_loop 0 (n_vars N) (0 : K) L0 (by omega)
  simpa [initialGuess, forLoop] using this

omit [LinearOrderedField K] in
theorem varBoundsPost_of_filled (N : Nat) (hN : 1 ≤ N) (cs cd ca : K) (v0 v1 v2 v3 : Vec K)
    (hlen : v0.data.length = n_vars N)
    (h1 : Filled 0 (delta_idx N) cs v0 v1)
    (h2 : Filled (delta_idx N) (a_idx N - delta_idx N) cd v1 v2)
    (h3 : Filled (a_idx N) (n_vars N - a_idx N) ca v2 v3) :
    VarBoundsPost N cs cd ca v0 v3 := by
  obtain ⟨hx, hy, hpsi, hvi, hcte, hepsi, hdelta, ha, hnv, hnc, hsz⟩ := idx_eq N hN
  obtain ⟨d1, W1, rfl, hl1, hin1, hout1, hc11, hc10⟩ := h1
  obtain ⟨d2, W2, rfl, hl2, hin2, hout2, hc21, hc20⟩ := h2
  obtain ⟨d3, W3, rfl, hl3, hin3, hout3, hc31, hc30⟩ := h3
  simp only at hl2 hl3 hout2 hout3
  refine ⟨d3, W3 ++ (W2 ++ W1), ?_, ?_, ?_, ?_, ?_, ?_, ?_⟩
  · simp only [List.append_assoc]
  · omega
  · intro k hk
    rw [hout3 k (by omega), hout2 k (by omega)]
    exact hin1 k (by omega) (by omega)
  · intro k hk1 hk2
    rw [hout3 k (by omega)]
    exact hin2 k hk1 (by omega)
  · intro k hk1 hk2
    exact hin3 k hk1 (by omega)
  · intro k hk
    simp only [List.count_append]
    by_cases c1 : k < delta_idx N
    · rw [hc30 k (by omega), hc20 k (by omega), hc11 k (by omega) (by omega)]
    · by_cases c2 : k < a_idx N
      · rw [hc30 k (by omega), hc21 k (by omega) (by omega), hc10 k (by omega)]
      · rw [hc31 k (by omega) (by omega), hc20 k (by omega), hc10 k (by omega)]
  · intro k hk
    simp only [List.count_append]
    rw [hc30 k (by omega), hc20 k (by omega), hc10 k (by omega)]

/-- The three loops that set the limits of the variables do not fail and fill
both vectors of limits block by block. -/
theorem variableBounds_spec (N : Nat) (hN : 1 ≤ N) (L0 : Locals K)
    (h1 : L0.vars_lowerbound.data.length = n_vars N)
    (h2 : L0.vars_upperbound.data.length = n_vars N) :
    ∃ lb ub, variableBounds N L0 =
        some ((), ⟨L0.vars, lb, ub, L0.constraints_lowerbound, L0.constraints_upperbound⟩) ∧
      VarBoundsPost N (-(10 ^ 19)) (-(436332 / 1000000) * Lf K) (-(7 / 10))
        L0.vars_lowerbound lb ∧
      VarBoundsPost N (10 ^ 19) (436332 / 1000000 * Lf K) (7 / 10)
        L0.vars_upperbound ub := by
  obtain ⟨hx, hy, hpsi, hvi, hcte, hepsi, hdelta, ha, hnv, hnc, hsz⟩ := idx_eq N hN
  obtain ⟨lb1, ub1, hrun1, hlb1, hub1⟩ := fillVarBounds_loop 0 (delta_idx N)
    (-(10 ^ 19) : K) (10 ^ 19) L0 (by omega) (by omega)
  have hl1 : lb1.data.length = n_vars N := by
    obtain ⟨d, W, rfl, hl, -⟩ := hlb1
    exact hl.trans h1
  have hu1 : ub1.data.length = n_vars N := by
    obtain ⟨d, W, rfl, hl, -⟩ := hub1
    exact hl.trans h2
  obtain ⟨lb2, ub2, hrun2, hlb2, hub2⟩ := fillVarBounds_loop (delta_idx N)
    (a_idx N - delta_idx N) (-(436332 / 1000000) * Lf K) (436332 / 1000000 * Lf K)
    ⟨L0.vars, lb1, ub1, L0.constraints_lowerbound, L0.constraints_upperbound⟩
    (by simp only [hl1]; omega) (by simp only [hu1]; omega)
  have hl2 : lb2.data.length = n_vars N := by
    obtain ⟨d, W, rfl, hl, -⟩ := hlb2
    exact hl.trans hl1
  have hu2 : ub2.data.length = n_vars N := by
    obtain ⟨d, W, rfl, hl, -⟩ := hub2
    exact hl.trans hu1
  obtain ⟨lb3, ub3, hrun3, hlb3, hub3⟩ := fillVarBounds_loop (a_idx N)
    (n_vars N - a_idx N) (-(7 / 10) : K) (7 / 10)
    ⟨L0.vars, lb2, ub2, L0.constraints_lowerbound, L0.constraints_upperbound⟩
    (by simp only [hl2]; omega) (by simp only [hu2]; omega)
  refine ⟨lb3, ub3, ?_, varBoundsPost_of_filled N hN _ _ _ _ lb1 lb2 lb3 h1 hlb1 hlb2 hlb3,
    varBoundsPost_of_filled N hN _ _ _ _ ub1 ub2 ub3 h2 hub1 hub2 hub3⟩
  simp only [variableBounds, forLoop, Nat.sub_zero]
  rw [Prog.run_seq hrun1, Prog.run_seq hrun2]
  exact hrun3

theorem consPost_pinSet (N : Nat) (hN : 1 ≤ N) (x y psi v cte epsi : K) (d : List K)
    (hlen : d.length = n_constraints N) (h0 : ∀ k, k < n_constraints N → d[k]? = some 0) :
    ConsPost N x y psi v cte epsi (pinSet N x y psi v cte epsi d) := by
  obtain ⟨hx, hy, hpsi, hvi, hcte, hepsi, hdelta, ha, hnv, hnc, hsz⟩ := idx_eq N hN
  refine ⟨?_, ⟨?_, ?_, ?_, ?_, ?_, ?_⟩, ?_⟩
  · simp only [pinSet, List.length_set, hlen]
  · simp only [pinSet]
    rw [List.getElem?_set_ne (by omega), List.getElem?_set_ne (by omega),
      List.getElem?_set_ne (by omega), List.getElem?_set_ne (by omega),
      List.getElem?_set_ne (by omega), getElem?_set_of_lt _ _ _ _ (by omega), if_pos rfl]
  · simp only [pinSet]
    rw [List.getElem?_set_ne (by omega), List.getElem?_set_ne (by omega),
      List.getElem?_set_ne (by omega), List.getElem?_set_ne (by omega),
      getElem?_set_of_lt _ _ _ _ (by simp only [List.length_set]; omega), if_pos rfl]
  · simp only [pinSet]
    rw [List.getElem?_set_ne (by omega), List.getElem?_set_ne (by omega),
      List.getElem?_set_ne (by omega),
      getElem?_set_of_lt _ _ _ _ (by simp only [List.length_set]; omega), if_pos rfl]
  · simp only [pinSet]
    rw [List.getElem?_set_ne (by omega), List.getElem?_set_ne (by omega),
      getElem?_set_of_lt _ _ _ _ (by simp only [List.length_set]; omega), if_pos rfl]
  · simp only [pinSet]
    rw [List.getElem?_set_ne (by omega),
      getElem?_set_of_lt _ _ _ _ (by simp only [List.length_set]; omega), if_pos rfl]
  · simp only [pinSet]
    rw [getElem?_set_of_lt _ _ _ _ (by simp only [List.length_set]; omega), if_pos rfl]
  · intro k hk h1 h2 h3 h4 h5 h6
    simp only [pinSet]
    rw [List.getElem?_set_ne (Ne.symm h6), List.getElem?_set_ne (Ne.symm h5),
      List.getElem?_set_ne (Ne.symm h4), List.getElem?_set_ne (Ne.symm h3),
      List.getElem?_set_ne (Ne.symm h2), List.getElem?_set_ne (Ne.symm h1)]
    exact h0 k hk

omit [LinearOrderedField K] in
theorem setConsLower_mk (i : Nat) (c : K) (a b e : Vec K) (d : List K) (w r : List Nat)
    (cu : Vec K) (h : i < d.length) :
    setConsLower i c ⟨a, b, e, ⟨d, w, r⟩, cu⟩ =
      some ((), ⟨a, b, e, ⟨d.set i c, i :: w, r⟩, cu⟩) := by
  simp only [setConsLower, Vec.set, h, if_true]

omit [LinearOrderedField K] in
theorem setConsUpper_mk (i : Nat) (c : K) (a b e cl : Vec K) (d : List K) (w r : List Nat)
    (h : i < d.length) :
    setConsUpper i c ⟨a, b, e, cl, ⟨d, w, r⟩⟩ =
      some ((), ⟨a, b, e, cl, ⟨d.set i c, i :: w, r⟩⟩) := by
  simp only [setConsUpper, Vec.set, h, if_true]

/-- The part "Lower and upper limits for the constraints" does not fail and
leaves in both vectors the state at the six offsets and 0 elsewhere. -/
theorem constraintBounds_spec (N : Nat) (hN : 1 ≤ N) (x y psi v cte epsi : K)
    (L0 : Locals K) (h1 : L0.constraints_lowerbound.data.length = n_constraints N)
    (h2 : L0.constraints_upperbound.data.length = n_constraints N) :
    ∃ lb ub, constraintBounds N x y psi v cte epsi L0 =
        some ((), ⟨L0.vars, L0.vars_lowerbound, L0.vars_upperbound, lb, ub⟩) ∧
      ConsPost N x y psi v cte epsi lb.data ∧ ConsPost N x y psi v cte epsi ub.data := by
  obtain ⟨hx, hy, hpsi, hvi, hcte, hepsi, hdelta, ha, hnv, hnc, hsz⟩ := idx_eq N hN
  obtain ⟨lb1, ub1, hrun1, hlb1, hub1⟩ := fillConsBounds_loop 0 (n_constraints N)
    (0 : K) 0 L0 (by omega) (by omega)
  obtain ⟨dl, Wl, rfl, hll, hinl, -⟩ := hlb1
  obtain ⟨du, Wu, rfl, hlu, hinu, -⟩ := hub1
  have hdl : dl.length = 6 * N := by omega
  have hdu : du.length = 6 * N := by omega
  refine ⟨⟨pinSet N x y psi v cte epsi dl,
      pinWrites N ++ (Wl ++ L0.constraints_lowerbound.writes), L0.constraints_lowerbound.reads⟩,
    ⟨pinSet N x y psi v cte epsi du,
      pinWrites N ++ (Wu ++ L0.constraints_upperbound.writes), L0.constraints_upperbound.reads⟩,
    ?_,
    consPost_pinSet N hN x y psi v cte epsi dl (by omega)
      (fun k hk => hinl k (Nat.zero_le k) (by omega)),
    consPost_pinSet N hN x y psi v cte epsi du (by omega)
      (fun k hk => hinu k (Nat.zero_le k) (by omega))⟩
  simp only [constraintBounds, forLoop, Nat.sub_zero]
  rw [Prog.run_seq hrun1]
  simp (disch := first | omega | (simp only [List.length_set]; omega)) only [Prog.run_bind,
    setConsLower_mk, setConsUpper_mk, pinSet, pinWrites, List.cons_append, List.nil_append]

omit [LinearOrderedField K] in
theorem length_newDvector (junk : Nat → K) (n : Nat) : (newDvector junk n).data.length = n := by
  simp only [newDvector, Vec.fresh, List.length_map, List.length_range]

/-- Everything `MPC::Solve` does before it calls the solver: it does not fail,
the initial guess is 0 everywhere, the limits of the variables are filled
block by block and the limits of the constraints pin the state. -/
theorem buildVectors_spec (N : Nat) (hN : 1 ≤ N) (x y psi v cte epsi : K)
    (junk : Nat → Nat → K) :
    ∃ L, buildVectors N x y psi v cte epsi (allocLocals N junk) = some ((), L) ∧
      Filled 0 (n_vars N) 0 (newDvector (junk 0) (n_vars N)) L.vars ∧
      VarBoundsPost N (-(10 ^ 19)) (-(436332 / 1000000) * Lf K) (-(7 / 10))
        (newDvector (junk 1) (n_vars N)) L.vars_lowerbound ∧
      VarBoundsPost N (10 ^ 19) (436332 / 1000000 * Lf K) (7 / 10)
        (newDvector (junk 2) (n_vars N)) L.vars_upperbound ∧
      ConsPost N x y psi v cte epsi L.constraints_lowerbound.data ∧
      ConsPost N x y psi v cte epsi L.constraints_upperbound.data := by
  obtain ⟨v1, hrun1, hv1⟩ := initialGuess_spec N (allocLocals N junk)
    (length_newDvector _ _)
  obtain ⟨lb, ub, hrun2, hlb, hub⟩ := variableBounds_spec N hN
    ⟨v1, (allocLocals N junk).vars_lowerbound, (allocLocals N junk).vars_upperbound,
      (allocLocals N junk).constraints_lowerbound, (allocLocals N junk).constraints_upperbound⟩
    (length_newDvector _ _) (length_newDvector _ _)
  obtain ⟨cl, cu, hrun3, hcl, hcu⟩ := constraintBounds_spec N hN x y psi v cte epsi
    ⟨v1, lb, ub, (allocLocals N junk).constraints_lowerbound,
      (allocLocals N junk).constraints_upperbound⟩
    (length_newDvector _ _) (length_newDvector _ _)
  refine ⟨⟨v1, lb, ub, cl, cu⟩, ?_, hv1, hlb, hub, hcl, hcu⟩
  simp only [buildVectors]
  rw [Prog.run_seq hrun1, Prog.run_seq hrun2]
  exact hrun3

theorem rdSol_run (i : Nat) (sd : List K) (sw sr : List Nat) (self : MPCObj K)
    (h : i < sd.length) :
    rdSol i ⟨⟨sd, sw, sr⟩, self⟩ = some (sd.getD i 0, ⟨⟨sd, sw, i :: sr⟩, self⟩) := by
  simp only [rdSol, Vec.get, getElem?_getD _ _ (0 : K) h]

omit [LinearOrderedField K] in
theorem setPoint_run (i : Nat) (p : Point K) (sol : Vec K) (d a : K) (pp : List (Point K))
    (h : i < pp.length) :
    setPoint i p ⟨sol, ⟨d, a, pp⟩⟩ = some ((), ⟨sol, ⟨d, a, pp.set i p⟩⟩) := by
  simp only [setPoint, h, if_true]

/-- The last part of `MPC::Solve` does not fail on a vector of `n_vars`
entries; it overwrites the three data members with entries of that vector, and
reads the vector only inside its bounds. -/
theorem extract_spec (N : Nat) (hN : 2 ≤ N) (sd : List K) (sw sr : List Nat)
    (self : MPCObj K) (hlen : sd.length = n_vars N) :
    ∃ pp R, extract N ⟨⟨sd, sw, sr⟩, self⟩ =
        some ((), ⟨⟨sd, sw, R ++ sr⟩,
          ⟨sd.getD (delta_idx N) 0, sd.getD (a_idx N) 0, pp⟩⟩) ∧
      pp.length = N ∧
      (∀ i, i < N → pp[i]? = some ⟨sd.getD (x_idx N + i) 0, sd.getD (y_idx N + i) 0⟩) ∧
      (∀ r ∈ R, r < n_vars N) := by
  obtain ⟨hx, hy, hpsi, hvi, hcte, hepsi, hdelta, ha, hnv, hnc, hsz⟩ := idx_eq N (by omega)
  let pp0 : List (Point K) := self.predicted_points.take N ++
    List.replicate (N - self.predicted_points.length) ⟨0, 0⟩
  have hpp0 : pp0.length = N := by
    simp only [pp0, List.length_append, List.length_take, List.length_replicate]
    omega
  let E0 : ExtractState K := ⟨⟨sd, sw, a_idx N :: delta_idx N :: sr⟩,
    ⟨sd.getD (delta_idx N) 0, sd.getD (a_idx N) 0, pp0⟩⟩
  obtain ⟨E1, hrun, pp, R, rfl, hpl, hpv, hR⟩ := loopFrom_inv
    (fun i => (do
      let px ← rdSol (x_idx N + i)
      let py ← rdSol (y_idx N + i)
      setPoint i ⟨px, py⟩ : Prog (ExtractState K) Unit)) N (ExtractInv N sd E0) 0 E0
    ⟨pp0, [], rfl, hpp0, fun i hi => absurd hi (Nat.not_lt_zero i), fun r hr => by cases hr⟩
    (by
      rintro j E hj ⟨pp, R, rfl, hpl, hpv, hR⟩
      refine ⟨⟨⟨sd, sw, (y_idx N + j) :: (x_idx N + j) :: (R ++ E0.sol.reads)⟩,
        ⟨sd.getD (delta_idx N) 0, sd.getD (a_idx N) 0,
          pp.set j ⟨sd.getD (x_idx N + j) 0, sd.getD (y_idx N + j) 0⟩⟩⟩, ?_,
        _, (y_idx N + j) :: (x_idx N + j) :: R, rfl, ?_, ?_, ?_⟩
      · beta_reduce
        rw [Nat.zero_add]
        rw [Prog.run_seq (rdSol_run _ sd _ _ _ (by omega)),
          Prog.run_seq (rdSol_run _ sd _ _ _ (by omega))]
        exact setPoint_run _ _ _ _ _ _ (by omega)
      · rw [List.length_set, hpl]
      · intro i hi
        rw [List.getElem?_set]
        by_cases hij : j = i
        · subst hij
          simp only [if_true, hpl, hj]
        · rw [if_neg hij]
          exact hpv i (by omega)
      · intro r hr
        simp only [List.mem_cons] at hr
        rcases hr with rfl | rfl | hr
        · omega
        · omega
        · exact hR r hr)
  refine ⟨pp, R ++ [a_idx N, delta_idx N], ?_, hpl, hpv, ?_⟩
  · simp only [extract, forLoop, Nat.sub_zero]
    rw [Prog.run_seq (rdSol_run _ sd _ _ _ (by omega))]
    simp only [Prog.run_bind, setFirstDelta]
    rw [rdSol_run _ sd _ _ _ (by omega)]
    simp only [setFirstA, resizePoints]
    rw [hrun]
    simp only [E0, List.append_assoc, List.cons_append, List.nil_append]
  · intro r hr
    rcases List.mem_append.1 hr with h | h
    · exact hR r h
    · simp only [List.mem_cons, List.mem_singleton, List.not_mem_nil, or_false] at h
      omega

/-- A call of `MPC::Solve` whose two parts do not fail: what it returns. -/
theorem Solve_run (N : Nat) (T : Trig K) (solver : Problem K → solve_result K)
    (junk : Nat → Nat → K) (self : MPCObj K) (x y psi v cte epsi : K) (coeffs : List K)
    (L : Locals K) (E : ExtractState K)
    (hbuild : buildVectors N x y psi v cte epsi (allocLocals N junk) = some ((), L))
    (hext : extract N ⟨Vec.fresh (solver (problemOf N T coeffs L)).x, self⟩ = some ((), E)) :
    Solve N T solver junk self [x, y, psi, v, cte, epsi] coeffs =
      some ⟨decide ((solver (problemOf N T coeffs L)).status = status_type.success),
        E.self, L, [problemOf N T coeffs L], E.sol⟩ := by
  simp [Solve, hbuild, hext]

/-- Every call of `MPC::Solve` that returns has built the five vectors and has
called the solver once, with these vectors. -/
theorem Solve_locals (N : Nat) (T : Trig K) (solver : Problem K → solve_result K)
    (junk : Nat → Nat → K) (self : MPCObj K) (x y psi v cte epsi : K) (coeffs : List K)
    (L : Locals K) (run : SolveRun K)
    (hbuild : buildVectors N x y psi v cte epsi (allocLocals N junk) = some ((), L))
    (hrun : Solve N T solver junk self [x, y, psi, v, cte, epsi] coeffs = some run) :
    run.locals = L ∧ run.calls = [problemOf N T coeffs L] := by
  cases hext : extract N ⟨Vec.fresh (solver (problemOf N T coeffs L)).x, self⟩ with
  | none =>
    simp [Solve, hbuild, hext] at hrun
  | some p =>
    obtain ⟨u, E⟩ := p
    rw [Solve_run N T solver junk self x y psi v cte epsi coeffs L E hbuild hext] at hrun
    cases hrun
    exact ⟨rfl, rfl⟩

end SolveLemmas2

section ClaimLemmas

variable {K : Type} [LinearOrderedField K]

/-- The residuals the code assigns are the gaps between the decision vector
and the kinematic model. -/
theorem residual_eq_modelGap (N : Nat) (T : Trig K) (coeffs vd : List K) (i : Nat) :
    resX N T vd i = (modelGap N T coeffs vd i).x ∧
    resY N T vd i = (modelGap N T coeffs vd i).y ∧
    resPsi N vd i = (modelGap N T coeffs vd i).psi ∧
    resV N vd i = (modelGap N T coeffs vd i).v ∧
    resCte N T coeffs vd i = (modelGap N T coeffs vd i).cte ∧
    resEpsi N T coeffs vd i = (modelGap N T coeffs vd i).epsi := by
  refine ⟨?_, ?_, ?_, ?_, ?_, ?_⟩
  · simp only [resX, modelGap, stateAt, DynamicsModel, Nat.add_assoc]
  · simp only [resY, modelGap, stateAt, DynamicsModel, Nat.add_assoc]
  · simp only [resPsi, modelGap, stateAt, DynamicsModel, deltaAt, Nat.add_assoc]
    ring
  · simp only [resV, modelGap, stateAt, DynamicsModel, aAt, Nat.add_assoc]
  · simp only [resCte, modelGap, stateAt, DynamicsModel, refCurve, Nat.add_assoc]
    ring
  · simp only [resEpsi, modelGap, stateAt, DynamicsModel, refSlope, deltaAt, Nat.add_assoc]
    ring_nf

theorem getD_eq_of_lt (l : List K) (i : Nat) (h : i < l.length) :
    some (l.getD i 0) = l[i]? := (getElem?_getD l i 0 h).symm

/-- What `MPC::Solve` returns and leaves in the object when the solver's
vector has `n_vars` entries. -/
theorem Solve_spec (N : Nat) (hN : 2 ≤ N) (T : Trig K) (solver : Problem K → solve_result K)
    (junk : Nat → Nat → K) (self : MPCObj K) (x y psi v cte epsi : K) (coeffs : List K)
    (hsol : ∀ p, (solver p).x.length = n_vars N) :
    ∃ run p R, Solve N T solver junk self [x, y, psi, v, cte, epsi] coeffs = some run ∧
      run.calls = [p] ∧ p = problemOf N T coeffs run.locals ∧
      run.ret = decide ((solver p).status = status_type.success) ∧
      run.self.first_delta = (solver p).x.getD (delta_idx N) 0 ∧
      run.self.first_a = (solver p).x.getD (a_idx N) 0 ∧
      run.self.predicted_points.length = N ∧
      (∀ i, i < N → run.self.predicted_points[i]? =
          some ⟨(solver p).x.getD (x_idx N + i) 0, (solver p).x.getD (y_idx N + i) 0⟩) ∧
      run.sol = ⟨(solver p).x, [], R⟩ ∧ (∀ r ∈ R, r < n_vars N) := by
  obtain ⟨L, hL, -⟩ := buildVectors_spec N (by omega) x y psi v cte epsi junk
  obtain ⟨pp, R, hext, hpl, hpv, hR⟩ := extract_spec N hN (solver (problemOf N T coeffs L)).x
    [] [] self (hsol _)
  refine ⟨_, problemOf N T coeffs L, R, Solve_run N T solver junk self x y psi v cte epsi
    coeffs L _ hL hext, rfl, rfl, rfl, rfl, rfl, hpl, hpv, ?_, hR⟩
  simp only [List.append_nil]

/-- On a decision vector that holds a trajectory of the kinematic model and
its controls, the gap to the model is 0 at every step. -/
theorem modelGap_of_trajectory (N : Nat) (T : Trig K) (coeffs : List K) (s0 : State K)
    (delta a : Nat → K) (vars : List K)
    (hstate : ∀ t, t < N → stateAt N vars t = trajectory T coeffs s0 delta a t)
    (hctrl : ∀ t, t < N - 1 → deltaAt N vars t = delta t ∧ aAt N vars t = a t)
    (i : Nat) (hi : i < N - 1) :
    modelGap N T coeffs vars i = ⟨0, 0, 0, 0, 0, 0⟩ := by
  have hs1 := hstate (i + 1) (by omega)
  have hs0 := hstate i (by omega)
  obtain ⟨hd, ha⟩ := hctrl i hi
  simp only [modelGap, hs1, hs0, hd, ha, trajectory, sub_self]

/-- A decision vector that holds a trajectory of the kinematic model from the
state `s0` meets the constraint limits that `MPC::Solve` builds for `s0`. -/
theorem trajectory_withinBounds (N : Nat) (hN : 2 ≤ N) (T : Trig K) (coeffs : List K)
    (hc : 4 ≤ coeffs.length) (s0 : State K) (delta a : Nat → K) (vars fg0 : List K)
    (hv : vars.length = n_vars N) (hf : fg0.length = 1 + n_constraints N)
    (hstate : ∀ t, t < N → stateAt N vars t = trajectory T coeffs s0 delta a t)
    (hctrl : ∀ t, t < N - 1 → deltaAt N vars t = delta t ∧ aAt N vars t = a t)
    (junk : Nat → Nat → K) :
    ∃ out L, FG_eval N T coeffs ⟨Vec.fresh fg0, Vec.fresh vars⟩ = some ((), out) ∧
      buildVectors N s0.x s0.y s0.psi s0.v s0.cte s0.epsi (allocLocals N junk) =
        some ((), L) ∧
      withinBounds L.constraints_lowerbound.data L.constraints_upperbound.data
        (constraintVector out.fg.data) := by
  obtain ⟨hx, hy, hpsi, hvi, hcte, hepsi, hdelta, ha, hnv, hnc, hsz⟩ := idx_eq N (by omega)
  obtain ⟨fd1, Wc, Wd, FR, R, hrun, hlen, -, ⟨i1, i2, i3, i4, i5, i6⟩, hres, -⟩ :=
    FG_eval_spec N hN T coeffs hc fg0 [] [] vars [] [] hv hf
  obtain ⟨L, hL, -, -, -, ⟨-, ⟨l1, l2, l3, l4, l5, l6⟩, l0⟩, ⟨-, ⟨u1, u2, u3, u4, u5, u6⟩, u0⟩⟩ :=
    buildVectors_spec N (by omega) s0.x s0.y s0.psi s0.v s0.cte s0.epsi junk
  have h0 := hstate 0 (by omega)
  simp only [trajectory] at h0
  have hz : ∀ i, i < N - 1 →
      fd1[2 + x_idx N + i]? = some 0 ∧ fd1[2 + y_idx N + i]? = some 0 ∧
      fd1[2 + psi_idx N + i]? = some 0 ∧ fd1[2 + v_idx N + i]? = some 0 ∧
      fd1[2 + cte_idx N + i]? = some 0 ∧ fd1[2 + epsi_idx N + i]? = some 0 := by
    intro i hi
    obtain ⟨r1, r2, r3, r4, r5, r6⟩ := hres i hi
    obtain ⟨e1, e2, e3, e4, e5, e6⟩ := residual_eq_modelGap N T coeffs vars i
    have hgap := modelGap_of_trajectory N T coeffs s0 delta a vars hstate hctrl i hi
    simp only [e1, e2, e3, e4, e5, e6, hgap] at r1 r2 r3 r4 r5 r6
    exact ⟨r1, r2, r3, r4, r5, r6⟩
  have key : ∀ k c, L.constraints_lowerbound.data[k]? = some c →
      L.constraints_upperbound.data[k]? = some c → fd1[1 + k]? = some c →
      ∃ l h g, L.constraints_lowerbound.data[k]? = some l ∧
        L.constraints_upperbound.data[k]? = some h ∧
        (constraintVector fd1)[k]? = some g ∧ l ≤ g ∧ g ≤ h := by
    intro k c hl hu hg
    refine ⟨c, c, c, hl, hu, ?_, le_refl c, le_refl c⟩
    simp only [constraintVector, List.getElem?_drop]
    exact hg
  refine ⟨_, L, hrun, hL, ?_⟩
  intro k hk
  have hk6 : k < 6 * N := by
    simp only [constraintVector, List.length_drop] at hk
    have : k < fd1.length - 1 := hk
    omega
  show ∃ l h g, L.constraints_lowerbound.data[k]? = some l ∧
    L.constraints_upperbound.data[k]? = some h ∧ (constraintVector fd1)[k]? = some g ∧
    l ≤ g ∧ g ≤ h
  by_cases c1 : k = x_idx N
  · subst c1
    exact key _ _ l1 u1 (by rw [i1, ← h0]; simp only [stateAt, Nat.add_zero])
  by_cases c2 : k = y_idx N
  · subst c2
    exact key _ _ l2 u2 (by rw [i2, ← h0]; simp only [stateAt, Nat.add_zero])
  by_cases c3 : k = psi_idx N
  · subst c3
    exact key _ _ l3 u3 (by rw [i3, ← h0]; simp only [stateAt, Nat.add_zero])
  by_cases c4 : k = v_idx N
  · subst c4
    exact key _ _ l4 u4 (by rw [i4, ← h0]; simp only [stateAt, Nat.add_zero])
  by_cases c5 : k = cte_idx N
  · subst c5
    exact key _ _ l5 u5 (by rw [i5, ← h0]; simp only [stateAt, Nat.add_zero])
  by_cases c6 : k = epsi_idx N
  · subst c6
    exact key _ _ l6 u6 (by rw [i6, ← h0]; simp only [stateAt, Nat.add_zero])
  refine key k 0 (l0 k (by omega) c1 c2 c3 c4 c5 c6) (u0 k (by omega) c1 c2 c3 c4 c5 c6) ?_
  by_cases b1 : k < N
  · have e : 2 + x_idx N + (k - 1) = 1 + k := by omega
    rw [← e]
    exact (hz (k - 1) (by omega)).1
  by_cases b2 : k < 2 * N
  · have e : 2 + y_idx N + (k - N - 1) = 1 + k := by omega
    rw [← e]
    exact (hz (k - N - 1) (by omega)).2.1
  by_cases b3 : k < 3 * N
  · have e : 2 + psi_idx N + (k - 2 * N - 1) = 1 + k := by omega
    rw [← e]
    exact (hz (k - 2 * N - 1) (by omega)).2.2.1
  by_cases b4 : k < 4 * N
  · have e : 2 + v_idx N + (k - 3 * N - 1) = 1 + k := by omega
    rw [← e]
    exact (hz (k - 3 * N - 1) (by omega)).2.2.2.1
  by_cases b5 : k < 5 * N
  · have e : 2 + cte_idx N + (k - 4 * N - 1) = 1 + k := by omega
    rw [← e]
    exact (hz (k - 4 * N - 1) (by omega)).2.2.2.2.1
  · have e : 2 + epsi_idx N + (k - 5 * N - 1) = 1 + k := by omega
    rw [← e]
    exact (hz (k - 5 * N - 1) (by omega)).2.2.2.2.2

/-- The example vector `straightVars` holds the trajectory of the kinematic
model from the state `(0, 0, 0, 10, 0, 0)` under zero controls. -/
theorem straightVars_state (t : Nat) (ht : t < 2) :
    stateAt 2 straightVars t =
      trajectory ratTrig [0, 0, 0, 0] ⟨0, 0, 0, 10, 0, 0⟩ (fun _ => 0) (fun _ => 0) t := by
  interval_cases t
  · simp [stateAt, trajectory, straightVars, x_idx, y_idx, psi_idx, v_idx, cte_idx, epsi_idx]
  · simp [stateAt, trajectory, DynamicsModel, straightVars, x_idx, y_idx, psi_idx, v_idx,
      cte_idx, epsi_idx, ratTrig, refCurve, refSlope, dt, Lf]

/-- The example vector `straightVars` holds zero controls. -/
theorem straightVars_ctrl (t : Nat) (ht : t < 2 - 1) :
    deltaAt 2 straightVars t = (fun _ => (0 : ℚ)) t ∧
      aAt 2 straightVars t = (fun _ => (0 : ℚ)) t := by
  interval_cases t
  simp [deltaAt, aAt, straightVars, x_idx, y_idx, psi_idx, v_idx, cte_idx, epsi_idx,
    delta_idx, a_idx, szSub]

omit [LinearOrderedField K] in
/-- Two lists of the same length with the same entries are equal. -/
theorem list_eq_of_entries {α : Type} (l1 l2 : List α) (n : Nat) (h1 : l1.length = n)
    (h2 : l2.length = n) (h : ∀ k, k < n → l1[k]? = l2[k]?) : l1 = l2 := by
  apply List.ext_getElem?
  intro k
  by_cases hk : k < n
  · exact h k hk
  · rw [List.getElem?_eq_none (by omega), List.getElem?_eq_none (by omega)]

/-- The contents of the five vectors that `MPC::Solve` builds do not depend on
what the vectors held when they were allocated. -/
theorem buildVectors_data_eq (N : Nat) (hN : 1 ≤ N) (x y psi v cte epsi : K)
    (junk junk2 : Nat → Nat → K) (L L2 : Locals K)
    (hL : buildVectors N x y psi v cte epsi (allocLocals N junk) = some ((), L))
    (hL2 : buildVectors N x y psi v cte epsi (allocLocals N junk2) = some ((), L2)) :
    L.vars.data = L2.vars.data ∧ L.vars_lowerbound.data = L2.vars_lowerbound.data ∧
    L.vars_upperbound.data = L2.vars_upperbound.data ∧
    L.constraints_lowerbound.data = L2.constraints_lowerbound.data ∧
    L.constraints_upperbound.data = L2.constraints_upperbound.data := by
  obtain ⟨hx, hy, hpsi, hvi, hcte, hepsi, hdelta, ha, hnv, hnc, hsz⟩ := idx_eq N hN
  obtain ⟨M, hM, ⟨d0, W0, e0, hl0, hin0, -⟩, ⟨dl, Wl, el, hll, hl1, hl2, hl3, -⟩,
      ⟨du, Wu, eu, hul, hu1, hu2, hu3, -⟩, ⟨cll, ⟨a1, a2, a3, a4, a5, a6⟩, a0⟩,
      ⟨cul, ⟨b1, b2, b3, b4, b5, b6⟩, b0⟩⟩ :=
    buildVectors_spec N hN x y psi v cte epsi junk
  obtain ⟨M2, hM2, ⟨d0', W0', e0', hl0', hin0', -⟩, ⟨dl', Wl', el', hll', hl1', hl2', hl3', -⟩,
      ⟨du', Wu', eu', hul', hu1', hu2', hu3', -⟩, ⟨cll', ⟨a1', a2', a3', a4', a5', a6'⟩, a0'⟩,
      ⟨cul', ⟨b1', b2', b3', b4', b5', b6'⟩, b0'⟩⟩ :=
    buildVectors_spec N hN x y psi v cte epsi junk2
  rw [hL] at hM
  rw [hL2] at hM2
  cases hM
  cases hM2
  have hd0 : d0.length = n_vars N := by rw [hl0]; exact length_newDvector _ _
  have hd0' : d0'.length = n_vars N := by rw [hl0']; exact length_newDvector _ _
  refine ⟨?_, ?_, ?_, ?_, ?_⟩
  · rw [e0, e0']
    apply list_eq_of_entries _ _ (n_vars N) hd0 hd0'
    intro k hk
    rw [hin0 k (Nat.zero_le k) (by omega), hin0' k (Nat.zero_le k) (by omega)]
  · rw [el, el']
    apply list_eq_of_entries _ _ (n_vars N) hll hll'
    intro k hk
    by_cases c1 : k < delta_idx N
    · rw [hl1 k c1, hl1' k c1]
    · by_cases c2 : k < a_idx N
      · rw [hl2 k (by omega) c2, hl2' k (by omega) c2]
      · rw [hl3 k (by omega) hk, hl3' k (by omega) hk]
  · rw [eu, eu']
    apply list_eq_of_entries _ _ (n_vars N) hul hul'
    intro k hk
    by_cases c1 : k < delta_idx N
    · rw [hu1 k c1, hu1' k c1]
    · by_cases c2 : k < a_idx N
      · rw [hu2 k (by omega) c2, hu2' k (by omega) c2]
      · rw [hu3 k (by omega) hk, hu3' k (by omega) hk]
  · apply list_eq_of_entries _ _ (n_constraints N) cll cll'
    intro k hk
    by_cases c1 : k = x_idx N
    · rw [c1, a1, a1']
    by_cases c2 : k = y_idx N
    · rw [c2, a2, a2']
    by_cases c3 : k = psi_idx N
    · rw [c3, a3, a3']
    by_cases c4 : k = v_idx N
    · rw [c4, a4, a4']
    by_cases c5 : k = cte_idx N
    · rw [c5, a5, a5']
    by_cases c6 : k = epsi_idx N
    · rw [c6, a6, a6']
    rw [a0 k hk c1 c2 c3 c4 c5 c6, a0' k hk c1 c2 c3 c4 c5 c6]
  · apply list_eq_of_entries _ _ (n_constraints N) cul cul'
    intro k hk
    by_cases c1 : k = x_idx N
    · rw [c1, b1, b1']
    by_cases c2 : k = y_idx N
    · rw [c2, b2, b2']
    by_cases c3 : k = psi_idx N
    · rw [c3, b3, b3']
    by_cases c4 : k = v_idx N
    · rw [c4, b4, b4']
    by_cases c5 : k = cte_idx N
    · rw [c5, b5, b5']
    by_cases c6 : k = epsi_idx N
    · rw [c6, b6, b6']
    rw [b0 k hk c1 c2 c3 c4 c5 c6, b0' k hk c1 c2 c3 c4 c5 c6]

/-- Entries of `state` beyond the sixth play no part in `MPC::Solve`. -/
theorem Solve_cons6 (N : Nat) (T : Trig K) (solver : Problem K → solve_result K)
    (junk : Nat → Nat → K) (self : MPCObj K) (x y psi v cte epsi : K) (rest coeffs : List K) :
    Solve N T solver junk self (x :: y :: psi :: v :: cte :: epsi :: rest) coeffs =
      Solve N T solver junk self [x, y, psi, v, cte, epsi] coeffs := by
  simp [Solve]

/-- With fewer than six entries in `state`, one of the reads `state[0]`, ...,
`state[5]` is out of range. -/
theorem Solve_short (N : Nat) (T : Trig K) (solver : Problem K → solve_result K)
    (junk : Nat → Nat → K) (self : MPCObj K) (state coeffs : List K)
    (h : state.length < 6) : Solve N T solver junk self state coeffs = none := by
  match state, h with
  | [], _ => rfl
  | [_], _ => rfl
  | [_, _], _ => rfl
  | [_, _, _], _ => rfl
  | [_, _, _, _], _ => rfl
  | [_, _, _, _, _], _ => rfl
  | _ :: _ :: _ :: _ :: _ :: _ :: _, h =>
    simp only [List.length_cons] at h
    omega

omit [LinearOrderedField K] in
theorem State.ext6 (s t : State K) (h1 : s.x = t.x) (h2 : s.y = t.y) (h3 : s.psi = t.psi)
    (h4 : s.v = t.v) (h5 : s.cte = t.cte) (h6 : s.epsi = t.epsi) : s = t := by
  cases s
  cases t
  simp only [State.mk.injEq]
  exact ⟨h1, h2, h3, h4, h5, h6⟩

/-- When the gap to the model is 0 at every step, the state blocks of the
decision vector hold the trajectory of the model from its own first state
under its own controls. -/
theorem stateAt_eq_trajectory (N : Nat) (T : Trig K) (coeffs vd : List K)
    (hgap : ∀ i, i < N - 1 → modelGap N T coeffs vd i = ⟨0, 0, 0, 0, 0, 0⟩) :
    ∀ t, t < N → stateAt N vd t =
      trajectory T coeffs (stateAt N vd 0) (deltaAt N vd) (aAt N vd) t := by
  intro t
  induction t with
  | zero =>
    intro _
    rfl
  | succ t ih =>
    intro ht
    have h := hgap t (by omega)
    simp only [modelGap, State.mk.injEq, sub_eq_zero] at h
    obtain ⟨h1, h2, h3, h4, h5, h6⟩ := h
    show _ = DynamicsModel T coeffs (trajectory T coeffs (stateAt N vd 0) (deltaAt N vd)
      (aAt N vd) t) (deltaAt N vd t) (aAt N vd t)
    rw [← ih (by omega)]
    exact State.ext6 _ _ h1 h2 h3 h4 h5 h6

/-- The trajectory up to step `t` only depends on the controls before `t`. -/
theorem trajectory_congr (T : Trig K) (coeffs : List K) (s0 : State K)
    (d1 a1 d2 a2 : Nat → K) (t : Nat) (h : ∀ s, s < t → d1 s = d2 s ∧ a1 s = a2 s) :
    trajectory T coeffs s0 d1 a1 t = trajectory T coeffs s0 d2 a2 t := by
  induction t with
  | zero => rfl
  | succ t ih =>
    simp only [trajectory]
    rw [ih (fun s hs => h s (by omega)), (h t (by omega)).1, (h t (by omega)).2]

/-- If the output of `FG_eval` holds 0 in every slot of the dynamics loop, the
gap to the model is 0 at every step. -/
theorem modelGap_of_residuals_zero (N : Nat) (hN : 2 ≤ N) (T : Trig K)
    (coeffs vars fg0 : List K) (hc : 4 ≤ coeffs.length) (hv : vars.length = n_vars N)
    (hf : fg0.length = 1 + n_constraints N) (out : FGState K)
    (hrun : FG_eval N T coeffs ⟨Vec.fresh fg0, Vec.fresh vars⟩ = some ((), out))
    (hz : dynResidualsZero N out.fg.data) :
    ∀ i, i < N - 1 → modelGap N T coeffs vars i = ⟨0, 0, 0, 0, 0, 0⟩ := by
  obtain ⟨fd1, Wc, Wd, FR, R, hrun1, -, -, -, hres, -⟩ :=
    FG_eval_spec N hN T coeffs hc fg0 [] [] vars [] [] hv hf
  rw [show (⟨Vec.fresh fg0, Vec.fresh vars⟩ : FGState K) = ⟨⟨fg0, [], []⟩, ⟨vars, [], []⟩⟩
    from rfl] at hrun
  rw [hrun1] at hrun
  cases hrun
  intro i hi
  obtain ⟨r1, r2, r3, r4, r5, r6⟩ := hres i hi
  obtain ⟨z1, z2, z3, z4, z5, z6⟩ := hz i hi
  obtain ⟨e1, e2, e3, e4, e5, e6⟩ := residual_eq_modelGap N T coeffs vars i
  simp only at z1 z2 z3 z4 z5 z6
  rw [r1] at z1
  rw [r2] at z2
  rw [r3] at z3
  rw [r4] at z4
  rw [r5] at z5
  rw [r6] at z6
  apply State.ext6
  · rw [← e1]; exact Option.some.inj z1
  · rw [← e2]; exact Option.some.inj z2
  · rw [← e3]; exact Option.some.inj z3
  · rw [← e4]; exact Option.some.inj z4
  · rw [← e5]; exact Option.some.inj z5
  · rw [← e6]; exact Option.some.inj z6

/-- Two decision vectors whose state blocks hold the trajectory of the model
from the same first state under the same controls are equal. -/
theorem vars_eq_of_trajectory (N : Nat) (hN : 2 ≤ N) (T : Trig K) (coeffs v1 v2 : List K)
    (h1 : v1.length = n_vars N) (h2 : v2.length = n_vars N)
    (hg1 : ∀ i, i < N - 1 → modelGap N T coeffs v1 i = ⟨0, 0, 0, 0, 0, 0⟩)
    (hg2 : ∀ i, i < N - 1 → modelGap N T coeffs v2 i = ⟨0, 0, 0, 0, 0, 0⟩)
    (h0 : stateAt N v1 0 = stateAt N v2 0)
    (hctrl : ∀ t, t < N - 1 → deltaAt N v1 t = deltaAt N v2 t ∧ aAt N v1 t = aAt N v2 t) :
    v1 = v2 := by
  obtain ⟨hx, hy, hpsi, hvi, hcte, hepsi, hdelta, ha, hnv, hnc, hsz⟩ := idx_eq N (by omega)
  have hst : ∀ t, t < N → stateAt N v1 t = stateAt N v2 t := by
    intro t ht
    rw [stateAt_eq_trajectory N T coeffs v1 hg1 t ht,
      stateAt_eq_trajectory N T coeffs v2 hg2 t ht, h0]
    exact trajectory_congr T coeffs _ _ _ _ _ t (fun s hs => hctrl s (by omega))
  have hget : ∀ k, k < n_vars N → v1.getD k 0 = v2.getD k 0 := by
    intro k hk
    by_cases b1 : k < N
    · have := congrArg State.x (hst k b1)
      simpa [stateAt, hx] using this
    by_cases b2 : k < 2 * N
    · have := congrArg State.y (hst (k - N) (by omega))
      simp only [stateAt, hy] at this
      rwa [show N + (k - N) = k by omega] at this
    by_cases b3 : k < 3 * N
    · have := congrArg State.psi (hst (k - 2 * N) (by omega))
      simp only [stateAt, hpsi] at this
      rwa [show 2 * N + (k - 2 * N) = k by omega] at this
    by_cases b4 : k < 4 * N
    · have := congrArg State.v (hst (k - 3 * N) (by omega))
      simp only [stateAt, hvi] at this
      rwa [show 3 * N + (k - 3 * N) = k by omega] at this
    by_cases b5 : k < 5 * N
    · have := congrArg State.cte (hst (k - 4 * N) (by omega))
      simp only [stateAt, hcte] at this
      rwa [show 4 * N + (k - 4 * N) = k by omega] at this
    by_cases b6 : k < 6 * N
    · have := congrArg State.epsi (hst (k - 5 * N) (by omega))
      simp only [stateAt, hepsi] at this
      rwa [show 5 * N + (k - 5 * N) = k by omega] at this
    by_cases b7 : k < 7 * N - 1
    · have := (hctrl (k - 6 * N) (by omega)).1
      simp only [deltaAt, hdelta] at this
      rwa [show 6 * N + (k - 6 * N) = k by omega] at this
    · have := (hctrl (k - (7 * N - 1)) (by omega)).2
      simp only [aAt, ha] at this
      rwa [show 7 * N - 1 + (k - (7 * N - 1)) = k by omega] at this
  apply list_eq_of_entries _ _ (n_vars N) h1 h2
  intro k hk
  rw [getElem?_getD _ _ 0 (by omega), getElem?_getD _ _ 0 (by omega), hget k hk]

omit [LinearOrderedField K] in
theorem getD_congr [Zero K] (l1 l2 : List K) (k : Nat) (h : l1[k]? = l2[k]?) :
    l1.getD k 0 = l2.getD k 0 := by
  rw [List.getD_eq_getElem?_getD, List.getD_eq_getElem?_getD, h]

theorem objective_nonneg (N : Nat) (vd : List K) : 0 ≤ objective N vd := by
  simp only [objective, costRefTerm, costActTerm, costGapTerm, w_cte, w_epsi, w_delta, w_a,
    w_delta_diff, w_a_diff]
  have h1 : ∀ i ∈ Finset.range N, (0 : K) ≤ 2500 * (vd.getD (cte_idx N + i) 0 - ref_cte K) ^ 2 +
      2500 * (vd.getD (epsi_idx N + i) 0 - ref_epsi K) ^ 2 +
      (vd.getD (v_idx N + i) 0 - ref_v K) ^ 2 := fun i _ => by positivity
  have h2 : ∀ i ∈ Finset.range (szSub N 1), (0 : K) ≤ 1 * vd.getD (delta_idx N + i) 0 ^ 2 +
      1 * vd.getD (a_idx N + i) 0 ^ 2 := fun i _ => by positivity
  have h3 : ∀ i ∈ Finset.range (szSub N 2), (0 : K) ≤
      200 * (vd.getD (delta_idx N + i + 1) 0 - vd.getD (delta_idx N + i) 0) ^ 2 +
      10 * (vd.getD (a_idx N + i + 1) 0 - vd.getD (a_idx N + i) 0) ^ 2 :=
    fun i _ => by positivity
  have := Finset.sum_nonneg h1
  have := Finset.sum_nonneg h2
  have := Finset.sum_nonneg h3
  linarith

/-- If two decision vectors differ only in the entry `cte_idx + t`, the one
with the greater `|cte_t - ref_cte|` has the greater objective. -/
theorem objective_lt_of_cte (N : Nat) (hN : 2 ≤ N) (v1 v2 : List K) (t : Nat) (ht : t < N)
    (hsame : ∀ k, k ≠ cte_idx N + t → v1[k]? = v2[k]?)
    (hlt : |v1.getD (cte_idx N + t) 0 - ref_cte K| < |v2.getD (cte_idx N + t) 0 - ref_cte K|) :
    objective N v1 < objective N v2 := by
  obtain ⟨hx, hy, hpsi, hvi, hcte, hepsi, hdelta, ha, hnv, hnc, hsz⟩ := idx_eq N (by omega)
  have hsz2 : szSub N 2 = N - 2 := szSub_of_le hN
  have hg : ∀ k, k ≠ cte_idx N + t → v1.getD k 0 = v2.getD k 0 :=
    fun k hk => getD_congr _ _ k (hsame k hk)
  have hsq := sq_lt_sq.2 hlt
  have hact : ∀ i ∈ Finset.range (szSub N 1), costActTerm N v1 i = costActTerm N v2 i := by
    intro i hi
    rw [hsz, Finset.mem_range] at hi
    simp only [costActTerm]
    rw [hg _ (by omega), hg _ (by omega)]
  have hgap : ∀ i ∈ Finset.range (szSub N 2), costGapTerm N v1 i = costGapTerm N v2 i := by
    intro i hi
    rw [hsz2, Finset.mem_range] at hi
    simp only [costGapTerm]
    rw [hg _ (by omega), hg _ (by omega), hg _ (by omega), hg _ (by omega)]
  have hle : ∀ i ∈ Finset.range N, costRefTerm N v1 i ≤ costRefTerm N v2 i := by
    intro i hi
    rw [Finset.mem_range] at hi
    simp only [costRefTerm]
    rw [hg (epsi_idx N + i) (by omega), hg (v_idx N + i) (by omega)]
    by_cases hit : i = t
    · subst hit
      have : w_cte K * (v1.getD (cte_idx N + i) 0 - ref_cte K) ^ 2 ≤
          w_cte K * (v2.getD (cte_idx N + i) 0 - ref_cte K) ^ 2 := by
        simp only [w_cte]
        linarith
      linarith
    · rw [hg (cte_idx N + i) (by omega)]
  have hstrict : ∃ i ∈ Finset.range N, costRefTerm N v1 i < costRefTerm N v2 i := by
    refine ⟨t, Finset.mem_range.2 ht, ?_⟩
    simp only [costRefTerm]
    rw [hg (epsi_idx N + t) (by omega), hg (v_idx N + t) (by omega)]
    have : w_cte K * (v1.getD (cte_idx N + t) 0 - ref_cte K) ^ 2 <
        w_cte K * (v2.getD (cte_idx N + t) 0 - ref_cte K) ^ 2 := by
      simp only [w_cte]
      linarith
    linarith
  have h1 := Finset.sum_lt_sum hle hstrict
  have h2 := Finset.sum_congr rfl hact
  have h3 := Finset.sum_congr rfl hgap
  simp only [objective]
  rw [h2, h3]
  linarith

/-- If two decision vectors differ only in the entry `epsi_idx + t`, the one
with the greater `|epsi_t - ref_epsi|` has the greater objective. -/
theorem objective_lt_of_epsi (N : Nat) (hN : 2 ≤ N) (v1 v2 : List K) (t : Nat) (ht : t < N)
    (hsame : ∀ k, k ≠ epsi_idx N + t → v1[k]? = v2[k]?)
    (hlt : |v1.getD (epsi_idx N + t) 0 - ref_epsi K| <
      |v2.getD (epsi_idx N + t) 0 - ref_epsi K|) :
    objective N v1 < objective N v2 := by
  obtain ⟨hx, hy, hpsi, hvi, hcte, hepsi, hdelta, ha, hnv, hnc, hsz⟩ := idx_eq N (by omega)
  have hsz2 : szSub N 2 = N - 2 := szSub_of_le hN
  have hg : ∀ k, k ≠ epsi_idx N + t → v1.getD k 0 = v2.getD k 0 :=
    fun k hk => getD_congr _ _ k (hsame k hk)
  have hsq := sq_lt_sq.2 hlt
  have hact : ∀ i ∈ Finset.range (szSub N 1), costActTerm N v1 i = costActTerm N v2 i := by
    intro i hi
    rw [hsz, Finset.mem_range] at hi
    simp only [costActTerm]
    rw [hg _ (by omega), hg _ (by omega)]
  have hgap : ∀ i ∈ Finset.range (szSub N 2), costGapTerm N v1 i = costGapTerm N v2 i := by
    intro i hi
    rw [hsz2, Finset.mem_range] at hi
    simp only [costGapTerm]
    rw [hg _ (by omega), hg _ (by omega), hg _ (by omega), hg _ (by omega)]
  have hle : ∀ i ∈ Finset.range N, costRefTerm N v1 i ≤ costRefTerm N v2 i := by
    intro i hi
    rw [Finset.mem_range] at hi
    simp only [costRefTerm]
    rw [hg (cte_idx N + i) (by omega), hg (v_idx N + i) (by omega)]
    by_cases hit : i = t
    · subst hit
      have : w_epsi K * (v1.getD (epsi_idx N + i) 0 - ref_epsi K) ^ 2 ≤
          w_epsi K * (v2.getD (epsi_idx N + i) 0 - ref_epsi K) ^ 2 := by
        simp only [w_epsi]
        linarith
      linarith
    · rw [hg (epsi_idx N + i) (by omega)]
  have hstrict : ∃ i ∈ Finset.range N, costRefTerm N v1 i < costRefTerm N v2 i := by
    refine ⟨t, Finset.mem_range.2 ht, ?_⟩
    simp only [costRefTerm]
    rw [hg (cte_idx N + t) (by omega), hg (v_idx N + t) (by omega)]
    have : w_epsi K * (v1.getD (epsi_idx N + t) 0 - ref_epsi K) ^ 2 <
        w_epsi K * (v2.getD (epsi_idx N + t) 0 - ref_epsi K) ^ 2 := by
      simp only [w_epsi]
      linarith
    linarith
  have h1 := Finset.sum_lt_sum hle hstrict
  have h2 := Finset.sum_congr rfl hact
  have h3 := Finset.sum_congr rfl hgap
  simp only [objective]
  rw [h2, h3]
  linarith

theorem trajectory_fullThrottle (T : Trig K) (hcos : T.cos 0 = 1) (hsin : T.sin 0 = 0)
    (hatan : T.atan 0 = 0) (t : Nat) :
    trajectory T [0, 0, 0, 0] ⟨0, 0, 0, 10, 0, 0⟩ (fun _ => 0) (fun _ => 7 / 10) t =
      throttleState K t := by
  induction t with
  | zero => simp [trajectory, throttleState]
  | succ t ih =>
    simp only [trajectory, ih, throttleState, DynamicsModel, refCurve, refSlope, hcos, hsin,
      hatan, dt, Lf, State.mk.injEq]
    refine ⟨?_, ?_, ?_, ?_, ?_, ?_⟩
    · push_cast
      ring
    · simp
    · simp
    · push_cast
      ring
    · simp
    · simp [hatan]

theorem stateAt_fullThrottle (t : Nat) (ht : t < 10) :
    stateAt 10 (fullThrottle K) t = throttleState K t := by
  interval_cases t <;>
    simp [stateAt, fullThrottle, throttleState, x_idx, y_idx, psi_idx, v_idx, cte_idx,
      epsi_idx] <;> norm_num

theorem controls_fullThrottle (t : Nat) (ht : t < 9) :
    deltaAt 10 (fullThrottle K) t = 0 ∧ aAt 10 (fullThrottle K) t = 7 / 10 := by
  interval_cases t <;>
    simp [deltaAt, aAt, fullThrottle, x_idx, y_idx, psi_idx, v_idx, cte_idx,
      epsi_idx, delta_idx, a_idx, szSub]

/-- What admissibility means entry by entry: the state at step 0 is the state
handed to `MPC::Solve`, the gap to the model is 0 at every step, and the
accelerations lie between `-0.7` and `0.7`. -/
theorem feasible_facts (N : Nat) (hN : 2 ≤ N) (T : Trig K) (coeffs : List K)
    (hc : 4 ≤ coeffs.length) (x y psi v cte epsi : K) (junk : Nat → Nat → K) (L : Locals K)
    (hL : buildVectors N x y psi v cte epsi (allocLocals N junk) = some ((), L))
    (z : List K) (hz : Feasible N T coeffs L z) :
    stateAt N z 0 = ⟨x, y, psi, v, cte, epsi⟩ ∧
    (∀ i, i < N - 1 → modelGap N T coeffs z i = ⟨0, 0, 0, 0, 0, 0⟩) ∧
    (∀ i, i < N - 1 → -(7 / 10) ≤ aAt N z i ∧ aAt N z i ≤ 7 / 10) := by
  obtain ⟨hx, hy, hpsi, hvi, hcte, hepsi, hdelta, ha, hnv, hnc, hsz⟩ := idx_eq N (by omega)
  obtain ⟨hlen, hvb, out, hrun, hwb⟩ := hz
  obtain ⟨M, hM, -, ⟨dl, Wl, el, hll, hl1, hl2, hl3, -⟩, ⟨du, Wu, eu, hul, hu1, hu2, hu3, -⟩,
      ⟨cll, ⟨a1, a2, a3, a4, a5, a6⟩, a0⟩, ⟨cul, ⟨b1, b2, b3, b4, b5, b6⟩, b0⟩⟩ :=
    buildVectors_spec N (by omega) x y psi v cte epsi junk
  rw [hL] at hM
  cases hM
  obtain ⟨fd1, Wc, Wd, FR, R, hrun1, hfl, -, ⟨i1, i2, i3, i4, i5, i6⟩, hres, -⟩ :=
    FG_eval_spec N hN T coeffs hc (List.replicate (1 + n_constraints N) 0) [] [] z [] []
      hlen (List.length_replicate _ _)
  rw [show (⟨Vec.fresh (List.replicate (1 + n_constraints N) 0), Vec.fresh z⟩ : FGState K) =
    ⟨⟨List.replicate (1 + n_constraints N) 0, [], []⟩, ⟨z, [], []⟩⟩ from rfl] at hrun
  rw [hrun1] at hrun
  cases hrun
  simp only at hwb
  have hfd : fd1.length = 1 + 6 * N := by
    rw [hfl, List.length_replicate, hnc]
  have pin : ∀ k c g, k < 6 * N → L.constraints_lowerbound.data[k]? = some c →
      L.constraints_upperbound.data[k]? = some c → fd1[1 + k]? = some g → g = c := by
    intro k c g hk hl hu hg
    obtain ⟨l, h, g', e1, e2, e3, e4, e5⟩ := hwb k (by
      simp only [constraintVector, List.length_drop]
      omega)
    rw [hl] at e1
    rw [hu] at e2
    simp only [constraintVector, List.getElem?_drop] at e3
    rw [hg] at e3
    cases e1
    cases e2
    cases e3
    exact le_antisymm e5 e4
  have zero : ∀ k g, k < 6 * N → k ≠ x_idx N → k ≠ y_idx N → k ≠ psi_idx N → k ≠ v_idx N →
      k ≠ cte_idx N → k ≠ epsi_idx N → fd1[1 + k]? = some g → g = 0 :=
    fun k g hk c1 c2 c3 c4 c5 c6 hg =>
      pin k 0 g hk (a0 k (by omega) c1 c2 c3 c4 c5 c6) (b0 k (by omega) c1 c2 c3 c4 c5 c6) hg
  refine ⟨?_, ?_, ?_⟩
  · apply State.ext6 <;> simp only [stateAt, Nat.add_zero]
    · exact pin _ _ _ (by omega) a1 b1 i1
    · exact pin _ _ _ (by omega) a2 b2 i2
    · exact pin _ _ _ (by omega) a3 b3 i3
    · exact pin _ _ _ (by omega) a4 b4 i4
    · exact pin _ _ _ (by omega) a5 b5 i5
    · exact pin _ _ _ (by omega) a6 b6 i6
  · intro i hi
    obtain ⟨r1, r2, r3, r4, r5, r6⟩ := hres i hi
    obtain ⟨e1, e2, e3, e4, e5, e6⟩ := residual_eq_modelGap N T coeffs z i
    apply State.ext6
    · rw [← e1]
      refine zero (x_idx N + 1 + i) _ (by omega) (by omega) (by omega) (by omega) (by omega)
        (by omega) (by omega) ?_
      rw [← r1]; congr 1; omega
    · rw [← e2]
      refine zero (y_idx N + 1 + i) _ (by omega) (by omega) (by omega) (by omega) (by omega)
        (by omega) (by omega) ?_
      rw [← r2]; congr 1; omega
    · rw [← e3]
      refine zero (psi_idx N + 1 + i) _ (by omega) (by omega) (by omega) (by omega) (by omega)
        (by omega) (by omega) ?_
      rw [← r3]; congr 1; omega
    · rw [← e4]
      refine zero (v_idx N + 1 + i) _ (by omega) (by omega) (by omega) (by omega) (by omega)
        (by omega) (by omega) ?_
      rw [← r4]; congr 1; omega
    · rw [← e5]
      refine zero (cte_idx N + 1 + i) _ (by omega) (by omega) (by omega) (by omega) (by omega)
        (by omega) (by omega) ?_
      rw [← r5]; congr 1; omega
    · rw [← e6]
      refine zero (epsi_idx N + 1 + i) _ (by omega) (by omega) (by omega) (by omega) (by omega)
        (by omega) (by omega) ?_
      rw [← r6]; congr 1; omega
  · intro i hi
    obtain ⟨l, h, c, e1, e2, e3, e4, e5⟩ := hvb (a_idx N + i) (by omega)
    rw [el] at e1
    rw [eu] at e2
    simp only at e1 e2
    rw [hl3 _ (by omega) (by omega)] at e1
    rw [hu3 _ (by omega) (by omega)] at e2
    cases e1
    cases e2
    simp only [aAt]
    rw [getD_of_getElem? e3]
    exact ⟨e4, e5⟩

theorem costRefTerm_fullThrottle (i : Nat) (hi : i < 10) :
    costRefTerm 10 (fullThrottle K) i = (7 * (i : K) / 100 - 100) ^ 2 := by
  interval_cases i <;>
    simp [costRefTerm, fullThrottle, x_idx, y_idx, psi_idx, v_idx, cte_idx, epsi_idx,
      ref_cte, ref_epsi, ref_v, w_cte, w_epsi] <;> norm_num

theorem costActTerm_fullThrottle (i : Nat) (hi : i < 9) :
    costActTerm 10 (fullThrottle K) i = 49 / 100 := by
  interval_cases i <;>
    simp [costActTerm, fullThrottle, x_idx, y_idx, psi_idx, v_idx, cte_idx, epsi_idx,
      delta_idx, a_idx, szSub, w_delta, w_a] <;> norm_num

theorem costGapTerm_fullThrottle (i : Nat) (hi : i < 8) :
    costGapTerm 10 (fullThrottle K) i = 0 := by
  interval_cases i <;>
    simp [costGapTerm, fullThrottle, x_idx, y_idx, psi_idx, v_idx, cte_idx, epsi_idx,
      delta_idx, a_idx, szSub, w_delta_diff, w_a_diff]

theorem objective_fullThrottle :
    objective 10 (fullThrottle K) = 993758065 / 10000 := by
  have e1 : szSub 10 1 = 9 := by simp [szSub]
  have e2 : szSub 10 2 = 8 := by simp [szSub]
  rw [objective, e1, e2,
    Finset.sum_congr rfl (fun i hi => costRefTerm_fullThrottle i (Finset.mem_range.mp hi)),
    Finset.sum_congr rfl (fun i hi => costActTerm_fullThrottle i (Finset.mem_range.mp hi)),
    Finset.sum_congr rfl (fun i hi => costGapTerm_fullThrottle i (Finset.mem_range.mp hi))]
  simp only [Finset.sum_range_succ, Finset.sum_range_zero, Finset.sum_const_zero]
  norm_num

theorem objective_ge_speed_controls (N : Nat) (z : List K) :
    (∑ i ∈ Finset.range N, ((stateAt N z i).v - 110) ^ 2) +
      (∑ i ∈ Finset.range (szSub N 1), (deltaAt N z i ^ 2 + aAt N z i ^ 2)) ≤
      objective N z := by
  have h1 : (∑ i ∈ Finset.range N, ((stateAt N z i).v - 110) ^ 2) ≤
      ∑ i ∈ Finset.range N, costRefTerm N z i := by
    apply Finset.sum_le_sum
    intro i _
    simp only [costRefTerm, stateAt, ref_v, w_cte, w_epsi]
    have := sq_nonneg (z.getD (cte_idx N + i) 0 - ref_cte K)
    have := sq_nonneg (z.getD (epsi_idx N + i) 0 - ref_epsi K)
    linarith
  have h2 : (∑ i ∈ Finset.range (szSub N 1), (deltaAt N z i ^ 2 + aAt N z i ^ 2)) =
      ∑ i ∈ Finset.range (szSub N 1), costActTerm N z i := by
    apply Finset.sum_congr rfl
    intro i _
    simp only [costActTerm, deltaAt, aAt, w_delta, w_a, one_mul]
  have h3 : 0 ≤ ∑ i ∈ Finset.range (szSub N 2), costGapTerm N z i := by
    apply Finset.sum_nonneg
    intro i _
    simp only [costGapTerm, w_delta_diff, w_a_diff]
    positivity
  rw [objective]
  linarith

theorem sq_sub_ref_le (c v : K) (h : v ≤ c) (hc : c ≤ 110) :
    (c - 110) ^ 2 ≤ (v - 110) ^ 2 := by
  nlinarith [mul_nonneg (show (0:K) ≤ c - v by linarith) (show (0:K) ≤ 220 - c - v by linarith)]

theorem sq_sub_ref_le_linear (c v : K) (h : v ≤ c) (hc : c ≤ 11) :
    (c - 110) ^ 2 + 198 * (c - v) ≤ (v - 110) ^ 2 := by
  nlinarith [mul_nonneg (show (0:K) ≤ c - v by linarith) (show (0:K) ≤ 22 - c - v by linarith)]

theorem sq_ge_tangent (a : K) : 49 / 100 - 14 / 10 * (7 / 10 - a) ≤ a ^ 2 := by
  nlinarith [sq_nonneg (a - 7 / 10)]

set_option maxHeartbeats 4000000 in
/-- Ten speeds that start at 10 and grow by a tenth of an acceleration that is
at most 7/10. -/
theorem speed_cost_lower (v : Nat → K) (a : Nat → K)
    (hv0 : v 0 = 10) (hv : ∀ i, i < 9 → v (i + 1) = v i + a i * (1 / 10))
    (ha : ∀ i, i < 9 → a i ≤ 7 / 10) :
    993758065 / 10000 + 184 / 10 * (∑ s ∈ Finset.range 9, (7 / 10 - a s)) ≤
      (∑ i ∈ Finset.range 10, (v i - 110) ^ 2) + ∑ s ∈ Finset.range 9, a s ^ 2 := by
  have h0 := hv 0 (by norm_num)
  have h1 := hv 1 (by norm_num)
  have h2 := hv 2 (by norm_num)
  have h3 := hv 3 (by norm_num)
  have h4 := hv 4 (by norm_num)
  have h5 := hv 5 (by norm_num)
  have h6 := hv 6 (by norm_num)
  have h7 := hv 7 (by norm_num)
  have h8 := hv 8 (by norm_num)
  have a0 := ha 0 (by norm_num)
  have a1 := ha 1 (by norm_num)
  have a2 := ha 2 (by norm_num)
  have a3 := ha 3 (by norm_num)
  have a4 := ha 4 (by norm_num)
  have a5 := ha 5 (by norm_num)
  have a6 := ha 6 (by norm_num)
  have a7 := ha 7 (by norm_num)
  have a8 := ha 8 (by norm_num)
  norm_num at h0 h1 h2 h3 h4 h5 h6 h7 h8
  simp only [Finset.sum_range_succ, Finset.sum_range_zero, zero_add]
  have b0 := sq_sub_ref_le (1000 / 100) (v 0) (by linarith) (by norm_num)
  have b1 := sq_sub_ref_le (1007 / 100) (v 1) (by linarith) (by norm_num)
  have b2 := sq_sub_ref_le (1014 / 100) (v 2) (by linarith) (by norm_num)
  have b3 := sq_sub_ref_le (1021 / 100) (v 3) (by linarith) (by norm_num)
  have b4 := sq_sub_ref_le (1028 / 100) (v 4) (by linarith) (by norm_num)
  have b5 := sq_sub_ref_le (1035 / 100) (v 5) (by linarith) (by norm_num)
  have b6 := sq_sub_ref_le (1042 / 100) (v 6) (by linarith) (by norm_num)
  have b7 := sq_sub_ref_le (1049 / 100) (v 7) (by linarith) (by norm_num)
  have b8 := sq_sub_ref_le (1056 / 100) (v 8) (by linarith) (by norm_num)
  have b9 := sq_sub_ref_le_linear (1063 / 100) (v 9) (by linarith) (by norm_num)
  have c0 := sq_ge_tangent (a 0)
  have c1 := sq_ge_tangent (a 1)
  have c2 := sq_ge_tangent (a 2)
  have c3 := sq_ge_tangent (a 3)
  have c4 := sq_ge_tangent (a 4)
  have c5 := sq_ge_tangent (a 5)
  have c6 := sq_ge_tangent (a 6)
  have c7 := sq_ge_tangent (a 7)
  have c8 := sq_ge_tangent (a 8)
  generalize (v 0 - 110) ^ 2 = V0 at b0 ⊢
  generalize (v 1 - 110) ^ 2 = V1 at b1 ⊢
  generalize (v 2 - 110) ^ 2 = V2 at b2 ⊢
  generalize (v 3 - 110) ^ 2 = V3 at b3 ⊢
  generalize (v 4 - 110) ^ 2 = V4 at b4 ⊢
  generalize (v 5 - 110) ^ 2 = V5 at b5 ⊢
  generalize (v 6 - 110) ^ 2 = V6 at b6 ⊢
  generalize (v 7 - 110) ^ 2 = V7 at b7 ⊢
  generalize (v 8 - 110) ^ 2 = V8 at b8 ⊢
  generalize (v 9 - 110) ^ 2 = V9 at b9 ⊢
  generalize a 0 ^ 2 = A0 at c0 ⊢
  generalize a 1 ^ 2 = A1 at c1 ⊢
  generalize a 2 ^ 2 = A2 at c2 ⊢
  generalize a 3 ^ 2 = A3 at c3 ⊢
  generalize a 4 ^ 2 = A4 at c4 ⊢
  generalize a 5 ^ 2 = A5 at c5 ⊢
  generalize a 6 ^ 2 = A6 at c6 ⊢
  generalize a 7 ^ 2 = A7 at c7 ⊢
  generalize a 8 ^ 2 = A8 at c8 ⊢
  norm_num at b0 b1 b2 b3 b4 b5 b6 b7 b8 b9
  linarith

theorem withinBounds_of_limits (N : Nat) (hN : 2 ≤ N) (x y psi v cte epsi : K)
    (junk : Nat → Nat → K) (L : Locals K)
    (hL : buildVectors N x y psi v cte epsi (allocLocals N junk) = some ((), L))
    (z : List K) (hlen : z.length = n_vars N)
    (hs : ∀ k, k < delta_idx N → -(10 ^ 19) ≤ z.getD k 0 ∧ z.getD k 0 ≤ 10 ^ 19)
    (hd : ∀ k, delta_idx N ≤ k → k < a_idx N →
      -(436332 / 1000000) * Lf K ≤ z.getD k 0 ∧ z.getD k 0 ≤ 436332 / 1000000 * Lf K)
    (ha : ∀ k, a_idx N ≤ k → k < n_vars N → -(7 / 10) ≤ z.getD k 0 ∧ z.getD k 0 ≤ 7 / 10) :
    withinBounds L.vars_lowerbound.data L.vars_upperbound.data z := by
  obtain ⟨M, hM, -, ⟨dl, Wl, el, hll, hl1, hl2, hl3, -⟩, ⟨du, Wu, eu, hul, hu1, hu2, hu3, -⟩,
      -, -⟩ := buildVectors_spec N (by omega) x y psi v cte epsi junk
  rw [hL] at hM
  cases hM
  rw [el, eu]
  intro k hk
  have hz : z[k]? = some (z.getD k 0) := (getD_eq_of_lt z k hk).symm
  by_cases h1 : k < delta_idx N
  · exact ⟨_, _, _, hl1 k h1, hu1 k h1, hz, (hs k h1).1, (hs k h1).2⟩
  · by_cases h2 : k < a_idx N
    · exact ⟨_, _, _, hl2 k (by omega) h2, hu2 k (by omega) h2, hz,
        (hd k (by omega) h2).1, (hd k (by omega) h2).2⟩
    · exact ⟨_, _, _, hl3 k (by omega) (by omega), hu3 k (by omega) (by omega), hz,
        (ha k (by omega) (by omega)).1, (ha k (by omega) (by omega)).2⟩

theorem fullThrottle_length : (fullThrottle K).length = n_vars 10 := by
  simp [fullThrottle, n_vars, szSub]

theorem fullThrottle_entries (c : K) (hc : c ∈ fullThrottle K) : 0 ≤ c ∧ c ≤ 11 := by
  revert c
  simp only [fullThrottle, List.forall_mem_cons, List.not_mem_nil, false_imp_iff, imp_true_iff,
    and_true]
  norm_num

theorem fullThrottle_feasible (T : Trig K) (hcos : T.cos 0 = 1) (hsin : T.sin 0 = 0)
    (hatan : T.atan 0 = 0) (junk : Nat → Nat → K) (L : Locals K)
    (hL : buildVectors 10 0 0 0 10 0 0 (allocLocals 10 junk) = some ((), L)) :
    Feasible 10 T [0, 0, 0, 0] L (fullThrottle K) := by
  obtain ⟨hx, hy, hpsi, hvi, hcte, hepsi, hdelta, ha, hnv, hnc, hsz⟩ := idx_eq 10 (by omega)
  refine ⟨fullThrottle_length, ?_, ?_⟩
  · refine withinBounds_of_limits 10 (by omega) 0 0 0 10 0 0 junk L hL _ fullThrottle_length
      ?_ ?_ ?_
    · intro k hk
      have hk2 : k < (fullThrottle K).length := by rw [fullThrottle_length, hnv]; omega
      obtain ⟨h1, h2⟩ := fullThrottle_entries _
        (by rw [List.getD_eq_getElem _ _ hk2]; exact List.getElem_mem hk2 :
          (fullThrottle K).getD k 0 ∈ fullThrottle K)
      constructor
      · have : (0:K) ≤ 10 ^ 19 := by positivity
        linarith
      · have : (11:K) ≤ 10 ^ 19 := by norm_num
        linarith
    · intro k h1 h2
      have h := (controls_fullThrottle (K := K) (k - delta_idx 10) (by omega)).1
      rw [deltaAt, show delta_idx 10 + (k - delta_idx 10) = k by omega] at h
      rw [h]
      simp only [Lf]
      constructor <;> norm_num
    · intro k h1 h2
      have h := (controls_fullThrottle (K := K) (k - a_idx 10) (by omega)).2
      rw [aAt, show a_idx 10 + (k - a_idx 10) = k by omega] at h
      rw [h]
      constructor <;> norm_num
  · obtain ⟨out, L2, hrun, hL2, hwb⟩ := trajectory_withinBounds 10 (by omega) T [0, 0, 0, 0]
      (by simp) ⟨0, 0, 0, 10, 0, 0⟩ (fun _ => 0) (fun _ => 7 / 10) (fullThrottle K)
      (List.replicate (1 + n_constraints 10) 0) fullThrottle_length (List.length_replicate _ _)
      (fun t ht => by rw [stateAt_fullThrottle t ht, trajectory_fullThrottle T hcos hsin hatan t])
      (fun t ht => controls_fullThrottle t (by omega)) junk
    simp only at hL2
    rw [hL] at hL2
    cases hL2
    exact ⟨out, hrun, hwb⟩

theorem objective_lower_of_feasible (T : Trig K) (junk : Nat → Nat → K) (L : Locals K)
    (hL : buildVectors 10 0 0 0 10 0 0 (allocLocals 10 junk) = some ((), L))
    (z : List K) (hz : Feasible 10 T [0, 0, 0, 0] L z) :
    objective 10 (fullThrottle K) +
        184 / 10 * (∑ s ∈ Finset.range 9, (7 / 10 - aAt 10 z s)) +
        (∑ s ∈ Finset.range 9, deltaAt 10 z s ^ 2) ≤ objective 10 z := by
  obtain ⟨h0, hgap, hab⟩ := feasible_facts 10 (by omega) T [0, 0, 0, 0] (by simp) 0 0 0 10 0 0
    junk L hL z hz
  have hv : ∀ i, i < 9 → (stateAt 10 z (i + 1)).v = (stateAt 10 z i).v + aAt 10 z i * (1 / 10) := by
    intro i hi
    have h := congrArg State.v (hgap i (by omega))
    simp only [modelGap, DynamicsModel, dt] at h
    linarith
  have h1 := speed_cost_lower (fun i => (stateAt 10 z i).v) (aAt 10 z)
    (by simp only [h0]) hv (fun i hi => (hab i (by omega)).2)
  have h2 := objective_ge_speed_controls 10 z
  rw [show szSub 10 1 = 9 by simp [szSub], Finset.sum_add_distrib] at h2
  rw [objective_fullThrottle]
  simp only at h1
  linarith

theorem fullThrottle_isSolution (T : Trig K) (hcos : T.cos 0 = 1) (hsin : T.sin 0 = 0)
    (hatan : T.atan 0 = 0) (junk : Nat → Nat → K) (L : Locals K)
    (hL : buildVectors 10 0 0 0 10 0 0 (allocLocals 10 junk) = some ((), L)) :
    IsSolution 10 T [0, 0, 0, 0] L (fullThrottle K) := by
  refine ⟨fullThrottle_feasible T hcos hsin hatan junk L hL, ?_⟩
  intro z hz
  have h := objective_lower_of_feasible T junk L hL z hz
  obtain ⟨-, -, hab⟩ := feasible_facts 10 (by omega) T [0, 0, 0, 0] (by simp) 0 0 0 10 0 0
    junk L hL z hz
  have h1 : 0 ≤ ∑ s ∈ Finset.range 9, (7 / 10 - aAt 10 z s) :=
    Finset.sum_nonneg (fun s hs => by
      have := (hab s (by have := Finset.mem_range.mp hs; omega)).2
      linarith)
  have h2 : 0 ≤ ∑ s ∈ Finset.range 9, deltaAt 10 z s ^ 2 :=
    Finset.sum_nonneg (fun s _ => sq_nonneg _)
  linarith

theorem solution_eq_fullThrottle (T : Trig K) (hcos : T.cos 0 = 1) (hsin : T.sin 0 = 0)
    (hatan : T.atan 0 = 0) (junk : Nat → Nat → K) (L : Locals K)
    (hL : buildVectors 10 0 0 0 10 0 0 (allocLocals 10 junk) = some ((), L))
    (z : List K) (hz : IsSolution 10 T [0, 0, 0, 0] L z) : z = fullThrottle K := by
  have hF := fullThrottle_feasible T hcos hsin hatan junk L hL
  have h := objective_lower_of_feasible T junk L hL z hz.1
  have hle := hz.2 _ hF
  obtain ⟨h0, hgap, hab⟩ := feasible_facts 10 (by omega) T [0, 0, 0, 0] (by simp) 0 0 0 10 0 0
    junk L hL z hz.1
  obtain ⟨g0, ggap, -⟩ := feasible_facts 10 (by omega) T [0, 0, 0, 0] (by simp) 0 0 0 10 0 0
    junk L hL _ hF
  have hnn : ∀ s ∈ Finset.range 9, (0:K) ≤ 7 / 10 - aAt 10 z s := fun s hs => by
    have := (hab s (by have := Finset.mem_range.mp hs; omega)).2
    linarith
  have hnn2 : ∀ s ∈ Finset.range 9, (0:K) ≤ deltaAt 10 z s ^ 2 := fun s _ => sq_nonneg _
  have h1 := Finset.sum_nonneg hnn
  have h2 := Finset.sum_nonneg hnn2
  have e1 : ∑ s ∈ Finset.range 9, (7 / 10 - aAt 10 z s) = 0 := by linarith
  have e2 : ∑ s ∈ Finset.range 9, deltaAt 10 z s ^ 2 = 0 := by linarith
  have f1 := (Finset.sum_eq_zero_iff_of_nonneg hnn).mp e1
  have f2 := (Finset.sum_eq_zero_iff_of_nonneg hnn2).mp e2
  refine vars_eq_of_trajectory 10 (by omega) T [0, 0, 0, 0] z (fullThrottle K) hz.1.1
    fullThrottle_length hgap ggap (by rw [h0, g0]) ?_
  intro t ht
  obtain ⟨c1, c2⟩ := controls_fullThrottle (K := K) t (by omega)
  have m : t ∈ Finset.range 9 := Finset.mem_range.mpr (by omega)
  rw [c1, c2]
  constructor
  · exact pow_eq_zero_iff (by norm_num) |>.mp (f2 t m)
  · have := f1 t m
    linarith

/-- When the gap to the model is 0 at every step of a decision vector, every
residual of the dynamics loop that `FG_eval` writes is 0. -/
theorem dynResidualsZero_of_modelGap (N : Nat) (hN : 2 ≤ N) (T : Trig K)
    (coeffs vars fg0 : List K) (hc : 4 ≤ coeffs.length) (hv : vars.length = n_vars N)
    (hf : fg0.length = 1 + n_constraints N) (out : FGState K)
    (hrun : FG_eval N T coeffs ⟨Vec.fresh fg0, Vec.fresh vars⟩ = some ((), out))
    (hgap : ∀ i, i < N - 1 → modelGap N T coeffs vars i = ⟨0, 0, 0, 0, 0, 0⟩) :
    dynResidualsZero N out.fg.data := by
  obtain ⟨fd1, Wc, Wd, FR, R, hrun1, -, -, -, hres, -⟩ :=
    FG_eval_spec N hN T coeffs hc fg0 [] [] vars [] [] hv hf
  rw [show (⟨Vec.fresh fg0, Vec.fresh vars⟩ : FGState K) = ⟨⟨fg0, [], []⟩, ⟨vars, [], []⟩⟩
    from rfl] at hrun
  rw [hrun1] at hrun
  cases hrun
  intro i hi
  obtain ⟨r1, r2, r3, r4, r5, r6⟩ := hres i hi
  obtain ⟨e1, e2, e3, e4, e5, e6⟩ := residual_eq_modelGap N T coeffs vars i
  have g := hgap i hi
  simp only
  rw [r1, r2, r3, r4, r5, r6, e1, e2, e3, e4, e5, e6, g]
  exact ⟨rfl, rfl, rfl, rfl, rfl, rfl⟩

/-- What `MPC::Solve` leaves in the object for `N = 10` when the solver
returns the vector `fullThrottle`. -/
theorem Solve_of_fullThrottle (T : Trig K) (solver : Problem K → solve_result K)
    (junk : Nat → Nat → K) (self : MPCObj K) (L : Locals K)
    (hL : buildVectors 10 0 0 0 10 0 0 (allocLocals 10 junk) = some ((), L))
    (hx : (solver (problemOf 10 T [0, 0, 0, 0] L)).x = fullThrottle K) :
    ∃ run, Solve 10 T solver junk self [0, 0, 0, 10, 0, 0] [0, 0, 0, 0] = some run ∧
      run.self.first_delta = 0 ∧ run.self.first_a = 7 / 10 ∧
      run.self.predicted_points.length = 10 ∧
      ∀ i, i < 10 → ∃ px, run.self.predicted_points[i]? = some ⟨px, 0⟩ := by
  obtain ⟨pp, R, hext, hpl, hpv, -⟩ := extract_spec 10 (by omega)
    (solver (problemOf 10 T [0, 0, 0, 0] L)).x [] [] self (by rw [hx]; exact fullThrottle_length)
  have hrun := Solve_run 10 T solver junk self 0 0 0 10 0 0 [0, 0, 0, 0] L _ hL hext
  obtain ⟨c1, c2⟩ := controls_fullThrottle (K := K) 0 (by omega)
  simp only [deltaAt, aAt, Nat.add_zero] at c1 c2
  refine ⟨_, hrun, ?_, ?_, hpl, ?_⟩
  · simp only [hx]
    exact c1
  · simp only [hx]
    exact c2
  · intro i hi
    have h := congrArg State.y (stateAt_fullThrottle (K := K) i hi)
    simp only [stateAt, throttleState] at h
    refine ⟨(fullThrottle K).getD (x_idx 10 + i) 0, ?_⟩
    simp only
    rw [hpv i hi, hx, h]

/-- What every solution of the problem for the state `(0, 0, 0, 10, 0, 0)`,
the coefficients `[0, 0, 0, 0]` and `N = 10` looks like. -/
theorem solution_shape (T : Trig K) (hcos : T.cos 0 = 1) (hsin : T.sin 0 = 0)
    (hatan : T.atan 0 = 0) (junk : Nat → Nat → K) (L : Locals K)
    (hL : buildVectors 10 0 0 0 10 0 0 (allocLocals 10 junk) = some ((), L))
    (z : List K) (hz : IsSolution 10 T [0, 0, 0, 0] L z) :
    deltaAt 10 z 0 = 0 ∧ aAt 10 z 0 = 7 / 10 ∧
    (∀ t, t < 10 → (stateAt 10 z t).y = 0 ∧ (stateAt 10 z t).v = 10 + 7 * (t : K) / 100) ∧
    (∀ t, t < 9 → (stateAt 10 z (t + 1)).x - (stateAt 10 z t).x = (stateAt 10 z t).v * dt K) := by
  rw [solution_eq_fullThrottle T hcos hsin hatan junk L hL z hz]
  obtain ⟨c1, c2⟩ := controls_fullThrottle (K := K) 0 (by omega)
  refine ⟨c1, c2, ?_, ?_⟩
  · intro t ht
    rw [stateAt_fullThrottle t ht]
    exact ⟨rfl, rfl⟩
  · intro t ht
    rw [stateAt_fullThrottle t (by omega), stateAt_fullThrottle (t + 1) (by omega)]
    simp only [throttleState, dt]
    push_cast
    ring

end ClaimLemmas

/-! ## The claims -/

section Claims

variable {K : Type} [LinearOrderedField K]

/-- C1: for every horizon `N ≥ 2`, all coefficients `c0, ..., c3`, every
initial state `s0` and all control sequences `delta` and `a`: if the six state
blocks of a decision vector hold the trajectory of the kinematic model from
`s0` under these controls, and its two actuator blocks hold the controls, then
`FG_eval` returns and each of the `6 * (N - 1)` residuals that its last loop
assigns is 0. -/
theorem C1_model_trajectory_residuals_zero (N : Nat) (hN : 2 ≤ N) (T : Trig K)
    (c0 c1 c2 c3 : K) (s0 : State K) (delta a : Nat → K) (vars fg0 : List K)
    (hv : vars.length = n_vars N) (hf : fg0.length = 1 + n_constraints N)
    (hstate : ∀ t, t < N → stateAt N vars t = trajectory T [c0, c1, c2, c3] s0 delta a t)
    (hctrl : ∀ t, t < N - 1 → deltaAt N vars t = delta t ∧ aAt N vars t = a t) :
    ∃ out, FG_eval N T [c0, c1, c2, c3] ⟨Vec.fresh fg0, Vec.fresh vars⟩ = some ((), out) ∧
      ∀ i, i < N - 1 →
        out.fg.data[2 + x_idx N + i]? = some 0 ∧ out.fg.data[2 + y_idx N + i]? = some 0 ∧
        out.fg.data[2 + psi_idx N + i]? = some 0 ∧ out.fg.data[2 + v_idx N + i]? = some 0 ∧
        out.fg.data[2 + cte_idx N + i]? = some 0 ∧
        out.fg.data[2 + epsi_idx N + i]? = some 0 := by
  obtain ⟨fd1, Wc, Wd, FR, R, hrun, -, -, -, hres, -⟩ :=
    FG_eval_spec N hN T [c0, c1, c2, c3] (by simp) fg0 [] [] vars [] [] hv hf
  refine ⟨_, hrun, ?_⟩
  intro i hi
  obtain ⟨h1, h2, h3, h4, h5, h6⟩ := hres i hi
  obtain ⟨e1, e2, e3, e4, e5, e6⟩ := residual_eq_modelGap N T [c0, c1, c2, c3] vars i
  have hgap := modelGap_of_trajectory N T [c0, c1, c2, c3] s0 delta a vars hstate hctrl i hi
  simp only [e1, e2, e3, e4, e5, e6, hgap] at h1 h2 h3 h4 h5 h6
  exact ⟨h1, h2, h3, h4, h5, h6⟩

/-- C1, for `N = 2` and a vehicle that drives one step straight ahead. -/
theorem C1_model_trajectory_residuals_zero_witness :
    ∃ out, FG_eval 2 ratTrig [0, 0, 0, 0] ⟨Vec.fresh fgZero, Vec.fresh straightVars⟩ =
        some ((), out) ∧
      ∀ i, i < 2 - 1 →
        out.fg.data[2 + x_idx 2 + i]? = some 0 ∧ out.fg.data[2 + y_idx 2 + i]? = some 0 ∧
        out.fg.data[2 + psi_idx 2 + i]? = some 0 ∧ out.fg.data[2 + v_idx 2 + i]? = some 0 ∧
        out.fg.data[2 + cte_idx 2 + i]? = some 0 ∧
        out.fg.data[2 + epsi_idx 2 + i]? = some 0 :=
  C1_model_trajectory_residuals_zero 2 (by decide) ratTrig 0 0 0 0 ⟨0, 0, 0, 10, 0, 0⟩
    (fun _ => 0) (fun _ => 0) straightVars fgZero (by decide) (by decide)
    straightVars_state straightVars_ctrl

/-- C2: for every horizon `N ≥ 2` the block offsets are `0, N, 2N, 3N, 4N, 5N,
6N, 7N - 1`, they increase strictly, each block ends where the next one starts
and the last one ends at `n_vars = N * 6 + (N - 1) * 2`, so that every index
below `n_vars` lies in exactly one of the eight blocks and no other index lies
in any. -/
theorem C2_layout_partition (N : Nat) (hN : 2 ≤ N) :
    (x_idx N = 0 ∧ y_idx N = N ∧ psi_idx N = 2 * N ∧ v_idx N = 3 * N ∧ cte_idx N = 4 * N ∧
      epsi_idx N = 5 * N ∧ delta_idx N = 6 * N ∧ a_idx N = 7 * N - 1) ∧
    n_vars N = N * 6 + (N - 1) * 2 ∧
    (x_idx N < y_idx N ∧ y_idx N < psi_idx N ∧ psi_idx N < v_idx N ∧ v_idx N < cte_idx N ∧
      cte_idx N < epsi_idx N ∧ epsi_idx N < delta_idx N ∧ delta_idx N < a_idx N ∧
      a_idx N < n_vars N) ∧
    (x_idx N + N = y_idx N ∧ y_idx N + N = psi_idx N ∧ psi_idx N + N = v_idx N ∧
      v_idx N + N = cte_idx N ∧ cte_idx N + N = epsi_idx N ∧ epsi_idx N + N = delta_idx N ∧
      delta_idx N + (N - 1) = a_idx N ∧ a_idx N + (N - 1) = n_vars N) ∧
    (∀ k, k < n_vars N →
      (blocks N).countP (fun b => decide (b.1 ≤ k ∧ k < b.1 + b.2)) = 1) ∧
    (∀ k, n_vars N ≤ k →
      (blocks N).countP (fun b => decide (b.1 ≤ k ∧ k < b.1 + b.2)) = 0) := by
  obtain ⟨hx, hy, hpsi, hvi, hcte, hepsi, hdelta, ha, hnv, hnc, hsz⟩ := idx_eq N (by omega)
  refine ⟨⟨hx, hy, hpsi, hvi, hcte, hepsi, hdelta, ha⟩, by omega,
    ⟨by omega, by omega, by omega, by omega, by omega, by omega, by omega, by omega⟩,
    ⟨by omega, by omega, by omega, by omega, by omega, by omega, by omega, by omega⟩, ?_, ?_⟩
  · intro k hk
    simp only [blocks, List.countP_cons, List.countP_nil, decide_eq_true_eq]
    split_ifs <;> omega
  · intro k hk
    simp only [blocks, List.countP_cons, List.countP_nil, decide_eq_true_eq]
    split_ifs <;> omega

/-- C2, at the horizon of the source, `N = 10`. -/
theorem C2_layout_partition_witness :
    (2 ≤ 10) ∧ n_vars 10 = 78 ∧ a_idx 10 = 69 ∧
    (∀ k, k < n_vars 10 →
      (blocks 10).countP (fun b => decide (b.1 ≤ k ∧ k < b.1 + b.2)) = 1) :=
  ⟨by decide, (C2_layout_partition 10 (by decide)).2.1,
    (C2_layout_partition 10 (by decide)).1.2.2.2.2.2.2.2,
    (C2_layout_partition 10 (by decide)).2.2.2.2.1⟩

/-- C3: for every horizon `N ≥ 2` and every state `x, y, psi, v, cte, epsi`,
the part of `MPC::Solve` before the call of the solver returns; both vectors of
constraint limits have `6 N` entries; at the six indices `k` for which
`FG_eval` assigns `fg[1 + k]` under "Initial constraints", both limits are the
matching component of the state; every other index `k < 6 N` is one for which
the dynamics loop of `FG_eval` assigns `fg[1 + k]`, and there both limits are
0.  Every call of `MPC::Solve` that returns has handed these two vectors to the
solver. -/
theorem C3_constraint_bounds_pin_state (N : Nat) (hN : 2 ≤ N) (x y psi v cte epsi : K)
    (junk : Nat → Nat → K) :
    ∃ L, buildVectors N x y psi v cte epsi (allocLocals N junk) = some ((), L) ∧
      L.constraints_lowerbound.data.length = 6 * N ∧
      L.constraints_upperbound.data.length = 6 * N ∧
      initWrites N = [1 + epsi_idx N, 1 + cte_idx N, 1 + v_idx N, 1 + psi_idx N,
        1 + y_idx N, 1 + x_idx N] ∧
      (L.constraints_lowerbound.data[x_idx N]? = some x ∧
       L.constraints_upperbound.data[x_idx N]? = some x) ∧
      (L.constraints_lowerbound.data[y_idx N]? = some y ∧
       L.constraints_upperbound.data[y_idx N]? = some y) ∧
      (L.constraints_lowerbound.data[psi_idx N]? = some psi ∧
       L.constraints_upperbound.data[psi_idx N]? = some psi) ∧
      (L.constraints_lowerbound.data[v_idx N]? = some v ∧
       L.constraints_upperbound.data[v_idx N]? = some v) ∧
      (L.constraints_lowerbound.data[cte_idx N]? = some cte ∧
       L.constraints_upperbound.data[cte_idx N]? = some cte) ∧
      (L.constraints_lowerbound.data[epsi_idx N]? = some epsi ∧
       L.constraints_upperbound.data[epsi_idx N]? = some epsi) ∧
      (∀ k, k < 6 * N → (1 + k ∉ initWrites N ↔ dynWritten N (N - 1) (1 + k))) ∧
      (∀ k, k < 6 * N → 1 + k ∉ initWrites N →
        L.constraints_lowerbound.data[k]? = some 0 ∧
        L.constraints_upperbound.data[k]? = some 0) ∧
      (∀ (T : Trig K) (coeffs vars fg0 : List K), coeffs.length = 4 →
          vars.length = n_vars N → fg0.length = 1 + n_constraints N →
        ∃ out Wc Wd, FG_eval N T coeffs ⟨Vec.fresh fg0, Vec.fresh vars⟩ = some ((), out) ∧
          out.fg.writes = Wd ++ (initWrites N ++ Wc) ∧ (∀ k ∈ Wc, k = 0) ∧
          (∀ k, k ∈ Wd ↔ dynWritten N (N - 1) k)) ∧
      (∀ (T : Trig K) (solver : Problem K → solve_result K) (self : MPCObj K)
          (coeffs : List K) (run : SolveRun K),
        Solve N T solver junk self [x, y, psi, v, cte, epsi] coeffs = some run →
          ∃ p, run.calls = [p] ∧ p.gl = L.constraints_lowerbound.data ∧
            p.gu = L.constraints_upperbound.data) := by
  obtain ⟨hx, hy, hpsi, hvi, hcte, hepsi, hdelta, ha, hnv, hnc, hsz⟩ := idx_eq N (by omega)
  obtain ⟨L, hL, -, -, -, ⟨ll, ⟨l1, l2, l3, l4, l5, l6⟩, l0⟩,
      ⟨ul, ⟨u1, u2, u3, u4, u5, u6⟩, u0⟩⟩ :=
    buildVectors_spec N (by omega) x y psi v cte epsi junk
  refine ⟨L, hL, by omega, by omega, rfl, ⟨l1, u1⟩, ⟨l2, u2⟩, ⟨l3, u3⟩, ⟨l4, u4⟩, ⟨l5, u5⟩,
    ⟨l6, u6⟩, ?_, ?_, ?_, ?_⟩
  · intro k hk
    simp only [initWrites, dynWritten, List.mem_cons, List.mem_singleton, List.not_mem_nil,
      or_false]
    omega
  · intro k hk hni
    simp only [initWrites, List.mem_cons, List.mem_singleton, List.not_mem_nil,
      or_false] at hni
    exact ⟨l0 k (by omega) (by omega) (by omega) (by omega) (by omega) (by omega) (by omega),
      u0 k (by omega) (by omega) (by omega) (by omega) (by omega) (by omega) (by omega)⟩
  · intro T coeffs vars fg0 hc hv hf
    obtain ⟨fd1, Wc, Wd, FR, R, hrun, -, -, -, -, ⟨hWc, -⟩, ⟨hc1, hc0, -⟩, -⟩ :=
      FG_eval_spec N hN T coeffs (by omega) fg0 [] [] vars [] [] hv hf
    refine ⟨_, Wc, Wd, hrun, by simp only [List.append_nil], hWc, ?_⟩
    intro k
    by_cases hd : dynWritten N (N - 1) k
    · have h1 := hc1 k hd
      exact ⟨fun _ => hd, fun _ => List.count_pos_iff.1 (by omega)⟩
    · have h0 := hc0 k hd
      exact ⟨fun h => absurd h (List.count_eq_zero.1 h0), fun h => absurd h hd⟩
  · intro T solver self coeffs run hrun
    obtain ⟨-, hcalls⟩ := Solve_locals N T solver junk self x y psi v cte epsi coeffs L run
      hL hrun
    exact ⟨_, hcalls, rfl, rfl⟩

/-- C3, for `N = 2` and the state `1, 2, 3, 4, 5, 6`. -/
theorem C3_constraint_bounds_pin_state_witness :
    ∃ L, buildVectors 2 1 2 3 4 5 6 (allocLocals 2 (fun _ _ => 0)) = some ((), L) ∧
      L.constraints_lowerbound.data.length = 6 * 2 ∧
      L.constraints_upperbound.data.length = 6 * 2 ∧
      initWrites 2 = [1 + epsi_idx 2, 1 + cte_idx 2, 1 + v_idx 2, 1 + psi_idx 2,
        1 + y_idx 2, 1 + x_idx 2] ∧
      (L.constraints_lowerbound.data[x_idx 2]? = some 1 ∧
       L.constraints_upperbound.data[x_idx 2]? = some 1) ∧
      (L.constraints_lowerbound.data[y_idx 2]? = some 2 ∧
       L.constraints_upperbound.data[y_idx 2]? = some 2) ∧
      (L.constraints_lowerbound.data[psi_idx 2]? = some 3 ∧
       L.constraints_upperbound.data[psi_idx 2]? = some 3) ∧
      (L.constraints_lowerbound.data[v_idx 2]? = some 4 ∧
       L.constraints_upperbound.data[v_idx 2]? = some 4) ∧
      (L.constraints_lowerbound.data[cte_idx 2]? = some 5 ∧
       L.constraints_upperbound.data[cte_idx 2]? = some 5) ∧
      (L.constraints_lowerbound.data[epsi_idx 2]? = some 6 ∧
       L.constraints_upperbound.data[epsi_idx 2]? = some 6) ∧
      (∀ k, k < 6 * 2 → (1 + k ∉ initWrites 2 ↔ dynWritten 2 (2 - 1) (1 + k))) ∧
      (∀ k, k < 6 * 2 → 1 + k ∉ initWrites 2 →
        L.constraints_lowerbound.data[k]? = some 0 ∧
        L.constraints_upperbound.data[k]? = some 0) ∧
      (∀ (T : Trig ℚ) (coeffs vars fg0 : List ℚ), coeffs.length = 4 →
          vars.length = n_vars 2 → fg0.length = 1 + n_constraints 2 →
        ∃ out Wc Wd, FG_eval 2 T coeffs ⟨Vec.fresh fg0, Vec.fresh vars⟩ = some ((), out) ∧
          out.fg.writes = Wd ++ (initWrites 2 ++ Wc) ∧ (∀ k ∈ Wc, k = 0) ∧
          (∀ k, k ∈ Wd ↔ dynWritten 2 (2 - 1) k)) ∧
      (∀ (T : Trig ℚ) (solver : Problem ℚ → solve_result ℚ) (self : MPCObj ℚ)
          (coeffs : List ℚ) (run : SolveRun ℚ),
        Solve 2 T solver (fun _ _ => 0) self [1, 2, 3, 4, 5, 6] coeffs = some run →
          ∃ p, run.calls = [p] ∧ p.gl = L.constraints_lowerbound.data ∧
            p.gu = L.constraints_upperbound.data) :=
  C3_constraint_bounds_pin_state 2 (by decide) 1 2 3 4 5 6 (fun _ _ => 0)

/-- C4: for every horizon `N ≥ 2` and every decision vector, the objective
that `FG_eval` leaves in `fg[0]` is the sum `J` of the specification, with the
weights 2500, 2500, 1, 1, 200, 10 and the references 0, 0, 110, taken over the
entries of the `cte`, `epsi`, `v`, `delta` and `a` blocks; it is the same for
any two lists of coefficients. -/
theorem C4_objective_is_J (N : Nat) (hN : 2 ≤ N) (T : Trig K)
    (coeffs coeffs2 vars fg0 : List K) (hc : coeffs.length = 4) (hc2 : coeffs2.length = 4)
    (hv : vars.length = n_vars N) (hf : fg0.length = 1 + n_constraints N) :
    ∃ out out2,
      FG_eval N T coeffs ⟨Vec.fresh fg0, Vec.fresh vars⟩ = some ((), out) ∧
      FG_eval N T coeffs2 ⟨Vec.fresh fg0, Vec.fresh vars⟩ = some ((), out2) ∧
      out.fg.data[0]? = some (specJ N (fun t => vars.getD (cte_idx N + t) 0)
        (fun t => vars.getD (epsi_idx N + t) 0) (fun t => vars.getD (v_idx N + t) 0)
        (fun t => vars.getD (delta_idx N + t) 0) (fun t => vars.getD (a_idx N + t) 0)) ∧
      out2.fg.data[0]? = out.fg.data[0]? := by
  obtain ⟨fd1, Wc, Wd, FR, R, hrun, -, hobj, -⟩ :=
    FG_eval_spec N hN T coeffs (by omega) fg0 [] [] vars [] [] hv hf
  obtain ⟨fd2, Wc2, Wd2, FR2, R2, hrun2, -, hobj2, -⟩ :=
    FG_eval_spec N hN T coeffs2 (by omega) fg0 [] [] vars [] [] hv hf
  refine ⟨_, _, hrun, hrun2, ?_, ?_⟩
  · show fd1[0]? = _
    rw [hobj]
    congr 1
    simp only [objective, specJ, costRefTerm, costActTerm, costGapTerm, w_cte, w_epsi, w_delta,
      w_a, w_delta_diff, w_a_diff, ref_cte, ref_epsi, ref_v, szSub_of_le hN,
      szSub_of_le (show 1 ≤ N by omega), zero_add, Nat.add_assoc, Nat.add_comm 1]
  · show fd2[0]? = fd1[0]?
    rw [hobj, hobj2]

/-- C4, for `N = 2`. -/
theorem C4_objective_is_J_witness :
    ∃ out out2,
      FG_eval 2 ratTrig [0, 0, 0, 0] ⟨Vec.fresh fgZero, Vec.fresh straightVars⟩ =
        some ((), out) ∧
      FG_eval 2 ratTrig [1, 2, 3, 4] ⟨Vec.fresh fgZero, Vec.fresh straightVars⟩ =
        some ((), out2) ∧
      out.fg.data[0]? = some (specJ 2 (fun t => straightVars.getD (cte_idx 2 + t) 0)
        (fun t => straightVars.getD (epsi_idx 2 + t) 0)
        (fun t => straightVars.getD (v_idx 2 + t) 0)
        (fun t => straightVars.getD (delta_idx 2 + t) 0)
        (fun t => straightVars.getD (a_idx 2 + t) 0)) ∧
      out2.fg.data[0]? = out.fg.data[0]? :=
  C4_objective_is_J 2 (by decide) ratTrig [0, 0, 0, 0] [1, 2, 3, 4] straightVars fgZero
    (by decide) (by decide) (by decide) (by decide)

/-- C5: for every horizon `N ≥ 2`, every decision vector and every list of
four coefficients, the six residuals that `FG_eval` leaves in the slots
`1 + x_idx`, ..., `1 + epsi_idx` are the entries of the decision vector at
`x_idx`, ..., `epsi_idx`; hence, whenever the constraint vector lies within
the limits that `MPC::Solve` builds for a state `x, y, psi, v, cte, epsi`,
these six residuals are `x, y, psi, v, cte, epsi`. -/
theorem C5_initial_residuals_are_state (N : Nat) (hN : 2 ≤ N) (T : Trig K)
    (coeffs vars fg0 : List K) (hc : coeffs.length = 4) (hv : vars.length = n_vars N)
    (hf : fg0.length = 1 + n_constraints N) :
    ∃ out, FG_eval N T coeffs ⟨Vec.fresh fg0, Vec.fresh vars⟩ = some ((), out) ∧
      (out.fg.data[1 + x_idx N]? = vars[x_idx N]? ∧
       out.fg.data[1 + y_idx N]? = vars[y_idx N]? ∧
       out.fg.data[1 + psi_idx N]? = vars[psi_idx N]? ∧
       out.fg.data[1 + v_idx N]? = vars[v_idx N]? ∧
       out.fg.data[1 + cte_idx N]? = vars[cte_idx N]? ∧
       out.fg.data[1 + epsi_idx N]? = vars[epsi_idx N]?) ∧
      ∀ (x y psi v cte epsi : K) (junk : Nat → Nat → K),
        ∃ L, buildVectors N x y psi v cte epsi (allocLocals N junk) = some ((), L) ∧
          (withinBounds L.constraints_lowerbound.data L.constraints_upperbound.data
              (constraintVector out.fg.data) →
            out.fg.data[1 + x_idx N]? = some x ∧ out.fg.data[1 + y_idx N]? = some y ∧
            out.fg.data[1 + psi_idx N]? = some psi ∧ out.fg.data[1 + v_idx N]? = some v ∧
            out.fg.data[1 + cte_idx N]? = some cte ∧
            out.fg.data[1 + epsi_idx N]? = some epsi) := by
  obtain ⟨hx, hy, hpsi, hvi, hcte, hepsi, hdelta, ha, hnv, hnc, hsz⟩ := idx_eq N (by omega)
  obtain ⟨fd1, Wc, Wd, FR, R, hrun, hlen, -, ⟨h1, h2, h3, h4, h5, h6⟩, -⟩ :=
    FG_eval_spec N hN T coeffs (by omega) fg0 [] [] vars [] [] hv hf
  refine ⟨_, hrun, ⟨?_, ?_, ?_, ?_, ?_, ?_⟩, ?_⟩
  · exact h1.trans (getD_eq_of_lt _ _ (by omega))
  · exact h2.trans (getD_eq_of_lt _ _ (by omega))
  · exact h3.trans (getD_eq_of_lt _ _ (by omega))
  · exact h4.trans (getD_eq_of_lt _ _ (by omega))
  · exact h5.trans (getD_eq_of_lt _ _ (by omega))
  · exact h6.trans (getD_eq_of_lt _ _ (by omega))
  · intro x y psi v cte epsi junk
    obtain ⟨L, hL, -, -, -, ⟨-, ⟨l1, l2, l3, l4, l5, l6⟩, -⟩, ⟨-, ⟨u1, u2, u3, u4, u5, u6⟩, -⟩⟩ :=
      buildVectors_spec N (by omega) x y psi v cte epsi junk
    refine ⟨L, hL, ?_⟩
    intro hb
    have key : ∀ k c, k < n_constraints N →
        L.constraints_lowerbound.data[k]? = some c →
        L.constraints_upperbound.data[k]? = some c → fd1[1 + k]? = some c := by
      intro k c hk hl hu
      obtain ⟨l, h, g, e1, e2, e3, e4, e5⟩ := hb k (by
        simp only [constraintVector, List.length_drop]
        show k < fd1.length - 1
        omega)
      rw [hl] at e1
      rw [hu] at e2
      cases e1
      cases e2
      simp only [constraintVector, List.getElem?_drop] at e3
      have : g = c := le_antisymm e5 e4
      rw [← this]
      exact e3
    exact ⟨key _ _ (by omega) l1 u1, key _ _ (by omega) l2 u2, key _ _ (by omega) l3 u3,
      key _ _ (by omega) l4 u4, key _ _ (by omega) l5 u5, key _ _ (by omega) l6 u6⟩

/-- C5, for `N = 2`; the example vector meets the limits built for the state
`(0, 0, 0, 10, 0, 0)`, so the condition of the second part can be met. -/
theorem C5_initial_residuals_are_state_witness :
    ∃ out, FG_eval 2 ratTrig [0, 0, 0, 0] ⟨Vec.fresh fgZero, Vec.fresh straightVars⟩ =
        some ((), out) ∧
      (out.fg.data[1 + x_idx 2]? = straightVars[x_idx 2]? ∧
       out.fg.data[1 + y_idx 2]? = straightVars[y_idx 2]? ∧
       out.fg.data[1 + psi_idx 2]? = straightVars[psi_idx 2]? ∧
       out.fg.data[1 + v_idx 2]? = straightVars[v_idx 2]? ∧
       out.fg.data[1 + cte_idx 2]? = straightVars[cte_idx 2]? ∧
       out.fg.data[1 + epsi_idx 2]? = straightVars[epsi_idx 2]?) ∧
      (∀ (x y psi v cte epsi : ℚ) (junk : Nat → Nat → ℚ),
        ∃ L, buildVectors 2 x y psi v cte epsi (allocLocals 2 junk) = some ((), L) ∧
          (withinBounds L.constraints_lowerbound.data L.constraints_upperbound.data
              (constraintVector out.fg.data) →
            out.fg.data[1 + x_idx 2]? = some x ∧ out.fg.data[1 + y_idx 2]? = some y ∧
            out.fg.data[1 + psi_idx 2]? = some psi ∧ out.fg.data[1 + v_idx 2]? = some v ∧
            out.fg.data[1 + cte_idx 2]? = some cte ∧
            out.fg.data[1 + epsi_idx 2]? = some epsi)) ∧
      ∃ L, buildVectors 2 0 0 0 10 0 0 (allocLocals 2 (fun _ _ => 0)) = some ((), L) ∧
        withinBounds L.constraints_lowerbound.data L.constraints_upperbound.data
          (constraintVector out.fg.data) := by
  obtain ⟨out, hrun, h6, himp⟩ := C5_initial_residuals_are_state 2 (by decide) ratTrig
    [0, 0, 0, 0] straightVars fgZero (by decide) (by decide) (by decide)
  obtain ⟨out2, L, hrun2, hL, hwb⟩ := trajectory_withinBounds 2 (by decide) ratTrig
    [0, 0, 0, 0] (by decide) ⟨0, 0, 0, 10, 0, 0⟩ (fun _ => 0) (fun _ => 0) straightVars fgZero
    (by decide) (by decide) straightVars_state straightVars_ctrl (fun _ _ => 0)
  have e : out2 = out := by
    rw [hrun] at hrun2
    cases hrun2
    rfl
  rw [e] at hwb
  exact ⟨out, hrun, h6, himp, L, hL, hwb⟩

/-- C6: for every horizon `N ≥ 2`, the part of `MPC::Solve` before the call of
the solver returns; both vectors of variable limits have `n_vars` entries;
every index of the six state blocks gets the limits `-1.0e19` and `1.0e19`,
every index of the block of `delta` gets `-0.436332 * Lf` and `0.436332 * Lf`
with `Lf = 2.67`, every index of the block of `a` gets `-0.7` and `0.7`; each
index below `n_vars` is assigned exactly once in each vector and no other
index is assigned.  Every call of `MPC::Solve` that returns has handed these
two vectors to the solver. -/
theorem C6_variable_bounds (N : Nat) (hN : 2 ≤ N) (x y psi v cte epsi : K)
    (junk : Nat → Nat → K) :
    ∃ L, buildVectors N x y psi v cte epsi (allocLocals N junk) = some ((), L) ∧
      L.vars_lowerbound.data.length = n_vars N ∧
      L.vars_upperbound.data.length = n_vars N ∧
      (∀ k, k < delta_idx N →
        L.vars_lowerbound.data[k]? = some (-(10 ^ 19)) ∧
        L.vars_upperbound.data[k]? = some (10 ^ 19)) ∧
      (∀ k, delta_idx N ≤ k → k < a_idx N →
        L.vars_lowerbound.data[k]? = some (-(436332 / 1000000) * Lf K) ∧
        L.vars_upperbound.data[k]? = some (436332 / 1000000 * Lf K)) ∧
      Lf K = 267 / 100 ∧
      (∀ k, a_idx N ≤ k → k < n_vars N →
        L.vars_lowerbound.data[k]? = some (-(7 / 10)) ∧
        L.vars_upperbound.data[k]? = some (7 / 10)) ∧
      (∀ k, k < n_vars N →
        L.vars_lowerbound.writes.count k = 1 ∧ L.vars_upperbound.writes.count k = 1) ∧
      (∀ k, n_vars N ≤ k →
        k ∉ L.vars_lowerbound.writes ∧ k ∉ L.vars_upperbound.writes) ∧
      (∀ (T : Trig K) (solver : Problem K → solve_result K) (self : MPCObj K)
          (coeffs : List K) (run : SolveRun K),
        Solve N T solver junk self [x, y, psi, v, cte, epsi] coeffs = some run →
          ∃ p, run.calls = [p] ∧ p.xl = L.vars_lowerbound.data ∧
            p.xu = L.vars_upperbound.data) := by
  obtain ⟨L, hL, -, ⟨dl, Wl, hl, hll, hl1, hl2, hl3, hlc1, hlc0⟩,
      ⟨du, Wu, hu, hul, hu1, hu2, hu3, huc1, huc0⟩, -, -⟩ :=
    buildVectors_spec N (by omega) x y psi v cte epsi junk
  have hlw : L.vars_lowerbound.writes = Wl := by
    rw [hl]
    simp only [newDvector, Vec.fresh, List.append_nil]
  have huw : L.vars_upperbound.writes = Wu := by
    rw [hu]
    simp only [newDvector, Vec.fresh, List.append_nil]
  have hld : L.vars_lowerbound.data = dl := by rw [hl]
  have hud : L.vars_upperbound.data = du := by rw [hu]
  refine ⟨L, hL, ?_⟩
  rw [hlw, huw, hld, hud]
  refine ⟨hll, hul, fun k hk => ⟨hl1 k hk, hu1 k hk⟩,
    fun k h1 h2 => ⟨hl2 k h1 h2, hu2 k h1 h2⟩, rfl,
    fun k h1 h2 => ⟨hl3 k h1 h2, hu3 k h1 h2⟩, fun k hk => ⟨hlc1 k hk, huc1 k hk⟩,
    fun k hk => ⟨List.count_eq_zero.1 (hlc0 k hk), List.count_eq_zero.1 (huc0 k hk)⟩, ?_⟩
  intro T solver self coeffs run hrun
  obtain ⟨-, hcalls⟩ := Solve_locals N T solver junk self x y psi v cte epsi coeffs L run
    hL hrun
  exact ⟨_, hcalls, hld, hud⟩

/-- C6, for `N = 2`. -/
theorem C6_variable_bounds_witness :
    ∃ L, buildVectors 2 1 2 3 4 5 6 (allocLocals 2 (fun _ _ => 0)) = some ((), L) ∧
      L.vars_lowerbound.data.length = n_vars 2 ∧
      L.vars_upperbound.data.length = n_vars 2 ∧
      (∀ k, k < delta_idx 2 →
        L.vars_lowerbound.data[k]? = some (-(10 ^ 19)) ∧
        L.vars_upperbound.data[k]? = some (10 ^ 19)) ∧
      (∀ k, delta_idx 2 ≤ k → k < a_idx 2 →
        L.vars_lowerbound.data[k]? = some (-(436332 / 1000000) * Lf ℚ) ∧
        L.vars_upperbound.data[k]? = some (436332 / 1000000 * Lf ℚ)) ∧
      Lf ℚ = 267 / 100 ∧
      (∀ k, a_idx 2 ≤ k → k < n_vars 2 →
        L.vars_lowerbound.data[k]? = some (-(7 / 10)) ∧
        L.vars_upperbound.data[k]? = some (7 / 10)) ∧
      (∀ k, k < n_vars 2 →
        L.vars_lowerbound.writes.count k = 1 ∧ L.vars_upperbound.writes.count k = 1) ∧
      (∀ k, n_vars 2 ≤ k →
        k ∉ L.vars_lowerbound.writes ∧ k ∉ L.vars_upperbound.writes) ∧
      (∀ (T : Trig ℚ) (solver : Problem ℚ → solve_result ℚ) (self : MPCObj ℚ)
          (coeffs : List ℚ) (run : SolveRun ℚ),
        Solve 2 T solver (fun _ _ => 0) self [1, 2, 3, 4, 5, 6] coeffs = some run →
          ∃ p, run.calls = [p] ∧ p.xl = L.vars_lowerbound.data ∧
            p.xu = L.vars_upperbound.data) :=
  C6_variable_bounds 2 (by decide) 1 2 3 4 5 6 (fun _ _ => 0)

/-- C7: for every horizon `N ≥ 2`, when the solver returns a vector of
`n_vars` entries, `MPC::Solve` returns and leaves in the object: in
`first_delta` the entry at `delta_idx` of that vector, in `first_a` the entry
at `a_idx`, and in `predicted_points` exactly `N` points, the `i`-th being the
entries at `x_idx + i` and `y_idx + i`. -/
theorem C7_extraction (N : Nat) (hN : 2 ≤ N) (T : Trig K)
    (solver : Problem K → solve_result K) (junk : Nat → Nat → K) (self : MPCObj K)
    (x y psi v cte epsi : K) (coeffs : List K)
    (hsol : ∀ p, (solver p).x.length = n_vars N) :
    ∃ run p, Solve N T solver junk self [x, y, psi, v, cte, epsi] coeffs = some run ∧
      run.calls = [p] ∧
      (solver p).x[delta_idx N]? = some run.self.first_delta ∧
      (solver p).x[a_idx N]? = some run.self.first_a ∧
      run.self.predicted_points.length = N ∧
      ∀ i, i < N → ∃ px py,
        (solver p).x[x_idx N + i]? = some px ∧ (solver p).x[y_idx N + i]? = some py ∧
        run.self.predicted_points[i]? = some ⟨px, py⟩ := by
  obtain ⟨hx, hy, hpsi, hvi, hcte, hepsi, hdelta, ha, hnv, hnc, hsz⟩ := idx_eq N (by omega)
  obtain ⟨run, p, R, hrun, hcalls, -, -, hd, hfa, hpl, hpv, -⟩ :=
    Solve_spec N hN T solver junk self x y psi v cte epsi coeffs hsol
  have hlen := hsol p
  refine ⟨run, p, hrun, hcalls, ?_, ?_, hpl, ?_⟩
  · rw [hd]
    exact getElem?_getD _ _ _ (by omega)
  · rw [hfa]
    exact getElem?_getD _ _ _ (by omega)
  · intro i hi
    exact ⟨_, _, getElem?_getD _ _ _ (by omega), getElem?_getD _ _ _ (by omega), hpv i hi⟩

/-- C7, for `N = 2` and a solver that returns a fixed vector of 14 entries. -/
theorem C7_extraction_witness :
    ∃ run p, Solve 2 ratTrig (fixedSolver status_type.success) (fun _ _ => 0) ⟨0, 0, []⟩ [1, 2, 3, 4, 5, 6] [0, 0, 0, 0] = some run ∧
      run.calls = [p] ∧
      ((fixedSolver status_type.success) p).x[delta_idx 2]? = some run.self.first_delta ∧
      ((fixedSolver status_type.success) p).x[a_idx 2]? = some run.self.first_a ∧
      run.self.predicted_points.length = 2 ∧
      ∀ i, i < 2 → ∃ px py,
        ((fixedSolver status_type.success) p).x[x_idx 2 + i]? = some px ∧ ((fixedSolver status_type.success) p).x[y_idx 2 + i]? = some py ∧
        run.self.predicted_points[i]? = some ⟨px, py⟩ :=
  C7_extraction 2 (by decide) ratTrig (fixedSolver status_type.success) (fun _ _ => 0)
    ⟨0, 0, []⟩ 1 2 3 4 5 6 [0, 0, 0, 0] (fun _ => rfl)

/-- C8: for every horizon `N ≥ 2`, when the solver returns a vector of
`n_vars` entries, `MPC::Solve` returns after exactly one call of the solver;
it returns `true` exactly when the status the solver reports is `success`,
and `false` for every other status; whatever the status, `first_delta`,
`first_a` and `predicted_points` are taken from the vector the solver
returned. -/
theorem C8_status_flag_single_call (N : Nat) (hN : 2 ≤ N) (T : Trig K)
    (solver : Problem K → solve_result K) (junk : Nat → Nat → K) (self : MPCObj K)
    (x y psi v cte epsi : K) (coeffs : List K)
    (hsol : ∀ p, (solver p).x.length = n_vars N) :
    ∃ run p, Solve N T solver junk self [x, y, psi, v, cte, epsi] coeffs = some run ∧
      run.calls = [p] ∧ run.calls.length = 1 ∧
      (run.ret = true ↔ (solver p).status = status_type.success) ∧
      ((solver p).status ≠ status_type.success → run.ret = false) ∧
      run.self.first_delta = (solver p).x.getD (delta_idx N) 0 ∧
      run.self.first_a = (solver p).x.getD (a_idx N) 0 ∧
      run.self.predicted_points = (List.range N).map (fun i =>
        ⟨(solver p).x.getD (x_idx N + i) 0, (solver p).x.getD (y_idx N + i) 0⟩) := by
  obtain ⟨run, p, R, hrun, hcalls, -, hret, hd, hfa, hpl, hpv, -⟩ :=
    Solve_spec N hN T solver junk self x y psi v cte epsi coeffs hsol
  refine ⟨run, p, hrun, hcalls, by rw [hcalls]; rfl, ?_, ?_, hd, hfa, ?_⟩
  · rw [hret, decide_eq_true_iff]
  · intro hne
    rw [hret, decide_eq_false_iff_not]
    exact hne
  · apply List.ext_getElem?
    intro i
    by_cases hi : i < N
    · rw [hpv i hi, List.getElem?_map, List.getElem?_range hi]
      rfl
    · rw [List.getElem?_eq_none (by omega), List.getElem?_eq_none (by simp; omega)]

/-- C8, for `N = 2` and a solver that stops at its iteration limit. -/
theorem C8_status_flag_single_call_witness :
    ∃ run p, Solve 2 ratTrig (fixedSolver status_type.maxiter_exceeded) (fun _ _ => 0) ⟨0, 0, []⟩ [1, 2, 3, 4, 5, 6] [0, 0, 0, 0] = some run ∧
      run.calls = [p] ∧ run.calls.length = 1 ∧
      (run.ret = true ↔ ((fixedSolver status_type.maxiter_exceeded) p).status = status_type.success) ∧
      (((fixedSolver status_type.maxiter_exceeded) p).status ≠ status_type.success → run.ret = false) ∧
      run.self.first_delta = ((fixedSolver status_type.maxiter_exceeded) p).x.getD (delta_idx 2) 0 ∧
      run.self.first_a = ((fixedSolver status_type.maxiter_exceeded) p).x.getD (a_idx 2) 0 ∧
      run.self.predicted_points = (List.range 2).map (fun i =>
        ⟨((fixedSolver status_type.maxiter_exceeded) p).x.getD (x_idx 2 + i) 0, ((fixedSolver status_type.maxiter_exceeded) p).x.getD (y_idx 2 + i) 0⟩) :=
  C8_status_flag_single_call 2 (by decide) ratTrig (fixedSolver status_type.maxiter_exceeded)
    (fun _ _ => 0) ⟨0, 0, []⟩ 1 2 3 4 5 6 [0, 0, 0, 0] (fun _ => rfl)

/-- C9 as stated fails: for `N = 2` and a decision vector whose `y` at step 0
is 1, entry 1 of the constraint vector is the residual of `x` at step 0, which
is 0, not the `y` of step 0. -/
theorem C9_interleaved_layout_counterexample :
    ∃ out, FG_eval 2 ratTrig [0, 0, 0, 0] ⟨Vec.fresh fgZero, Vec.fresh offsetVars⟩ =
        some ((), out) ∧
      ¬ interleavedLayout 2 ratTrig [0, 0, 0, 0] offsetVars (constraintVector out.fg.data) := by
  obtain ⟨fd1, Wc, Wd, FR, R, hrun, -, -, -, hres, -⟩ :=
    FG_eval_spec 2 (by decide) ratTrig [0, 0, 0, 0] (by decide) fgZero [] [] offsetVars [] []
      (by decide) (by decide)
  refine ⟨_, hrun, ?_⟩
  rintro ⟨⟨-, h1, -⟩, -⟩
  obtain ⟨hx, -⟩ := hres 0 (by decide)
  simp only [constraintVector, List.getElem?_drop] at h1
  have e : 2 + x_idx 2 + 0 = 1 + 1 := rfl
  rw [e, h1] at hx
  simp [stateAt, resX, offsetVars, x_idx, y_idx, psi_idx, v_idx] at hx

/-- C9, amended: for every horizon `N ≥ 2` and every decision vector, the
constraint vector that `FG_eval` produces is laid out in six blocks of length
`N` at the offsets `x_idx`, ..., `epsi_idx`: the first entry of a block is the
entry of the decision vector at step 0 for that component, and entry `1 + i`
of the block, for `i` from 0 to `N - 2`, is that component of the gap between
step `i + 1` and the kinematic model applied to step `i`. -/
theorem C9_block_layout (N : Nat) (hN : 2 ≤ N) (T : Trig K) (coeffs vars fg0 : List K)
    (hc : coeffs.length = 4) (hv : vars.length = n_vars N)
    (hf : fg0.length = 1 + n_constraints N) :
    ∃ out, FG_eval N T coeffs ⟨Vec.fresh fg0, Vec.fresh vars⟩ = some ((), out) ∧
      blockLayout N T coeffs vars (constraintVector out.fg.data) := by
  obtain ⟨fd1, Wc, Wd, FR, R, hrun, -, -, ⟨h1, h2, h3, h4, h5, h6⟩, hres, -⟩ :=
    FG_eval_spec N hN T coeffs (by omega) fg0 [] [] vars [] [] hv hf
  refine ⟨_, hrun, ⟨?_, ?_, ?_, ?_, ?_, ?_⟩, ?_⟩
  · simp only [constraintVector, List.getElem?_drop, stateAt, Nat.add_zero]
    exact h1
  · simp only [constraintVector, List.getElem?_drop, stateAt, Nat.add_zero]
    exact h2
  · simp only [constraintVector, List.getElem?_drop, stateAt, Nat.add_zero]
    exact h3
  · simp only [constraintVector, List.getElem?_drop, stateAt, Nat.add_zero]
    exact h4
  · simp only [constraintVector, List.getElem?_drop, stateAt, Nat.add_zero]
    exact h5
  · simp only [constraintVector, List.getElem?_drop, stateAt, Nat.add_zero]
    exact h6
  · intro i hi
    obtain ⟨r1, r2, r3, r4, r5, r6⟩ := hres i hi
    obtain ⟨e1, e2, e3, e4, e5, e6⟩ := residual_eq_modelGap N T coeffs vars i
    simp only [constraintVector, List.getElem?_drop]
    rw [← e1, ← e2, ← e3, ← e4, ← e5, ← e6]
    refine ⟨?_, ?_, ?_, ?_, ?_, ?_⟩
    · rw [← r1]; congr 1; omega
    · rw [← r2]; congr 1; omega
    · rw [← r3]; congr 1; omega
    · rw [← r4]; congr 1; omega
    · rw [← r5]; congr 1; omega
    · rw [← r6]; congr 1; omega

/-- C9 amended, for `N = 2`. -/
theorem C9_block_layout_witness :
    ∃ out, FG_eval 2 ratTrig [0, 0, 0, 0] ⟨Vec.fresh fgZero, Vec.fresh offsetVars⟩ = some ((), out) ∧
      blockLayout 2 ratTrig [0, 0, 0, 0] offsetVars (constraintVector out.fg.data) :=
  C9_block_layout 2 (by decide) ratTrig [0, 0, 0, 0] offsetVars fgZero (by decide) (by decide)
    (by decide)

/-- C10: for every horizon `N ≥ 2` a call of `FG_eval` returns, leaves the
objective in `fg[0]`, and its log of assignments consists of the assignments
of the cost part, all to `fg[0]`, the six assignments of the initial
constraints and the `6 * (N - 1)` assignments of the dynamics loop; each of
`fg[1], ..., fg[6 N]` is assigned exactly once and no index above
`n_constraints = 6 N` is assigned. -/
theorem C10_each_residual_slot_written_once (N : Nat) (hN : 2 ≤ N) (T : Trig K)
    (coeffs vars fg0 : List K) (hc : coeffs.length = 4) (hv : vars.length = n_vars N)
    (hf : fg0.length = 1 + n_constraints N) :
    ∃ out Wc Wd, FG_eval N T coeffs ⟨Vec.fresh fg0, Vec.fresh vars⟩ = some ((), out) ∧
      out.fg.data[0]? = some (objective N vars) ∧
      out.fg.writes = Wd ++ (initWrites N ++ Wc) ∧
      (0 ∈ Wc ∧ ∀ k ∈ Wc, k = 0) ∧
      (initWrites N).length = 6 ∧ Wd.length = 6 * (N - 1) ∧
      n_constraints N = 6 * N ∧
      (∀ k, 1 ≤ k → k ≤ n_constraints N → out.fg.writes.count k = 1) ∧
      (∀ k ∈ out.fg.writes, k ≤ n_constraints N) := by
  obtain ⟨hx, hy, hpsi, hvi, hcte, hepsi, hdelta, ha, hnv, hnc, hsz⟩ := idx_eq N (by omega)
  obtain ⟨fd1, Wc, Wd, FR, R, hrun, -, hobj, -, -, ⟨hWc, hWc0⟩, ⟨hc1, hc0, hWl⟩, -⟩ :=
    FG_eval_spec N hN T coeffs (by omega) fg0 [] [] vars [] [] hv hf
  have hcWc : ∀ k, 1 ≤ k → Wc.count k = 0 := by
    intro k hk
    rw [List.count_eq_zero]
    intro hmem
    have := hWc k hmem
    omega
  have hci : ∀ k, (initWrites N).count k =
      if k = 1 + epsi_idx N ∨ k = 1 + cte_idx N ∨ k = 1 + v_idx N ∨ k = 1 + psi_idx N ∨
        k = 1 + y_idx N ∨ k = 1 + x_idx N then 1 else 0 := by
    intro k
    simp only [initWrites, List.count_cons, List.count_nil, beq_iff_eq]
    split_ifs <;> omega
  refine ⟨_, Wc, Wd, hrun, hobj, ?_, ⟨hWc0, hWc⟩, rfl, hWl, hnc, ?_, ?_⟩
  · simp only [List.append_nil]
  · intro k hk1 hk2
    simp only [List.append_nil, List.count_append]
    rw [hcWc k hk1, hci k]
    by_cases hd : dynWritten N (N - 1) k
    · rw [hc1 k hd]
      simp only [dynWritten] at hd
      split_ifs <;> omega
    · rw [hc0 k hd]
      simp only [dynWritten] at hd
      split_ifs <;> omega
  · intro k hk
    simp only [List.append_nil, List.mem_append] at hk
    rcases hk with h | h | h
    · by_cases hd : dynWritten N (N - 1) k
      · simp only [dynWritten] at hd
        omega
      · have := hc0 k hd
        rw [List.count_eq_zero] at this
        exact absurd h this
    · simp only [initWrites, List.mem_cons, List.mem_singleton, List.not_mem_nil,
        or_false] at h
      omega
    · have := hWc k h
      omega

/-- C10, for `N = 2`. -/
theorem C10_each_residual_slot_written_once_witness :
    ∃ out Wc Wd, FG_eval 2 ratTrig [0, 0, 0, 0] ⟨Vec.fresh fgZero, Vec.fresh straightVars⟩ =
        some ((), out) ∧
      out.fg.data[0]? = some (objective 2 straightVars) ∧
      out.fg.writes = Wd ++ (initWrites 2 ++ Wc) ∧
      (0 ∈ Wc ∧ ∀ k ∈ Wc, k = 0) ∧
      (initWrites 2).length = 6 ∧ Wd.length = 6 * (2 - 1) ∧
      n_constraints 2 = 6 * 2 ∧
      (∀ k, 1 ≤ k → k ≤ n_constraints 2 → out.fg.writes.count k = 1) ∧
      (∀ k ∈ out.fg.writes, k ≤ n_constraints 2) :=
  C10_each_residual_slot_written_once 2 (by decide) ratTrig [0, 0, 0, 0] straightVars fgZero
    (by decide) (by decide) (by decide)

/-- C11: with `ref_cte = ref_epsi = 0` as in the source, for every horizon
`N ≥ 2` the objective that `FG_eval` leaves in `fg[0]` is at least 0; and for
every step `t < N`, of two decision vectors that differ only in the entry
`cte_t` (or only in the entry `epsi_t`), the one with the greater
`|cte_t - ref_cte|` (or `|epsi_t - ref_epsi|`) gets the strictly greater
objective. -/
theorem C11_objective_nonneg_monotone (N : Nat) (hN : 2 ≤ N) (T : Trig K)
    (coeffs vars vars2 fg0 : List K) (hc : coeffs.length = 4) (hv : vars.length = n_vars N)
    (hv2 : vars2.length = n_vars N) (hf : fg0.length = 1 + n_constraints N) :
    ref_cte K = 0 ∧ ref_epsi K = 0 ∧
    ∃ out out2 J J2,
      FG_eval N T coeffs ⟨Vec.fresh fg0, Vec.fresh vars⟩ = some ((), out) ∧
      FG_eval N T coeffs ⟨Vec.fresh fg0, Vec.fresh vars2⟩ = some ((), out2) ∧
      out.fg.data[0]? = some J ∧ out2.fg.data[0]? = some J2 ∧ 0 ≤ J ∧
      (∀ t, t < N → (∀ k, k ≠ cte_idx N + t → vars[k]? = vars2[k]?) →
        |vars.getD (cte_idx N + t) 0 - ref_cte K| <
          |vars2.getD (cte_idx N + t) 0 - ref_cte K| → J < J2) ∧
      (∀ t, t < N → (∀ k, k ≠ epsi_idx N + t → vars[k]? = vars2[k]?) →
        |vars.getD (epsi_idx N + t) 0 - ref_epsi K| <
          |vars2.getD (epsi_idx N + t) 0 - ref_epsi K| → J < J2) := by
  obtain ⟨fd1, Wc, Wd, FR, R, hrun, -, hobj, -⟩ :=
    FG_eval_spec N hN T coeffs (by omega) fg0 [] [] vars [] [] hv hf
  obtain ⟨fd2, Wc2, Wd2, FR2, R2, hrun2, -, hobj2, -⟩ :=
    FG_eval_spec N hN T coeffs (by omega) fg0 [] [] vars2 [] [] hv2 hf
  exact ⟨rfl, rfl, _, _, objective N vars, objective N vars2, hrun, hrun2, hobj, hobj2,
    objective_nonneg N vars,
    fun t ht hs hl => objective_lt_of_cte N hN vars vars2 t ht hs hl,
    fun t ht hs hl => objective_lt_of_epsi N hN vars vars2 t ht hs hl⟩

/-- C11, for `N = 2`: the objective is not negative, and raising the
cross-track error of step 0 from 0 to 1 raises it. -/
theorem C11_objective_nonneg_monotone_witness :
    ref_cte ℚ = 0 ∧ ref_epsi ℚ = 0 ∧
    ∃ out out2 J J2,
      FG_eval 2 ratTrig [0, 0, 0, 0] ⟨Vec.fresh fgZero, Vec.fresh straightVars⟩ =
        some ((), out) ∧
      FG_eval 2 ratTrig [0, 0, 0, 0] ⟨Vec.fresh fgZero, Vec.fresh cteVars⟩ =
        some ((), out2) ∧
      out.fg.data[0]? = some J ∧ out2.fg.data[0]? = some J2 ∧ 0 ≤ J ∧ J < J2 := by
  have hsame : ∀ k, k ≠ cte_idx 2 + 0 → straightVars[k]? = cteVars[k]? := by
    intro k hk
    have hk8 : k ≠ 8 := hk
    rcases Nat.lt_or_ge k 14 with h | h
    · interval_cases k <;> first | exact absurd rfl hk8 | rfl
    · rw [List.getElem?_eq_none (by simpa [straightVars] using h),
        List.getElem?_eq_none (by simpa [cteVars] using h)]
  have hlt : |straightVars.getD (cte_idx 2 + 0) 0 - ref_cte ℚ| <
      |cteVars.getD (cte_idx 2 + 0) 0 - ref_cte ℚ| := by
    simp [straightVars, cteVars, cte_idx, x_idx, y_idx, psi_idx, v_idx, ref_cte]
  obtain ⟨h1, h2, out, out2, J, J2, r1, r2, j1, j2, h0, hcte, -⟩ :=
    C11_objective_nonneg_monotone 2 (by decide) ratTrig [0, 0, 0, 0] straightVars cteVars
      fgZero rfl (by decide) (by decide) (by decide)
  exact ⟨h1, h2, out, out2, J, J2, r1, r2, j1, j2, h0, hcte 0 (by decide) hsame hlt⟩

/-- C12: for every horizon `N ≥ 2` and every state: when the vector the solver
returns for the problem `MPC::Solve` hands to it has `n_vars` entries and lies
within the limits of the variables of that problem, `MPC::Solve` returns, no
entry of the block of `delta` of that vector exceeds `0.436332 * Lf` in
magnitude, so that `|first_delta| ≤ 0.436332 * Lf`, and
`-0.7 ≤ first_a ≤ 0.7`. -/
theorem C12_first_actuations_within_limits (N : Nat) (hN : 2 ≤ N) (T : Trig K)
    (solver : Problem K → solve_result K) (junk : Nat → Nat → K) (self : MPCObj K)
    (x y psi v cte epsi : K) (coeffs : List K) :
    ∃ L, buildVectors N x y psi v cte epsi (allocLocals N junk) = some ((), L) ∧
      ((solver (problemOf N T coeffs L)).x.length = n_vars N →
        withinBounds (problemOf N T coeffs L).xl (problemOf N T coeffs L).xu
          (solver (problemOf N T coeffs L)).x →
        ∃ run, Solve N T solver junk self [x, y, psi, v, cte, epsi] coeffs = some run ∧
          run.calls = [problemOf N T coeffs L] ∧
          (∀ i, i < N - 1 →
            |(solver (problemOf N T coeffs L)).x.getD (delta_idx N + i) 0| ≤
              436332 / 1000000 * Lf K) ∧
          |run.self.first_delta| ≤ 436332 / 1000000 * Lf K ∧
          -(7 / 10) ≤ run.self.first_a ∧ run.self.first_a ≤ 7 / 10) := by
  obtain ⟨hx, hy, hpsi, hvi, hcte, hepsi, hdelta, ha, hnv, hnc, hsz⟩ := idx_eq N (by omega)
  obtain ⟨L, hL, -, ⟨dl, Wl, el, hll, hl1, hl2, hl3, -⟩, ⟨du, Wu, eu, hul, hu1, hu2, hu3, -⟩,
      -, -⟩ := buildVectors_spec N (by omega) x y psi v cte epsi junk
  refine ⟨L, hL, ?_⟩
  intro hlen hb
  obtain ⟨pp, R, hext, hpl, hpv, hR⟩ := extract_spec N hN (solver (problemOf N T coeffs L)).x
    [] [] self hlen
  have hrun := Solve_run N T solver junk self x y psi v cte epsi coeffs L _ hL hext
  have hxl : (problemOf N T coeffs L).xl = dl := by
    simp only [problemOf, el]
  have hxu : (problemOf N T coeffs L).xu = du := by
    simp only [problemOf, eu]
  have hdel : ∀ k, delta_idx N ≤ k → k < a_idx N →
      |(solver (problemOf N T coeffs L)).x.getD k 0| ≤ 436332 / 1000000 * Lf K := by
    intro k h1 h2
    obtain ⟨l, h, c, e1, e2, e3, e4, e5⟩ := hb k (by omega)
    have e1' : dl[k]? = some l := by rw [← e1, hxl]
    have e2' : du[k]? = some h := by rw [← e2, hxu]
    rw [hl2 k h1 h2] at e1'
    rw [hu2 k h1 h2] at e2'
    cases e1'
    cases e2'
    rw [getD_of_getElem? e3, abs_le]
    exact ⟨by linarith, e5⟩
  have hacc : ∀ k, a_idx N ≤ k → k < n_vars N →
      -(7 / 10) ≤ (solver (problemOf N T coeffs L)).x.getD k 0 ∧
      (solver (problemOf N T coeffs L)).x.getD k 0 ≤ 7 / 10 := by
    intro k h1 h2
    obtain ⟨l, h, c, e1, e2, e3, e4, e5⟩ := hb k (by omega)
    have e1' : dl[k]? = some l := by rw [← e1, hxl]
    have e2' : du[k]? = some h := by rw [← e2, hxu]
    rw [hl3 k h1 h2] at e1'
    rw [hu3 k h1 h2] at e2'
    cases e1'
    cases e2'
    rw [getD_of_getElem? e3]
    exact ⟨e4, e5⟩
  refine ⟨_, hrun, rfl, ?_, ?_, ?_, ?_⟩
  · intro i hi
    exact hdel _ (by omega) (by omega)
  · exact hdel _ (by omega) (by omega)
  · exact (hacc _ (by omega) (by omega)).1
  · exact (hacc _ (by omega) (by omega)).2

/-- C12, for `N = 2` and a solver that returns the vector `straightVars`,
which lies within the limits of the variables. -/
theorem C12_first_actuations_within_limits_witness :
    ∃ run, Solve 2 ratTrig (fixedSolver status_type.success) (fun _ _ => 0) ⟨0, 0, []⟩
        [0, 0, 0, 10, 0, 0] [0, 0, 0, 0] = some run ∧
      |run.self.first_delta| ≤ 436332 / 1000000 * Lf ℚ ∧
      -(7 / 10) ≤ run.self.first_a ∧ run.self.first_a ≤ 7 / 10 := by
  obtain ⟨L, hL, h⟩ := C12_first_actuations_within_limits 2 (by decide) ratTrig
    (fixedSolver status_type.success) (fun _ _ => 0) ⟨0, 0, []⟩ 0 0 0 10 0 0 [0, 0, 0, 0]
  obtain ⟨run, hrun, -, -, hd, ha1, ha2⟩ := h rfl
    (withinBounds_of_limits 2 (by decide) 0 0 0 10 0 0 _ L hL straightVars rfl
      (fun k hk => by
        have hk2 : k < 12 := hk
        interval_cases k <;> simp [straightVars] <;> norm_num)
      (fun k h1 h2 => by
        have h3 : 12 ≤ k := h1
        have h4 : k < 13 := h2
        interval_cases k
        simp [straightVars, Lf]
        norm_num)
      (fun k h1 h2 => by
        have h3 : 13 ≤ k := h1
        have h4 : k < 14 := h2
        interval_cases k
        simp [straightVars]
        norm_num))
  exact ⟨run, hrun, hd, ha1, ha2⟩

/-- C13: for every horizon `N ≥ 2` and every state, in the vectors that
`MPC::Solve` builds the lower limit is at most the upper limit at every index,
for the variables and for the constraints; every call of `MPC::Solve` that
returns has handed these four vectors to the solver. -/
theorem C13_lower_le_upper (N : Nat) (hN : 2 ≤ N) (x y psi v cte epsi : K)
    (junk : Nat → Nat → K) :
    ∃ L, buildVectors N x y psi v cte epsi (allocLocals N junk) = some ((), L) ∧
      (∀ k, k < n_vars N → ∃ l u, L.vars_lowerbound.data[k]? = some l ∧
        L.vars_upperbound.data[k]? = some u ∧ l ≤ u) ∧
      (∀ k, k < n_constraints N → ∃ l u, L.constraints_lowerbound.data[k]? = some l ∧
        L.constraints_upperbound.data[k]? = some u ∧ l ≤ u) ∧
      (∀ (T : Trig K) (solver : Problem K → solve_result K) (self : MPCObj K)
          (coeffs : List K) (run : SolveRun K),
        Solve N T solver junk self [x, y, psi, v, cte, epsi] coeffs = some run →
          ∃ p, run.calls = [p] ∧ p.xl = L.vars_lowerbound.data ∧
            p.xu = L.vars_upperbound.data ∧ p.gl = L.constraints_lowerbound.data ∧
            p.gu = L.constraints_upperbound.data) := by
  obtain ⟨hx, hy, hpsi, hvi, hcte, hepsi, hdelta, ha, hnv, hnc, hsz⟩ := idx_eq N (by omega)
  obtain ⟨L, hL, -, ⟨dl, Wl, el, hll, hl1, hl2, hl3, -⟩, ⟨du, Wu, eu, hul, hu1, hu2, hu3, -⟩,
      ⟨cll, ⟨a1, a2, a3, a4, a5, a6⟩, a0⟩, ⟨cul, ⟨b1, b2, b3, b4, b5, b6⟩, b0⟩⟩ :=
    buildVectors_spec N (by omega) x y psi v cte epsi junk
  have hLf : (0 : K) < Lf K := by
    simp only [Lf]
    norm_num
  refine ⟨L, hL, ?_, ?_, ?_⟩
  · intro k hk
    rw [el, eu]
    by_cases c1 : k < delta_idx N
    · exact ⟨_, _, hl1 k c1, hu1 k c1, by norm_num⟩
    · by_cases c2 : k < a_idx N
      · refine ⟨_, _, hl2 k (by omega) c2, hu2 k (by omega) c2, ?_⟩
        have : (0 : K) ≤ 436332 / 1000000 * Lf K := by positivity
        linarith
      · exact ⟨_, _, hl3 k (by omega) hk, hu3 k (by omega) hk, by norm_num⟩
  · intro k hk
    by_cases c1 : k = x_idx N
    · exact ⟨_, _, c1 ▸ a1, c1 ▸ b1, le_refl _⟩
    by_cases c2 : k = y_idx N
    · exact ⟨_, _, c2 ▸ a2, c2 ▸ b2, le_refl _⟩
    by_cases c3 : k = psi_idx N
    · exact ⟨_, _, c3 ▸ a3, c3 ▸ b3, le_refl _⟩
    by_cases c4 : k = v_idx N
    · exact ⟨_, _, c4 ▸ a4, c4 ▸ b4, le_refl _⟩
    by_cases c5 : k = cte_idx N
    · exact ⟨_, _, c5 ▸ a5, c5 ▸ b5, le_refl _⟩
    by_cases c6 : k = epsi_idx N
    · exact ⟨_, _, c6 ▸ a6, c6 ▸ b6, le_refl _⟩
    exact ⟨_, _, a0 k hk c1 c2 c3 c4 c5 c6, b0 k hk c1 c2 c3 c4 c5 c6, le_refl _⟩
  · intro T solver self coeffs run hrun
    obtain ⟨-, hcalls⟩ := Solve_locals N T solver junk self x y psi v cte epsi coeffs L run
      hL hrun
    exact ⟨_, hcalls, rfl, rfl, rfl, rfl⟩

/-- C13, for `N = 2` and the state `1, 2, 3, 4, 5, 6`. -/
theorem C13_lower_le_upper_witness :
    ∃ L, buildVectors 2 1 2 3 4 5 6 (allocLocals 2 (fun _ _ => 0)) = some ((), L) ∧
      (∀ k, k < n_vars 2 → ∃ l u, L.vars_lowerbound.data[k]? = some l ∧
        L.vars_upperbound.data[k]? = some u ∧ l ≤ u) ∧
      (∀ k, k < n_constraints 2 → ∃ l u, L.constraints_lowerbound.data[k]? = some l ∧
        L.constraints_upperbound.data[k]? = some u ∧ l ≤ u) ∧
      (∀ (T : Trig ℚ) (solver : Problem ℚ → solve_result ℚ) (self : MPCObj ℚ)
          (coeffs : List ℚ) (run : SolveRun ℚ),
        Solve 2 T solver (fun _ _ => 0) self [1, 2, 3, 4, 5, 6] coeffs = some run →
          ∃ p, run.calls = [p] ∧ p.xl = L.vars_lowerbound.data ∧
            p.xu = L.vars_upperbound.data ∧ p.gl = L.constraints_lowerbound.data ∧
            p.gu = L.constraints_upperbound.data) :=
  C13_lower_le_upper 2 (by decide) 1 2 3 4 5 6 (fun _ _ => 0)

/-- C14 as stated fails: for `N = 10`, with a state of seven entries and five
coefficients, `MPC::Solve` builds the limits, calls the solver once and
returns `true` with the controls of the solver's vector. -/
theorem C14_malformed_input_accepted_counterexample :
    ∃ run, Solve 10 ratTrig (fun _ => ⟨status_type.success, fullThrottle ℚ, 0⟩)
        (fun _ _ => 0) ⟨0, 0, []⟩ [1, 2, 3, 4, 5, 6, 7] [0, 0, 0, 0, 0] = some run ∧
      run.calls.length = 1 ∧ run.ret = true ∧ run.self.first_a = 7 / 10 ∧
      run.self.predicted_points.length = 10 := by
  obtain ⟨run, p, R, hrun, hcalls, -, hret, -, hfa, hpl, -⟩ :=
    Solve_spec 10 (by decide) ratTrig (fun _ => ⟨status_type.success, fullThrottle ℚ, 0⟩)
      (fun _ _ => 0) ⟨0, 0, []⟩ 1 2 3 4 5 6 [0, 0, 0, 0, 0] (fun _ => fullThrottle_length)
  refine ⟨run, ?_, by rw [hcalls]; rfl, ?_, ?_, hpl⟩
  · rw [Solve_cons6]
    exact hrun
  · rw [hret]
    rfl
  · rw [hfa]
    exact (controls_fullThrottle 0 (by decide)).2

/-- C14, amended: `MPC::Solve` checks no length.  For every horizon `N ≥ 2`,
when the solver returns a vector of `n_vars` entries: with a state of at least
six entries and coefficients of any length, `MPC::Solve` returns after one call
of the solver, with the same result as for the first six entries of the state;
with a state of fewer than six entries, a read of the state is out of range
and the call has no result. -/
theorem C14_no_length_check (N : Nat) (hN : 2 ≤ N) (T : Trig K)
    (solver : Problem K → solve_result K) (junk : Nat → Nat → K) (self : MPCObj K)
    (state coeffs : List K) (hsol : ∀ p, (solver p).x.length = n_vars N) :
    (6 ≤ state.length →
      ∃ run, Solve N T solver junk self state coeffs = some run ∧ run.calls.length = 1 ∧
        Solve N T solver junk self (state.take 6) coeffs = some run) ∧
    (state.length < 6 → Solve N T solver junk self state coeffs = none) := by
  refine ⟨?_, Solve_short N T solver junk self state coeffs⟩
  intro h6
  match state, h6 with
  | x :: y :: psi :: v :: cte :: epsi :: rest, _ =>
    obtain ⟨run, p, R, hrun, hcalls, -⟩ :=
      Solve_spec N hN T solver junk self x y psi v cte epsi coeffs hsol
    refine ⟨run, ?_, by rw [hcalls]; rfl, ?_⟩
    · rw [Solve_cons6]
      exact hrun
    · simpa using hrun

/-- C14 amended, for `N = 2`, a state of 7 entries and 5 coefficients. -/
theorem C14_no_length_check_witness :
    (6 ≤ [1, 2, 3, 4, 5, 6, 7].length →
      ∃ run, Solve 2 ratTrig (fixedSolver status_type.success) (fun _ _ => 0) ⟨0, 0, []⟩ [1, 2, 3, 4, 5, 6, 7] [0, 0, 0, 0, 0] = some run ∧ run.calls.length = 1 ∧
        Solve 2 ratTrig (fixedSolver status_type.success) (fun _ _ => 0) ⟨0, 0, []⟩ ([1, 2, 3, 4, 5, 6, 7].take 6) [0, 0, 0, 0, 0] = some run) ∧
    ([1, 2, 3, 4, 5, 6, 7].length < 6 → Solve 2 ratTrig (fixedSolver status_type.success) (fun _ _ => 0) ⟨0, 0, []⟩ [1, 2, 3, 4, 5, 6, 7] [0, 0, 0, 0, 0] = none) :=
  C14_no_length_check 2 (by decide) ratTrig (fixedSolver status_type.success) (fun _ _ => 0)
    ⟨0, 0, []⟩ [1, 2, 3, 4, 5, 6, 7] [0, 0, 0, 0, 0] (fun _ => rfl)

/-- C15 (as stated, refuted): with the real cosine, sine and arctangent, for
the state `(0, 0, 0, 10, 0, 0)`, the coefficients `[0, 0, 0, 0]` and `N = 10`,
the problem `MPC::Solve` builds has a solution, and in every solution the
first acceleration is `0.7`, the upper limit of the accelerations, not a value
near 0. -/
theorem C15_first_acceleration_not_near_zero_counterexample :
    ∃ L, buildVectors 10 (0 : ℝ) 0 0 10 0 0 (allocLocals 10 (fun _ _ => 0)) = some ((), L) ∧
      (∃ z, IsSolution 10 ⟨Real.cos, Real.sin, Real.arctan⟩ [0, 0, 0, 0] L z) ∧
      (∀ z, IsSolution 10 ⟨Real.cos, Real.sin, Real.arctan⟩ [0, 0, 0, 0] L z →
        aAt 10 z 0 = 7 / 10) ∧
      L.vars_upperbound.data[a_idx 10]? = some (7 / 10) := by
  obtain ⟨hx, hy, hpsi, hvi, hcte, hepsi, hdelta, ha, hnv, hnc, hsz⟩ := idx_eq 10 (by omega)
  obtain ⟨L, hL, -, -, ⟨du, Wu, eu, hul, hu1, hu2, hu3, -⟩, -, -⟩ :=
    buildVectors_spec 10 (by omega) (0 : ℝ) 0 0 10 0 0 (fun _ _ => 0)
  refine ⟨L, hL, ⟨_, fullThrottle_isSolution _ Real.cos_zero Real.sin_zero Real.arctan_zero
    _ L hL⟩, ?_, ?_⟩
  · intro z hz
    exact (solution_shape _ Real.cos_zero Real.sin_zero Real.arctan_zero _ L hL z hz).2.1
  · rw [eu]
    exact hu3 _ (by omega) (by omega)

/-- C15 (amended): for the state `(0, 0, 0, 10, 0, 0)`, the coefficients
`[0, 0, 0, 0]`, `N = 10` and `dt = 0.1`, with a cosine, sine and arctangent
that take the values 1, 0 and 0 at 0: the problem `MPC::Solve` builds has a
solution; every solution has first steering 0 and first acceleration `0.7`
(the upper limit), its points lie on the line `y = 0`, its speed at step `t`
is `10 + 0.07 t` and the spacing of its points along `x` is `v_t * dt`, which
grows from 1 to 1.056; and when the solver returns a solution, `MPC::Solve`
returns with `first_delta = 0`, `first_a = 0.7` and 10 predicted points on
the line `y = 0`. -/
theorem C15_solution_is_full_throttle (T : Trig K) (hcos : T.cos 0 = 1) (hsin : T.sin 0 = 0)
    (hatan : T.atan 0 = 0) (solver : Problem K → solve_result K) (junk : Nat → Nat → K)
    (self : MPCObj K) :
    ∃ L, buildVectors 10 0 0 0 10 0 0 (allocLocals 10 junk) = some ((), L) ∧
      (∃ z, IsSolution 10 T [0, 0, 0, 0] L z) ∧
      (∀ z, IsSolution 10 T [0, 0, 0, 0] L z →
        deltaAt 10 z 0 = 0 ∧ aAt 10 z 0 = 7 / 10 ∧
        (∀ t, t < 10 →
          (stateAt 10 z t).y = 0 ∧ (stateAt 10 z t).v = 10 + 7 * (t : K) / 100) ∧
        (∀ t, t < 9 →
          (stateAt 10 z (t + 1)).x - (stateAt 10 z t).x = (stateAt 10 z t).v * dt K)) ∧
      (IsSolution 10 T [0, 0, 0, 0] L (solver (problemOf 10 T [0, 0, 0, 0] L)).x →
        ∃ run, Solve 10 T solver junk self [0, 0, 0, 10, 0, 0] [0, 0, 0, 0] = some run ∧
          run.self.first_delta = 0 ∧ run.self.first_a = 7 / 10 ∧
          run.self.predicted_points.length = 10 ∧
          ∀ i, i < 10 → ∃ px, run.self.predicted_points[i]? = some ⟨px, 0⟩) := by
  obtain ⟨L, hL, -⟩ := buildVectors_spec 10 (by omega) (0 : K) 0 0 10 0 0 junk
  refine ⟨L, hL, ⟨_, fullThrottle_isSolution T hcos hsin hatan junk L hL⟩,
    fun z hz => solution_shape T hcos hsin hatan junk L hL z hz, ?_⟩
  intro hs
  exact Solve_of_fullThrottle T solver junk self L hL
    (solution_eq_fullThrottle T hcos hsin hatan junk L hL _ hs)

/-- C15 amended, over the rationals, with a solver that returns the
full-throttle vector. -/
theorem C15_solution_is_full_throttle_witness :
    ∃ L, buildVectors 10 (0 : ℚ) 0 0 10 0 0 (allocLocals 10 (fun _ _ => 0)) = some ((), L) ∧
      (∃ z, IsSolution 10 ratTrig [0, 0, 0, 0] L z) ∧
      ∃ run, Solve 10 ratTrig (fun _ => ⟨status_type.success, fullThrottle ℚ, 0⟩)
          (fun _ _ => 0) ⟨0, 0, []⟩ [0, 0, 0, 10, 0, 0] [0, 0, 0, 0] = some run ∧
        run.self.first_delta = 0 ∧ run.self.first_a = 7 / 10 ∧
        run.self.predicted_points.length = 10 := by
  obtain ⟨L, hL, hex, -, hsolve⟩ := C15_solution_is_full_throttle ratTrig (by simp [ratTrig])
    (by simp [ratTrig]) (by simp [ratTrig])
    (fun _ => ⟨status_type.success, fullThrottle ℚ, 0⟩) (fun _ _ => 0) ⟨0, 0, []⟩
  obtain ⟨run, hrun, h1, h2, h3, -⟩ := hsolve
    (fullThrottle_isSolution ratTrig (by simp [ratTrig]) (by simp [ratTrig])
      (by simp [ratTrig]) _ L hL)
  exact ⟨L, hL, hex, run, hrun, h1, h2, h3⟩

/-- C16: for every horizon `N ≥ 2`, two calls of `MPC::Solve` with the same
state, the same coefficients and the same solver, on objects with arbitrary
prior contents and with arbitrary prior contents of the allocated vectors,
hand the same problem to the solver, return the same flag and leave the same
`first_delta`, `first_a` and `predicted_points` in the object. -/
theorem C16_outputs_independent_of_prior_state (N : Nat) (hN : 2 ≤ N) (T : Trig K)
    (solver : Problem K → solve_result K) (junk junk2 : Nat → Nat → K)
    (self self2 : MPCObj K) (x y psi v cte epsi : K) (coeffs : List K)
    (hsol : ∀ p, (solver p).x.length = n_vars N) :
    ∃ run run2 p,
      Solve N T solver junk self [x, y, psi, v, cte, epsi] coeffs = some run ∧
      Solve N T solver junk2 self2 [x, y, psi, v, cte, epsi] coeffs = some run2 ∧
      run.calls = [p] ∧ run2.calls = [p] ∧ run.ret = run2.ret ∧
      run.self.first_delta = run2.self.first_delta ∧
      run.self.first_a = run2.self.first_a ∧
      run.self.predicted_points = run2.self.predicted_points ∧
      run.self.predicted_points.length = N := by
  obtain ⟨run, p, R, hrun, hcalls, hp, hret, hd, hfa, hpl, hpv, -⟩ :=
    Solve_spec N hN T solver junk self x y psi v cte epsi coeffs hsol
  obtain ⟨run2, p2, R2, hrun2, hcalls2, hp2, hret2, hd2, hfa2, hpl2, hpv2, -⟩ :=
    Solve_spec N hN T solver junk2 self2 x y psi v cte epsi coeffs hsol
  obtain ⟨L, hL, -⟩ := buildVectors_spec N (by omega) x y psi v cte epsi junk
  obtain ⟨L2, hL2, -⟩ := buildVectors_spec N (by omega) x y psi v cte epsi junk2
  obtain ⟨hl, -⟩ := Solve_locals N T solver junk self x y psi v cte epsi coeffs L run hL hrun
  obtain ⟨hl2, -⟩ := Solve_locals N T solver junk2 self2 x y psi v cte epsi coeffs L2 run2
    hL2 hrun2
  obtain ⟨e1, e2, e3, e4, e5⟩ := buildVectors_data_eq N (by omega) x y psi v cte epsi junk
    junk2 L L2 hL hL2
  have hpp : p2 = p := by
    rw [hp, hp2, hl, hl2]
    simp only [problemOf, e1, e2, e3, e4, e5]
  rw [hpp] at hcalls2 hret2 hd2 hfa2 hpv2
  refine ⟨run, run2, p, hrun, hrun2, hcalls, hcalls2, by rw [hret, hret2],
    by rw [hd, hd2], by rw [hfa, hfa2], ?_, hpl⟩
  apply list_eq_of_entries _ _ N hpl hpl2
  intro i hi
  rw [hpv i hi, hpv2 i hi]

/-- C16, for `N = 2`: two calls that differ in the prior contents of the object and of the fresh vectors. -/
theorem C16_outputs_independent_of_prior_state_witness :
    ∃ run run2 p,
      Solve 2 ratTrig (fixedSolver status_type.success) (fun _ _ => 0) ⟨0, 0, []⟩ [1, 2, 3, 4, 5, 6] [0, 0, 0, 0] = some run ∧
      Solve 2 ratTrig (fixedSolver status_type.success) (fun _ _ => 1) ⟨1, 1, [⟨1, 1⟩, ⟨1, 1⟩, ⟨1, 1⟩]⟩ [1, 2, 3, 4, 5, 6] [0, 0, 0, 0] = some run2 ∧
      run.calls = [p] ∧ run2.calls = [p] ∧ run.ret = run2.ret ∧
      run.self.first_delta = run2.self.first_delta ∧
      run.self.first_a = run2.self.first_a ∧
      run.self.predicted_points = run2.self.predicted_points ∧
      run.self.predicted_points.length = 2 :=
  C16_outputs_independent_of_prior_state 2 (by decide) ratTrig
    (fixedSolver status_type.success) (fun _ _ => 0) (fun _ _ => 1) ⟨0, 0, []⟩
    ⟨1, 1, [⟨1, 1⟩, ⟨1, 1⟩, ⟨1, 1⟩]⟩ 1 2 3 4 5 6 [0, 0, 0, 0] (fun _ => rfl)

/-- C17: for every horizon `N ≥ 2` and every state, the initial guess that
`MPC::Solve` builds has `n_vars = N * 6 + (N - 1) * 2` entries, all 0, whatever
the state is; every call of `MPC::Solve` that returns has handed it to the
solver as the starting point. -/
theorem C17_initial_guess_zero (N : Nat) (hN : 2 ≤ N) (x y psi v cte epsi : K)
    (junk : Nat → Nat → K) :
    ∃ L, buildVectors N x y psi v cte epsi (allocLocals N junk) = some ((), L) ∧
      n_vars N = N * 6 + (N - 1) * 2 ∧
      L.vars.data.length = n_vars N ∧
      L.vars.data = List.replicate (n_vars N) 0 ∧
      (∀ (T : Trig K) (solver : Problem K → solve_result K) (self : MPCObj K)
          (coeffs : List K) (run : SolveRun K),
        Solve N T solver junk self [x, y, psi, v, cte, epsi] coeffs = some run →
          ∃ p, run.calls = [p] ∧ p.xi = L.vars.data) := by
  obtain ⟨hx, hy, hpsi, hvi, hcte, hepsi, hdelta, ha, hnv, hnc, hsz⟩ := idx_eq N (by omega)
  obtain ⟨L, hL, ⟨d0, W0, e0, hl0, hin0, -⟩, -⟩ :=
    buildVectors_spec N (by omega) x y psi v cte epsi junk
  have hd0 : d0.length = n_vars N := by rw [hl0]; exact length_newDvector _ _
  refine ⟨L, hL, by omega, by rw [e0]; exact hd0, ?_, ?_⟩
  · rw [e0]
    apply list_eq_of_entries _ _ (n_vars N) hd0 (List.length_replicate _ _)
    intro k hk
    rw [hin0 k (Nat.zero_le k) (by omega), List.getElem?_replicate, if_pos hk]
  · intro T solver self coeffs run hrun
    obtain ⟨-, hcalls⟩ := Solve_locals N T solver junk self x y psi v cte epsi coeffs L run
      hL hrun
    exact ⟨_, hcalls, rfl⟩

/-- C17, for `N = 2` and the state `1, 2, 3, 4, 5, 6`. -/
theorem C17_initial_guess_zero_witness :
    ∃ L, buildVectors 2 1 2 3 4 5 6 (allocLocals 2 (fun _ _ => 0)) = some ((), L) ∧
      n_vars 2 = 2 * 6 + (2 - 1) * 2 ∧
      L.vars.data.length = n_vars 2 ∧
      L.vars.data = List.replicate (n_vars 2) 0 ∧
      (∀ (T : Trig ℚ) (solver : Problem ℚ → solve_result ℚ) (self : MPCObj ℚ)
          (coeffs : List ℚ) (run : SolveRun ℚ),
        Solve 2 T solver (fun _ _ => 0) self [1, 2, 3, 4, 5, 6] coeffs = some run →
          ∃ p, run.calls = [p] ∧ p.xi = L.vars.data) :=
  C17_initial_guess_zero 2 (by decide) 1 2 3 4 5 6 (fun _ _ => 0)

/-- C18: for all coefficients `c0, ..., c3` and every real `x`, the argument
of the arctangent in the heading-error residual, `c1 + 2 c2 x + 3 c3 x ^ 2`, is
the derivative at `x` of the cubic `c0 + c1 x + c2 x ^ 2 + c3 x ^ 3` that the
cross-track residual evaluates; over any field it is the value at `x` of the
formal derivative of that cubic. -/
theorem C18_psides_argument_is_derivative :
    (∀ (c0 c1 c2 c3 x : ℝ),
      HasDerivAt (fun u => f0 [c0, c1, c2, c3] u) (psides0Arg [c0, c1, c2, c3] x) x ∧
      f0 [c0, c1, c2, c3] x = c0 + c1 * x + c2 * x ^ 2 + c3 * x ^ 3 ∧
      psides0Arg [c0, c1, c2, c3] x = c1 + 2 * c2 * x + 3 * c3 * x ^ 2) ∧
    (∀ (c0 c1 c2 c3 x : K),
      Polynomial.eval x (Polynomial.C c0 + Polynomial.C c1 * Polynomial.X +
        Polynomial.C c2 * Polynomial.X ^ 2 + Polynomial.C c3 * Polynomial.X ^ 3) =
          f0 [c0, c1, c2, c3] x ∧
      Polynomial.eval x (Polynomial.derivative (Polynomial.C c0 +
        Polynomial.C c1 * Polynomial.X + Polynomial.C c2 * Polynomial.X ^ 2 +
        Polynomial.C c3 * Polynomial.X ^ 3)) = psides0Arg [c0, c1, c2, c3] x) ∧
    (∀ (N : Nat) (T : Trig K) (coeffs vd : List K) (i : Nat),
      resCte N T coeffs vd i = vd.getD (cte_idx N + i + 1) 0 -
        ((f0 coeffs (vd.getD (x_idx N + i) 0) - vd.getD (y_idx N + i) 0) +
          vd.getD (v_idx N + i) 0 * T.sin (vd.getD (epsi_idx N + i) 0) * dt K) ∧
      resEpsi N T coeffs vd i = vd.getD (epsi_idx N + i + 1) 0 -
        ((vd.getD (psi_idx N + i) 0 -
            T.atan (psides0Arg coeffs (vd.getD (x_idx N + i) 0))) +
          vd.getD (v_idx N + i) 0 * vd.getD (delta_idx N + i) 0 / Lf K * dt K)) := by
  refine ⟨?_, ?_, ?_⟩
  · intro c0 c1 c2 c3 x
    refine ⟨?_, ?_, ?_⟩
    · have h : HasDerivAt (fun u : ℝ => c0 + c1 * u + c2 * u ^ 2 + c3 * u ^ 3)
          (c1 + 2 * c2 * x + 3 * c3 * x * x) x := by
        have h1 : HasDerivAt (fun u : ℝ => u) 1 x := hasDerivAt_id x
        have h2 : HasDerivAt (fun u : ℝ => u ^ 2) (2 * x) x := by
          simpa using hasDerivAt_pow 2 x
        have h3 : HasDerivAt (fun u : ℝ => u ^ 3) (3 * x ^ 2) x := by
          simpa using hasDerivAt_pow 3 x
        have := (((hasDerivAt_const x c0).add (h1.const_mul c1)).add (h2.const_mul c2)).add
          (h3.const_mul c3)
        convert this using 1
        ring
      have e : (fun u : ℝ => f0 [c0, c1, c2, c3] u) =
          fun u : ℝ => c0 + c1 * u + c2 * u ^ 2 + c3 * u ^ 3 := by
        funext u
        simp [f0]
        ring
      rw [e]
      simpa [psides0Arg] using h
    · simp [f0]
      ring
    · simp [psides0Arg]
      ring
  · intro c0 c1 c2 c3 x
    constructor
    · simp [f0]
      ring
    · simp [psides0Arg, Polynomial.derivative_pow]
      ring
  · intro N T coeffs vd i
    exact ⟨rfl, rfl⟩

/-- C19: for every horizon `N ≥ 2`, all coefficients and every decision vector:
if every residual that the dynamics loop of `FG_eval` assigns is 0, the six
state blocks hold the trajectory of the kinematic model from the state at
step 0 of the vector under its own blocks of `delta` and `a`; and every
decision vector with zero dynamics residuals, the same state at step 0 and
the same controls is equal to it. -/
theorem C19_zero_residuals_determine_states (N : Nat) (hN : 2 ≤ N) (T : Trig K)
    (coeffs vars fg0 : List K) (hc : coeffs.length = 4) (hv : vars.length = n_vars N)
    (hf : fg0.length = 1 + n_constraints N) :
    ∃ out, FG_eval N T coeffs ⟨Vec.fresh fg0, Vec.fresh vars⟩ = some ((), out) ∧
      (dynResidualsZero N out.fg.data →
        (∀ t, t < N → stateAt N vars t =
          trajectory T coeffs (stateAt N vars 0) (deltaAt N vars) (aAt N vars) t) ∧
        ∀ (vars2 : List K) (out2 : FGState K), vars2.length = n_vars N →
          FG_eval N T coeffs ⟨Vec.fresh fg0, Vec.fresh vars2⟩ = some ((), out2) →
          dynResidualsZero N out2.fg.data → stateAt N vars2 0 = stateAt N vars 0 →
          (∀ t, t < N - 1 →
            deltaAt N vars2 t = deltaAt N vars t ∧ aAt N vars2 t = aAt N vars t) →
          vars2 = vars) := by
  obtain ⟨fd1, Wc, Wd, FR, R, hrun, -⟩ :=
    FG_eval_spec N hN T coeffs (by omega) fg0 [] [] vars [] [] hv hf
  refine ⟨_, hrun, ?_⟩
  intro hz
  have hg := modelGap_of_residuals_zero N hN T coeffs vars fg0 (by omega) hv hf _ hrun hz
  refine ⟨stateAt_eq_trajectory N T coeffs vars hg, ?_⟩
  intro vars2 out2 hv2 hrun2 hz2 h0 hctrl
  have hg2 := modelGap_of_residuals_zero N hN T coeffs vars2 fg0 (by omega) hv2 hf _ hrun2 hz2
  exact vars_eq_of_trajectory N hN T coeffs vars2 vars hv2 hv hg2 hg h0 hctrl

/-- C19, for `N = 2`: the residuals of `straightVars` are 0, and its state
blocks are the trajectory of the model from its first state. -/
theorem C19_zero_residuals_determine_states_witness :
    ∃ out, FG_eval 2 ratTrig [0, 0, 0, 0] ⟨Vec.fresh fgZero, Vec.fresh straightVars⟩ =
        some ((), out) ∧
      dynResidualsZero 2 out.fg.data ∧
      ∀ t, t < 2 → stateAt 2 straightVars t =
        trajectory ratTrig [0, 0, 0, 0] (stateAt 2 straightVars 0) (deltaAt 2 straightVars)
          (aAt 2 straightVars) t := by
  obtain ⟨out, hrun, h⟩ := C19_zero_residuals_determine_states 2 (by decide) ratTrig
    [0, 0, 0, 0] straightVars fgZero rfl (by decide) (by decide)
  have hz : dynResidualsZero 2 out.fg.data :=
    dynResidualsZero_of_modelGap 2 (by decide) ratTrig [0, 0, 0, 0] straightVars fgZero
      (by decide) (by decide) (by decide) out hrun
      (modelGap_of_trajectory 2 ratTrig [0, 0, 0, 0] ⟨0, 0, 0, 10, 0, 0⟩ (fun _ => 0)
        (fun _ => 0) straightVars straightVars_state straightVars_ctrl)
  exact ⟨out, hrun, hz, (h hz).1⟩

/-- C20: for every horizon `N ≥ 2` the loop bounds `N - 1` and `N - 2`, taken
in `size_t` arithmetic, do not wrap around; a call of `FG_eval` returns and
every index of the decision vector it has read is below `n_vars = 8 N - 2`;
and when the solver returns a vector of `n_vars` entries, `MPC::Solve` returns
and every index of that vector it has read is below `n_vars`. -/
theorem C20_reads_in_range (N : Nat) (hN : 2 ≤ N) (T : Trig K) (coeffs vars fg0 : List K)
    (hc : coeffs.length = 4) (hv : vars.length = n_vars N)
    (hf : fg0.length = 1 + n_constraints N) (solver : Problem K → solve_result K)
    (junk : Nat → Nat → K) (self : MPCObj K) (x y psi v cte epsi : K)
    (hsol : ∀ p, (solver p).x.length = n_vars N) :
    (szSub N 1 = N - 1 ∧ szSub N 2 = N - 2 ∧ n_vars N = 8 * N - 2) ∧
    (∃ out, FG_eval N T coeffs ⟨Vec.fresh fg0, Vec.fresh vars⟩ = some ((), out) ∧
      out.vars.data = vars ∧ ∀ r ∈ out.vars.reads, r < n_vars N) ∧
    (∃ run, Solve N T solver junk self [x, y, psi, v, cte, epsi] coeffs = some run ∧
      ∀ r ∈ run.sol.reads, r < n_vars N) := by
  obtain ⟨hx, hy, hpsi, hvi, hcte, hepsi, hdelta, ha, hnv, hnc, hsz⟩ := idx_eq N (by omega)
  obtain ⟨fd1, Wc, Wd, FR, R, hrun, -, -, -, -, -, -, hR⟩ :=
    FG_eval_spec N hN T coeffs (by omega) fg0 [] [] vars [] [] hv hf
  obtain ⟨run, p, R2, hrun2, -, -, -, -, -, -, -, hsolv, hR2⟩ :=
    Solve_spec N hN T solver junk self x y psi v cte epsi coeffs hsol
  refine ⟨⟨hsz, szSub_of_le hN, hnv⟩, ⟨_, hrun, rfl, ?_⟩, ⟨run, hrun2, ?_⟩⟩
  · intro r hr
    simp only [List.append_nil] at hr
    exact hR r hr
  · intro r hr
    rw [hsolv] at hr
    exact hR2 r hr

/-- C20, for `N = 2`. -/
theorem C20_reads_in_range_witness :
    (szSub 2 1 = 2 - 1 ∧ szSub 2 2 = 2 - 2 ∧ n_vars 2 = 8 * 2 - 2) ∧
    (∃ out, FG_eval 2 ratTrig [0, 0, 0, 0] ⟨Vec.fresh fgZero, Vec.fresh straightVars⟩ = some ((), out) ∧
      out.vars.data = straightVars ∧ ∀ r ∈ out.vars.reads, r < n_vars 2) ∧
    (∃ run, Solve 2 ratTrig (fixedSolver status_type.success) (fun _ _ => 0) ⟨0, 0, []⟩ [1, 2, 3, 4, 5, 6] [0, 0, 0, 0] = some run ∧
      ∀ r ∈ run.sol.reads, r < n_vars 2) :=
  C20_reads_in_range 2 (by decide) ratTrig [0, 0, 0, 0] straightVars fgZero rfl (by decide)
    (by decide) (fixedSolver status_type.success) (fun _ _ => 0) ⟨0, 0, []⟩ 1 2 3 4 5 6
    (fun _ => rfl)

end Claims

end MPC
